import Mathlib

/-!
# PFQ: the batch processor's fan-out, verified against `kernel/pfq/core.c`

Shallow embedding of the numeric helpers (`clp2`, `prefold`, `pfq_fold`), of the
steering cache and of the per-group packet loop of `pfq_process_batch` (namespace `Core`);
of the socket options and the two steering engines of `pfq_receive` in `kernel/pf_q.c`
(namespace `PfQ`); and of the VoIP heuristic of `kernel/module/RTP/RTP.c` (namespace `RTP`).

Conventions.
* `unsigned int` / `uint32_t` values are naturals below `2^32`; every operation
  that can leave that range is reduced `% 2^32` where the C code wraps.
* `unsigned long` / `unsigned long long` masks are naturals below `2^64`.
* C arrays are total maps `Nat → Nat` from index to value; a write is a point
  update.  Which indices are touched is visible in the definitions.
-/

namespace Core

/-! ## Numeric helpers (core.c 58-107) -/

/-- Wrap-around of `unsigned int` arithmetic. -/
def u32 (x : Nat) : Nat := x % 2 ^ 32

/-- Wrap-around of `unsigned long` arithmetic on a 64-bit host. -/
def u64 (x : Nat) : Nat := x % 2 ^ 64

/-- The function `clp2` of core.c 63-73 (the copy in pf_q.c 262-277 has the same body):
`x = x - 1; x |= x >> 1; x |= x >> 2; x |= x >> 4; x |= x >> 8; x |= x >> 16; return x + 1;`
on `unsigned int`. -/
def clp2 (x : Nat) : Nat :=
  let x := u32 (x + 2 ^ 32 - 1)
  let x := x ||| (x >>> 1)
  let x := x ||| (x >>> 2)
  let x := x ||| (x >>> 4)
  let x := x ||| (x >>> 8)
  let x := x ||| (x >>> 16)
  u32 (x + 1)

/-- The function `prefold` of core.c 79-83. -/
def prefold (hash : Nat) : Nat :=
  hash ^^^ (hash >>> 8) ^^^ (hash >>> 16) ^^^ (hash >>> 24)

/-- The function `pfq_fold` of core.c 86-107. -/
def pfq_fold (a b : Nat) : Nat :=
  if b = 1 then 0
  else
    let c := u32 (b + 2 ^ 32 - 1)
    if b &&& c = 0 then a &&& c
    else if b = 3 then a % 3
    else if b = 5 then a % 5
    else if b = 6 then a % 6
    else if b = 7 then a % 7
    else
      let p := clp2 b
      let r := a &&& u32 (p + 2 ^ 32 - 1)
      if r < b then r else a % b

/-! ## Data model of the batch processor

The headers that declare these types (`pfq/percpu.h` with the steering cache, `pfq/qbuff.h`,
`pfq/group.h`, `pfq/sock.h`, `lang/monad.h`, `pfq/bitops.h`, `pfq/define.h`) are not part of
the sources at hand; the fields below are the ones `pfq_process_batch` reads and writes. -/

/-- Modelled from the spec: the macro `pfq_bitwise_foreach(mask, bit, body)` of `pfq/bitops.h`
runs its body once for every bit set in an `unsigned long` mask, "in ascending bit order".
The list holds the positions `pfq_ctz(bit)` in the order of the iterations; the bit itself is
`1 <<< position`. -/
def pfq_bitwise_foreach (mask : Nat) : List Nat :=
  (List.range 64).filter (fun i => mask.testBit i)

/-- Modelled from the spec: the steering-cache fields of `struct pfq_percpu_data`
("counter: u32 ... and (sock_eligible_mask, sock_cnt, sock_mask[])"); `sock_mask` is the
flat weighted array, as a map from index to value. -/
structure pfq_percpu_data where
  counter : Nat
  sock_eligible_mask : Nat
  sock_cnt : Nat
  sock_mask : Nat → Nat

/-- Modelled from the spec: the fanout kinds of `lang/monad.h` ("drop, copy (broadcast),
steering (single hash), or double-steering (two hashes)"; "a null fanout type is treated
as copy"). -/
inductive fanout_type where
  | null
  | drop
  | copy
  | steer
  | double
  deriving DecidableEq

/-- The fields of `monad.fanout` used by core.c. -/
structure fanout_t where
  class_mask : Nat
  type : fanout_type
  hash : Nat
  hash2 : Nat

/-- Modelled from the spec: `is_drop(monad.fanout)`. -/
def is_drop (f : fanout_t) : Bool := f.type = fanout_type.drop

/-- Modelled from the spec: `is_steering(monad.fanout)`, "single or double" (core.c 273). -/
def is_steering (f : fanout_t) : Bool :=
  f.type = fanout_type.steer || f.type = fanout_type.double

/-- Modelled from the spec: `is_double_steering(monad.fanout)`. -/
def is_double_steering (f : fanout_t) : Bool := f.type = fanout_type.double

/-- The on-stack `struct pfq_lang_monad monad` of core.c 118 (`group` holds the gid of the
group the monad points to). -/
structure pfq_lang_monad where
  fanout : fanout_t
  group : Nat
  state : Nat
  shift : Nat
  ipoff : Nat
  ipproto : Nat
  ep_ctx : Nat

/-- The forwarding log `buff->log`. -/
structure qbuff_log where
  to_kernel : Nat
  num_devs : Nat

/-- The fields of `struct qbuff` used by core.c; `addr` stands for the pointer identity of
the buffer (what `refs.ref[]` stores). -/
structure qbuff where
  addr : Nat
  ifindex : Nat
  rx_queue : Nat
  group_mask : Nat
  counter : Nat
  state : Nat
  log : qbuff_log

/-- A compiled functional program with its evaluator, `pfq_lang_run(buff, prg)`: from the
buffer and the monad it computes the returned `.qbuff` (`none` is `NULL`) and the monad it
leaves behind. -/
abbrev computation := qbuff → pfq_lang_monad → Option qbuff × pfq_lang_monad

/-- Per-group counters `this_group->stats` (one CPU). -/
structure group_stats where
  recv : Nat
  drop : Nat
  frwd : Nat
  kern : Nat

/-- The fields of `struct pfq_group` read by core.c: `bp_filter` is the byte-code filter
(`none` when the pointer is null) with `qbuff_run_bp_filter` applied to it, `vlan_filter` is
`qbuff_run_vlan_filter` for this group, `comp` the computation, `sock_id[class]` the
per-class socket masks. -/
structure pfq_group where
  bp_filter : Option (qbuff → Bool)
  vlan_filt_enabled : Bool
  vlan_filter : qbuff → Bool
  comp : Option computation
  sock_id : Nat → Nat
  stats : group_stats

/-- What `pfq_process_batch` takes from its environment: `weight id` is
`pfq_sock_get_by_id(id)->weight`, `devmap ifindex queue` is `pfq_devmap_get_groups`, and the
constants written into the monad before each run. -/
structure batch_env where
  weight : Nat → Nat
  devmap : Nat → Nat → Nat
  Q_CLASS_DEFAULT : Nat
  IPPROTO_NONE : Nat
  EPOINT_SRC_DST : Nat

/-- One call `pfq_copy_to_endpoint_qbuffs(so, PFQ_QBUFF_REFS(&refs), sock_queue[id], cpu, gid)`
(core.c 323), recorded with its arguments. -/
structure endpoint_copy where
  id : Nat
  gid : Nat
  refs : List (Option Nat)
  mask : Nat
  deriving DecidableEq

/-- The state of `pfq_process_batch` during phase 2: per-CPU data, the GC pool, the group
table, the on-stack monad, `sock_queue[]`, the current group's `refs` and `socket_mask`, the
calls made to `pfq_copy_to_endpoint_qbuffs` so far and the global `recv` counter. -/
structure batch_state where
  data : pfq_percpu_data
  pool : List qbuff
  groups : Nat → pfq_group
  monad : pfq_lang_monad
  sock_queue : Nat → Nat
  refs : List (Option Nat)
  socket_mask : Nat
  copies : List endpoint_copy
  global_recv : Nat

/-! ## The fan-out of `pfq_process_batch` (core.c 110-325) -/

/-- The function `mask_to_sock_queue` of core.c 47-56: for every bit of `mask`,
`sock_queue[pfq_ctz(bit)] |= 1UL << n`. -/
def mask_to_sock_queue (n mask : Nat) (sock_queue : Nat → Nat) : Nat → Nat :=
  (pfq_bitwise_foreach mask).foldl
    (fun q index => fun i => if i = index then q i ||| u64 (1 <<< n) else q i) sock_queue

/-- One iteration of core.c 290: `data->sock_mask[data->sock_cnt++] = ebit`. -/
def push_sock_mask (ebit : Nat) (data : pfq_percpu_data) : pfq_percpu_data :=
  { data with
    sock_mask := fun i => if i = data.sock_cnt then ebit else data.sock_mask i
    sock_cnt := data.sock_cnt + 1 }

/-- The loop of core.c 289-290: `for(i = 0; i < so->weight; ++i) ...`. -/
def push_weight (ebit : Nat) : Nat → pfq_percpu_data → pfq_percpu_data
  | 0, data => data
  | w + 1, data => push_weight ebit w (push_sock_mask ebit data)

/-- The rebuild of core.c 279-291. -/
def rebuild_sock_mask (weight : Nat → Nat) (eligible_mask : Nat) (data : pfq_percpu_data) :
    pfq_percpu_data :=
  (pfq_bitwise_foreach eligible_mask).foldl
    (fun d id => push_weight (1 <<< id) (weight id) d)
    { data with sock_eligible_mask := eligible_mask, sock_cnt := 0 }

/-- The cache check of core.c 277-292. -/
def steering_cache (weight : Nat → Nat) (eligible_mask : Nat) (data : pfq_percpu_data) :
    pfq_percpu_data :=
  if eligible_mask ≠ data.sock_eligible_mask then rebuild_sock_mask weight eligible_mask data
  else data

/-- The lookup `data->sock_mask[pfq_fold(prefold(hash), (unsigned int)data->sock_cnt)]`. -/
def steering_slot (data : pfq_percpu_data) (hash : Nat) : Nat :=
  data.sock_mask (pfq_fold (prefold (u32 hash)) (u32 data.sock_cnt))

/-- The selection of core.c 294-300, started from `sock_mask = 0`. -/
def steering_sock_mask (data : pfq_percpu_data) (fanout : fanout_t) : Nat :=
  if data.sock_cnt ≠ 0 then
    let sock_mask := 0 ||| steering_slot data fanout.hash
    if is_double_steering fanout then sock_mask ||| steering_slot data fanout.hash2
    else sock_mask
  else 0

/-- The loop of core.c 263-267: the OR of `sock_id[class]` over the classes of the mask. -/
def eligible_mask_of (sock_id : Nat → Nat) (class_mask : Nat) : Nat :=
  (pfq_bitwise_foreach class_mask).foldl (fun m c => m ||| u64 (sock_id c)) 0

/-- Replace the group `gid` of the table. -/
def set_group (s : batch_state) (gid : Nat) (g : pfq_group) : batch_state :=
  { s with groups := fun i => if i = gid then g else s.groups i }

/-- The statement `__sparse_inc(this_group->stats, recv, cpu)`. -/
def inc_recv (s : batch_state) (gid : Nat) : batch_state :=
  let g := s.groups gid
  set_group s gid { g with stats := { g.stats with recv := g.stats.recv + 1 } }

/-- The three statements `__sparse_inc(this_group->stats, drop, cpu);
refs.ref[refs.len++] = NULL; continue;` shared by core.c 194-196, 204-206, 235-237, 252-254. -/
def drop_packet (s : batch_state) (gid : Nat) : batch_state :=
  let g := s.groups gid
  { set_group s gid { g with stats := { g.stats with drop := g.stats.drop + 1 } } with
    refs := s.refs ++ [none] }

/-- The statements of core.c 246-247 (`size_t` differences wrap modulo `2^64`). -/
def add_frwd_kern (s : batch_state) (gid frwd kern : Nat) : batch_state :=
  let g := s.groups gid
  set_group s gid
    { g with stats := { g.stats with frwd := g.stats.frwd + frwd, kern := g.stats.kern + kern } }

/-- The statements of core.c 313-314: `mask_to_sock_queue(n, sock_mask, sock_queue);
socket_mask |= sock_mask;`. -/
def fan_out (s : batch_state) (n sock_mask : Nat) : batch_state :=
  { s with
    sock_queue := mask_to_sock_queue n sock_mask s.sock_queue
    socket_mask := s.socket_mask ||| sock_mask }

/-- The monad as set up at core.c 222-229 (`hash` and `hash2` keep their earlier values). -/
def setup_monad (e : batch_env) (gid : Nat) (monad : pfq_lang_monad) : pfq_lang_monad :=
  { fanout := { monad.fanout with class_mask := e.Q_CLASS_DEFAULT, type := fanout_type.copy }
    group := gid
    state := 0
    shift := 0
    ipoff := 0
    ipproto := e.IPPROTO_NONE
    ep_ctx := e.EPOINT_SRC_DST }

/-- The fan-out decision of core.c 263-305 for a packet that passed the computation with
the monad `monad`: the eligible mask, the cache check when steering, the resulting
`sock_mask`, and then lines 313-314. -/
def fanout_packet (e : batch_env) (gid n : Nat) (monad : pfq_lang_monad) (s : batch_state) :
    batch_state :=
  let eligible_mask := eligible_mask_of (s.groups gid).sock_id monad.fanout.class_mask
  if is_steering monad.fanout then
    let data := steering_cache e.weight eligible_mask s.data
    fan_out { s with data := data } n (steering_sock_mask data monad.fanout)
  else
    fan_out s n (0 ||| eligible_mask)

/-- The body of the inner loop of core.c 174-315 for the packet at position `n` of the pool
and the group `gid` (whose bit is `1 <<< gid`). -/
def process_packet (e : batch_env) (gid n : Nat) (s : batch_state) : batch_state :=
  match s.pool[n]? with
  | none => s
  | some buff =>
    if buff.group_mask &&& (1 <<< gid) = 0 then
      { s with refs := s.refs ++ [none] }
    else
      let s := inc_recv s gid
      let this_group := s.groups gid
      if this_group.bp_filter.any (fun run => !run buff) then drop_packet s gid
      else if this_group.vlan_filt_enabled && !this_group.vlan_filter buff then
        drop_packet s gid
      else
        let buff := { buff with state := 0 }
        let s := { s with pool := s.pool.set n buff }
        match this_group.comp with
        | some prg =>
          let to_kernel := buff.log.to_kernel
          let num_fwd := buff.log.num_devs
          match prg buff (setup_monad e gid s.monad) with
          | (none, monad) => drop_packet { s with monad := monad } gid
          | (some buff, monad) =>
            let buff := { buff with state := monad.state }
            let s := { s with monad := monad, pool := s.pool.set n buff }
            let s := add_frwd_kern s gid (u64 (buff.log.num_devs + 2 ^ 64 - num_fwd))
              (u64 (buff.log.to_kernel + 2 ^ 64 - to_kernel))
            if is_drop monad.fanout then drop_packet s gid
            else fanout_packet e gid n monad { s with refs := s.refs ++ [some buff.addr] }
        | none =>
          fan_out { s with refs := s.refs ++ [some buff.addr] } n
            (0 ||| u64 (this_group.sock_id 0))

/-- The first `k` iterations of the inner loop `for_each_qbuff_upto` for group `gid`. -/
def run_packets (e : batch_env) (gid k : Nat) (s : batch_state) : batch_state :=
  (List.range k).foldl (fun s n => process_packet e gid n s) s

/-- The statements of core.c 170-172 at the head of a group iteration:
`refs = { .len = 0 }; socket_mask = 0;`. -/
def begin_group (s : batch_state) : batch_state :=
  { s with refs := [], socket_mask := 0 }

/-- The loop of core.c 319-324: one `pfq_copy_to_endpoint_qbuffs` call per bit of
`socket_mask`, with the current `refs` and `sock_queue[id]`. -/
def copy_to_endpoints (gid : Nat) (s : batch_state) : batch_state :=
  { s with
    copies := s.copies ++
      (pfq_bitwise_foreach s.socket_mask).map
        (fun id => { id := id, gid := gid, refs := s.refs, mask := s.sock_queue id }) }

/-- One iteration of the outer loop of core.c 161-325. -/
def process_group (e : batch_env) (current_batch_len : Nat) (s : batch_state) (gid : Nat) :
    batch_state :=
  copy_to_endpoints gid (run_packets e gid current_batch_len (begin_group s))

/-- Phase 1, core.c 142-151, for one buffer: returns the buffer and the updated
`data->counter` (a `uint32_t`). -/
def setup_qbuff (e : batch_env) (counter : Nat) (buff : qbuff) : qbuff × Nat :=
  ({ buff with
      group_mask := u64 (e.devmap buff.ifindex (buff.rx_queue % 2 ^ 16))
      counter := counter },
   u32 (counter + 1))

/-- Phase 1 over the whole pool: the buffers, the final counter and `all_group_mask`. -/
def setup_qbuffs (e : batch_env) : List qbuff → Nat → Nat → List qbuff × Nat × Nat
  | [], counter, all_group_mask => ([], counter, all_group_mask)
  | buff :: rest, counter, all_group_mask =>
    let r := setup_qbuff e counter buff
    let t := setup_qbuffs e rest r.2 (all_group_mask ||| r.1.group_mask)
    (r.1 :: t.1, t.2)

/-- The state with which phase 2 starts: `sock_queue` zeroed (core.c 115), the pool set up
by phase 1, the batch length added to the global `recv` counter (core.c 156). -/
def batch_begin (e : batch_env) (data : pfq_percpu_data) (groups : Nat → pfq_group)
    (monad : pfq_lang_monad) (global_recv : Nat) (pool : List qbuff) : batch_state :=
  let r := setup_qbuffs e pool data.counter 0
  { data := { data with counter := r.2.1 }
    pool := r.1
    groups := groups
    monad := monad
    sock_queue := fun _ => 0
    refs := []
    socket_mask := 0
    copies := []
    global_recv := global_recv + pool.length }

/-- The groups visited by phase 2, in order: the bits of `all_group_mask`. -/
def batch_groups (e : batch_env) (data : pfq_percpu_data) (pool : List qbuff) : List Nat :=
  pfq_bitwise_foreach (setup_qbuffs e pool data.counter 0).2.2

/-- Phases 1 and 2 of `pfq_process_batch` (core.c 137-325) on the GC pool `pool`. -/
def pfq_process_batch (e : batch_env) (data : pfq_percpu_data) (groups : Nat → pfq_group)
    (monad : pfq_lang_monad) (global_recv : Nat) (pool : List qbuff) : batch_state :=
  (batch_groups e data pool).foldl (process_group e pool.length)
    (batch_begin e data groups monad global_recv pool)

/-- The live part `sock_mask[0 .. sock_cnt)` of the steering cache, as a list. -/
def sock_mask_live (data : pfq_percpu_data) : List Nat :=
  (List.range data.sock_cnt).map data.sock_mask

/-- A point inside phase 2 of `pfq_process_batch`: the first `j` groups of the batch have
been processed completely, and then the inner loop has run over the first `k` packets of
the pool for the group `gid`. -/
def batch_point (e : batch_env) (data : pfq_percpu_data) (groups : Nat → pfq_group)
    (monad : pfq_lang_monad) (global_recv : Nat) (pool : List qbuff) (j gid k : Nat) :
    batch_state :=
  run_packets e gid k
    (begin_group
      (((batch_groups e data pool).take j).foldl (process_group e pool.length)
        (batch_begin e data groups monad global_recv pool)))

/-! ## Concrete scenarios -/

/-- A zero-initialised per-CPU block: empty steering cache. -/
def zero_data : pfq_percpu_data :=
  { counter := 0, sock_eligible_mask := 0, sock_cnt := 0, sock_mask := fun _ => 0 }

/-- A zero-initialised monad. -/
def zero_monad : pfq_lang_monad :=
  { fanout := { class_mask := 0, type := fanout_type.null, hash := 0, hash2 := 0 }
    group := 0, state := 0, shift := 0, ipoff := 0, ipproto := 0, ep_ctx := 0 }

/-- Zeroed group counters. -/
def zero_stats : group_stats := { recv := 0, drop := 0, frwd := 0, kern := 0 }

/-- Socket weights of the weighted-steering scenario: socket A has id 0 and weight 1,
socket B has id 1 and weight 3. -/
def weight_1_3 (id : Nat) : Nat := if id = 0 then 1 else if id = 1 then 3 else 0

/-- An environment with the weights 1 and 3, every device mapped to group 0. -/
def env_1_3 : batch_env :=
  { weight := weight_1_3, devmap := fun _ _ => 1, Q_CLASS_DEFAULT := 1, IPPROTO_NONE := 59,
    EPOINT_SRC_DST := 3 }

/-- A single-steering fanout on class 0 with the given hash. -/
def steer_on (hash : Nat) : fanout_t :=
  { class_mask := 1, type := fanout_type.steer, hash := hash, hash2 := 0 }

/-- A monad carrying `steer_on hash`. -/
def steer_monad (hash : Nat) : pfq_lang_monad := { zero_monad with fanout := steer_on hash }

/-- A group without filters or computation whose class 0 is joined by the sockets of
`mask`. -/
def plain_group (mask : Nat) : pfq_group :=
  { bp_filter := none, vlan_filt_enabled := false, vlan_filter := fun _ => true, comp := none
    sock_id := fun c => if c = 0 then mask else 0, stats := zero_stats }

/-- A buffer received on the interface `ifindex` (queue 0), stored at address `addr`. -/
def fresh_qbuff (addr ifindex : Nat) : qbuff :=
  { addr := addr, ifindex := ifindex, rx_queue := 0, group_mask := 0, counter := 0, state := 0
    log := { to_kernel := 0, num_devs := 0 } }

/-- A phase-2 state over the pool `pool` with every group equal to `g`, an empty cache and
a zeroed `sock_queue`. -/
def flat_state (g : pfq_group) (pool : List qbuff) : batch_state :=
  { data := zero_data, pool := pool, groups := fun _ => g, monad := zero_monad
    sock_queue := fun _ => 0, refs := [], socket_mask := 0, copies := [], global_recv := 0 }

/-- A computation that answers every packet with a single-steering fanout on class 0 with
the given hash. -/
def steer_computation (hash : Nat) : computation :=
  fun buff monad => (some buff, { monad with fanout := steer_on hash })

/-- A group that steers with hash 7 and whose class 0 is joined by the sockets of `mask`. -/
def steering_group (mask : Nat) : pfq_group :=
  { plain_group mask with comp := some (steer_computation 7) }

/-- A buffer that belongs to group 0. -/
def member_qbuff (addr : Nat) : qbuff := { fresh_qbuff addr 1 with group_mask := 1 }

/-- Device map of the two-group scenario: interface 1 feeds the groups 0 and 1, every other
interface feeds group 1 only. -/
def two_group_devmap (ifindex _queue : Nat) : Nat := if ifindex = 1 then 3 else 2

/-- Environment of the two-group scenario. -/
def two_group_env : batch_env :=
  { weight := fun _ => 1, devmap := two_group_devmap, Q_CLASS_DEFAULT := 1, IPPROTO_NONE := 59,
    EPOINT_SRC_DST := 3 }

/-- A computation that keeps the copy fanout and sends the packets of interface 1 to class 1
(`class_mask = 0b10`) and all others to class 0 (`class_mask = 0b01`). -/
def class_by_interface : computation :=
  fun buff monad =>
    (some buff,
     { monad with
       fanout := { monad.fanout with class_mask := if buff.ifindex = 1 then 2 else 1 } })

/-- Groups of the two-group scenario: group 0 has no computation, group 1 runs
`class_by_interface`; in both only socket 0 has joined, under class 0, so class 1 has no
socket. -/
def two_groups (gid : Nat) : pfq_group :=
  if gid = 0 then plain_group 1 else { plain_group 1 with comp := some class_by_interface }

/-- The batch of the two-group scenario: packet 0 arrives on interface 1, packet 1 on
interface 2. -/
def two_group_pool : List qbuff := [fresh_qbuff 100 1, fresh_qbuff 101 2]

/-! ## Accounting of the packet step (core.c 181-255) -/

/-- The test of core.c 181: the packet at position `n` belongs to the group `gid`. -/
def packet_belongs (gid n : Nat) (s : batch_state) : Bool :=
  match s.pool[n]? with
  | none => false
  | some buff => !decide (buff.group_mask &&& (1 <<< gid) = 0)

/-- The packet at position `n` belongs to the group `gid` and is rejected: by the byte-code
filter (core.c 192-197), or else by the VLAN filter (core.c 202-207), or else by the
computation, which returns null (core.c 234-238) or leaves a drop fanout (core.c 251-255). -/
def packet_rejected (e : batch_env) (gid n : Nat) (s : batch_state) : Bool :=
  match s.pool[n]? with
  | none => false
  | some buff =>
    if buff.group_mask &&& (1 <<< gid) = 0 then false
    else if (s.groups gid).bp_filter.any (fun run => !run buff) then true
    else if (s.groups gid).vlan_filt_enabled && !(s.groups gid).vlan_filter buff then true
    else
      match (s.groups gid).comp with
      | none => false
      | some prg =>
        match prg { buff with state := 0 } (setup_monad e gid s.monad) with
        | (none, _) => true
        | (some _, monad) => is_drop monad.fanout

/-- Modelled from the spec: what `pfq_copy_to_endpoint_qbuffs` (not in the sources) is handed
at batch position `n` by a recorded call: "all Qbuffs referenced by bits set in
`sock_queue[sid]`, reading from `refs[]`". -/
def handed (c : endpoint_copy) (n : Nat) : Bool :=
  c.mask.testBit n && (c.refs.getD n none).isSome

/-- The number of packets handed by a recorded call. -/
def handed_count (c : endpoint_copy) : Nat :=
  ((List.range 64).filter (handed c)).length

/-! ## Phase 4 of `pfq_process_batch` (core.c 338-363) -/

/-- Modelled from the spec: `fwd_to_kernel(buff)`, "if `log.to_kernel > 0`". -/
def fwd_to_kernel (buff : qbuff) : Bool := decide (0 < buff.log.to_kernel)

/-- What phase 4 does with the buffers, in order: the addresses passed to
`qbuff_free(buff, &pool->rx)`, the addresses passed to `qbuff_move_or_copy_to_kernel`, and
the increments of the global `kern` counter. -/
structure release_log where
  freed : List Nat
  to_kernel : List Nat
  kern : Nat
  deriving DecidableEq

/-- The body of the loop of core.c 340-358 for one buffer; `peeked addr` is
`QBUFF_SKB(buff)->peeked` of the buffer stored at `addr`. -/
def release_qbuff (peeked : Nat → Bool) (log : release_log) (buff : qbuff) : release_log :=
  if fwd_to_kernel buff then
    let log := { log with to_kernel := log.to_kernel ++ [buff.addr] }
    let log := if peeked buff.addr then { log with freed := log.freed ++ [buff.addr] } else log
    { log with kern := log.kern + 1 }
  else
    { log with freed := log.freed ++ [buff.addr] }

/-- The loop of core.c 340-358 over the GC pool. -/
def release_qbuffs (peeked : Nat → Bool) (pool : List qbuff) : release_log :=
  pool.foldl (release_qbuff peeked) { freed := [], to_kernel := [], kern := 0 }

/-- Phase 4 and the end of `pfq_process_batch` (core.c 338-363) after phases 1 and 2:
the release log, the GC pool after `GC_reset` (empty) and the return value 0. -/
def pfq_process_batch_end (peeked : Nat → Bool) (s : batch_state) :
    release_log × batch_state × Int :=
  (release_qbuffs peeked s.pool, { s with pool := [] }, 0)

/-- Two group records agree in everything but the counters (proof device). -/
def group_config_eq (a b : pfq_group) : Prop :=
  a.bp_filter = b.bp_filter ∧ a.vlan_filt_enabled = b.vlan_filt_enabled ∧
    a.vlan_filter = b.vlan_filter ∧ a.comp = b.comp ∧ a.sock_id = b.sock_id

/-- State `b` extends state `a` (proof device): `refs` has only grown at its end, and no bit
of `sock_queue` or `socket_mask` has been cleared. -/
def state_le (a b : batch_state) : Prop :=
  (∃ t, b.refs = a.refs ++ t) ∧
  (∀ sid i, (a.sock_queue sid).testBit i = true → (b.sock_queue sid).testBit i = true) ∧
  (∀ i, a.socket_mask.testBit i = true → b.socket_mask.testBit i = true)

/-! ## Scenarios with a broadcasting computation -/

/-- A computation that answers every packet with a copy fanout on class 0
(`class_mask = 0b1`) and returns the buffer it was given. -/
def broadcast_computation : computation :=
  fun buff monad =>
    (some buff,
     { monad with fanout := { monad.fanout with class_mask := 1, type := fanout_type.copy } })

/-- A byte-code filter that accepts the buffers stored at address `a` and above. -/
def filter_from (a : Nat) : qbuff → Bool := fun buff => decide (a ≤ buff.addr)

/-- A broadcasting group whose class 0 is joined by the sockets of `mask`. -/
def broadcast_group (mask : Nat) : pfq_group :=
  { plain_group mask with comp := some broadcast_computation }

/-- A broadcasting group with a byte-code filter that rejects the buffers below address
110. -/
def filtered_group (mask : Nat) : pfq_group :=
  { broadcast_group mask with bp_filter := some (filter_from 110) }

/-- A batch of `k` buffers received on interface 1, stored at the addresses `a, a+1, ...`. -/
def qbuff_run (a k : Nat) : List qbuff := (List.range k).map (fun i => fresh_qbuff (a + i) 1)

/-- A computation that marks the packet for the kernel (`log->to_kernel += 1`) and leaves
the fanout of the monad as it was set up. -/
def kernel_computation : computation :=
  fun buff monad =>
    (some { buff with log := { buff.log with to_kernel := buff.log.to_kernel + 1 } }, monad)

/-- A group without sockets whose computation passes every packet to the kernel. -/
def kernel_group : pfq_group := { plain_group 0 with comp := some kernel_computation }

/-- The state after phases 1 and 2 of a batch with one packet under `kernel_group`. -/
def kernel_batch : batch_state :=
  pfq_process_batch env_1_3 zero_data (fun _ => kernel_group) zero_monad 0 [fresh_qbuff 100 1]

/-- A phase-2 state with two packets of group 0 under `broadcast_group 7` (sockets 0, 1, 2
joined under class 0). -/
def broadcast_pair : batch_state :=
  flat_state (broadcast_group 7) [member_qbuff 100, member_qbuff 101]

/-- The broadcast scenario, first batch: 64 packets under `broadcast_group 7`. -/
def broadcast_batch_1 : batch_state :=
  pfq_process_batch env_1_3 zero_data (fun _ => broadcast_group 7) zero_monad 0
    (qbuff_run 100 64)

/-- The broadcast scenario, second batch: the remaining 36 of 100 packets, processed with the
per-CPU data, groups and monad left by the first batch. -/
def broadcast_batch_2 : batch_state :=
  pfq_process_batch env_1_3 broadcast_batch_1.data broadcast_batch_1.groups
    broadcast_batch_1.monad broadcast_batch_1.global_recv (qbuff_run 164 36)

/-- The byte-code filter scenario: 20 packets, the first 10 rejected by the filter of
`filtered_group 7`, at the start of phase 2. -/
def filtered_start : batch_state :=
  batch_begin env_1_3 zero_data (fun _ => filtered_group 7) zero_monad 0 (qbuff_run 100 20)

/-- Two buffers at the end of a batch: the first is forwarded to the kernel, the second is
not. -/
def release_pair : batch_state :=
  flat_state (plain_group 0)
    [{ member_qbuff 100 with log := { to_kernel := 1, num_devs := 0 } }, member_qbuff 101]

/-! ## Phase 1: the packet counters (core.c 142-151) -/

/-- The values `buff->counter` of the buffers of a pool, in arrival order. -/
def pool_counters (pool : List qbuff) : List Nat := pool.map (fun buff => buff.counter)

/-- A per-CPU block whose 32-bit counter holds its largest value. -/
def last_count_data : pfq_percpu_data := { zero_data with counter := 2 ^ 32 - 1 }

/-! ## The mask fanned out by a packet step and the cache invariant -/

/-- The value of the local `sock_mask` (core.c 178) with which the step of the packet at
position `n` under the group `gid` reaches `mask_to_sock_queue(n, sock_mask, sock_queue)`
(core.c 313), and 0 on the paths that leave the loop body before (skip, filters, null result,
drop fanout). -/
def packet_sock_mask (e : batch_env) (gid n : Nat) (s : batch_state) : Nat :=
  match s.pool[n]? with
  | none => 0
  | some buff =>
    if buff.group_mask &&& (1 <<< gid) = 0 then 0
    else if (s.groups gid).bp_filter.any (fun run => !run buff) then 0
    else if (s.groups gid).vlan_filt_enabled && !(s.groups gid).vlan_filter buff then 0
    else
      match (s.groups gid).comp with
      | none => 0 ||| u64 ((s.groups gid).sock_id 0)
      | some prg =>
        match prg { buff with state := 0 } (setup_monad e gid s.monad) with
        | (none, _) => 0
        | (some _, monad) =>
          if is_drop monad.fanout then 0
          else
            let eligible_mask :=
              eligible_mask_of (s.groups gid).sock_id monad.fanout.class_mask
            if is_steering monad.fanout then
              steering_sock_mask (steering_cache e.weight eligible_mask s.data) monad.fanout
            else 0 ||| eligible_mask

/-- The invariant of the steering cache: every entry of `sock_mask[0 .. sock_cnt)` is a
single-bit mask whose bit is set in `sock_eligible_mask`, and `sock_cnt = 0` when that mask
is 0. -/
def cache_inv (data : pfq_percpu_data) : Prop :=
  (∀ i, i < data.sock_cnt →
    ∃ sid, data.sock_mask i = 1 <<< sid ∧ data.sock_eligible_mask.testBit sid = true) ∧
  (data.sock_eligible_mask = 0 → data.sock_cnt = 0)

/-- The invariant used for the index bounds of the fan-out (proof device): the cache
invariant, every socket id of every `sock_id[]` below `bound`, and every socket recorded in
`socket_mask` or in a copy below `bound`. -/
def bound_inv (bound : Nat) (s : batch_state) : Prop :=
  cache_inv s.data ∧
  (∀ gid c i, (u64 ((s.groups gid).sock_id c)).testBit i = true → i < bound) ∧
  (∀ i, s.socket_mask.testBit i = true → i < bound) ∧
  (∀ c, c ∈ s.copies → c.id < bound)

/-- A phase-2 state with one packet of group 0 under `steering_group 3` (sockets 0 and 1
joined under class 0) and a zeroed cache. -/
def steer_start : batch_state := flat_state (steering_group 3) [member_qbuff 100]

/-- The state of phase 2 of `pfq_process_batch` after the first `j` groups of the batch have
been processed completely. -/
def after_groups (e : batch_env) (data : pfq_percpu_data) (groups : Nat → pfq_group)
    (monad : pfq_lang_monad) (global_recv : Nat) (pool : List qbuff) (j : Nat) : batch_state :=
  ((batch_groups e data pool).take j).foldl (process_group e pool.length)
    (batch_begin e data groups monad global_recv pool)

/-- Predicate `TopFilled n m y` (proof device for `clp2`): `y` fits in `n` bits and its `m`
highest bits below `n` are all set. -/
def TopFilled (n m y : Nat) : Prop :=
  y < 2 ^ n ∧ ∀ i, i < n → n ≤ i + m → y.testBit i = true

end Core

namespace PfQ

/-- The function `clp2` of pf_q.c 262-277 (same body as the one of core.c). -/
def clp2 (x : Nat) : Nat :=
  let x := Core.u32 (x + 2 ^ 32 - 1)
  let x := x ||| (x >>> 1)
  let x := x ||| (x >>> 2)
  let x := x ||| (x >>> 4)
  let x := x ||| (x >>> 8)
  let x := x ||| (x >>> 16)
  Core.u32 (x + 1)

/-! ## Socket ids and the user queue (pf_q.c 105-198) -/

/-- The errno values of the Linux kernel used by pf_q.c. -/
def EPERM : Int := 1

/-- The errno value `ENOMEM`. -/
def ENOMEM : Int := 12

/-- The errno value `EFAULT`. -/
def EFAULT : Int := 14

/-- The errno value `EBUSY`. -/
def EBUSY : Int := 16

/-- The errno value `EINVAL`. -/
def EINVAL : Int := 22

/-- The errno value `EPROTONOSUPPORT`. -/
def EPROTONOSUPPORT : Int := 93

/-- The errno value `ESOCKTNOSUPPORT`. -/
def ESOCKTNOSUPPORT : Int := 94

/-- A value of type `int` or `atomic_t`: the integer wrapped into `[-2^31, 2^31)`. -/
def int32 (x : Int) : Int := (x + 2 ^ 31) % 2 ^ 32 - 2 ^ 31

/-- The counters of `pq->q_stat` (and of `struct pfq_stats`); a sparse counter is represented
by its sum over the CPUs. -/
structure pfq_stats where
  recv : Nat
  lost : Nat
  drop : Nat
  deriving DecidableEq

/-- Modelled from the spec: `struct pfq_opt` is declared in a header that is not part of
src; these are the fields that pf_q.c reads and writes. "Socket table entries": id, the
timestamp flag, the active flag, the queue memory, capture length, offset, slot size, slots
and the counters. `q_addr = 0` is the null pointer. -/
structure pfq_opt where
  q_id : Int
  q_tstamp : Int
  q_active : Bool
  q_addr : Nat
  q_queue_mem : Nat
  q_caplen : Nat
  q_offset : Nat
  q_slot_size : Nat
  q_slots : Nat
  q_stat : pfq_stats
  deriving DecidableEq

/-- The kernel primitive `atomic_long_cmpxchg(pfq_vector + n, old, new)`: returns the value
found in the slot and stores `new` when that value is `old`. -/
def atomic_long_cmpxchg (pfq_vector : Nat → Nat) (n old new : Nat) : Nat × (Nat → Nat) :=
  (pfq_vector n, if pfq_vector n = old then Function.update pfq_vector n new else pfq_vector)

/-- The loop of `pfq_get_free_id` (pf_q.c 138-142) from index `n`, with `fuel = Q_MAX_ID - n`
iterations left; at `fuel = 0` the loop condition `n < Q_MAX_ID` fails and -1 is returned. -/
def get_free_id_from (pq : Nat) (pfq_vector : Nat → Nat) : Nat → Nat → Int × (Nat → Nat)
  | 0, _ => (-1, pfq_vector)
  | fuel + 1, n =>
    let r := atomic_long_cmpxchg pfq_vector n 0 pq
    if r.1 = 0 then ((n : Int), r.2)
    else get_free_id_from pq r.2 fuel (n + 1)

/-- The function `pfq_get_free_id` of pf_q.c 134-144; `pq` is the pointer stored in the slot,
the result is the returned id together with `pfq_vector` after the call. -/
def pfq_get_free_id (Q_MAX_ID : Nat) (pq : Nat) (pfq_vector : Nat → Nat) : Int × (Nat → Nat) :=
  get_free_id_from pq pfq_vector Q_MAX_ID 0

/-- The function `pfq_release_id` of pf_q.c 163-172. -/
def pfq_release_id (Q_MAX_ID : Nat) (id : Int) (pfq_vector : Nat → Nat) : Nat → Nat :=
  if id ≥ (Q_MAX_ID : Int) ∨ id < 0 then pfq_vector
  else Function.update pfq_vector id.toNat 0

/-- The kernel primitive `hweight64`: the number of set bits among the low 64. -/
def hweight64 (x : Nat) : Nat := ((List.range 64).filter (fun i => x.testBit i)).length

/-- The function `pfq_copy_to_user_skbs` of pf_q.c 175-198. The absent `mpdb_enqueue_batch`
is a parameter giving the number of packets the queue accepted (a `size_t`); `len_size` is
`len` converted to `size_t` for the comparison and the subtraction. Returns the boolean
result and the socket with its counters updated. -/
def pfq_copy_to_user_skbs (mpdb_enqueue_batch : pfq_opt → Nat → Int → Nat) (pq : pfq_opt)
    (batch_queue : Nat) : Bool × pfq_opt :=
  if pq.q_active then
    let len : Int := int32 (hweight64 batch_queue)
    let sent : Nat := mpdb_enqueue_batch pq batch_queue len
    let pq := { pq with q_stat := { pq.q_stat with recv := pq.q_stat.recv + sent } }
    let len_size : Nat := (len % 2 ^ 64).toNat
    if len_size > sent then
      (false,
        { pq with
          q_stat := { pq.q_stat with lost := pq.q_stat.lost + Core.u64 (len_size + 2 ^ 64 - sent) } })
    else (true, pq)
  else (true, pq)

/-! ## Socket construction and release (pf_q.c 757-930) -/

/-- The objects whose `sizeof` is compared with the option length in `pfq_getsockopt` and
`pfq_setsockopt`. -/
inductive sized
  | int
  | unsigned_long
  | q_id
  | q_active
  | q_tstamp
  | q_queue_mem
  | q_caplen
  | q_slots
  | q_offset
  | pfq_stats
  | pfq_group_join
  | pfq_binding
  | pfq_group_state
  | pfq_steering
  | pfq_fprog
  | pfq_vlan_toggle
  deriving DecidableEq

/-- A call made by pf_q.c to a function that changes device-map, group or queue state and is
not part of src, recorded with its arguments. -/
inductive effect
  | mpdb_queue_alloc (id : Int)
  | mpdb_queue_free (id : Int)
  | pfq_devmap_update (set : Bool) (if_index hw_queue gid : Int)
  | pfq_join_free_group (id : Int) (class_mask : Nat) (policy : Int)
  | pfq_join_group (gid id : Int) (class_mask : Nat) (policy : Int)
  | pfq_leave_group (gid id : Int)
  | pfq_leave_all_groups (id : Int)
  | set_group_state (gid : Int) (state : Nat)
  | set_group_steering (gid : Int) (steering : Nat)
  | set_group_filter (gid : Int) (filter : Nat)
  | toggle_group_vlan_filters (gid toggle : Int)
  | set_group_vlan_filter (gid toggle vid : Int)
  | kfree (ptr : Nat)
  | sock_setsockopt (optname : Int)
  deriving DecidableEq

/-- What the socket control functions take from their environment: the constants and module
parameters, `sizeof`, and the results of the functions that are not part of src
(`__pfq_has_joined_group(gid, id)`, `__pfq_vlan_filters_enabled(gid)`,
`__pfq_group_access(gid, id, Q_GROUP_UNDEFINED, false)`, `pfq_join_free_group`,
`pfq_join_group`, `pfq_leave_group`, `pfq_get_groups`, the group counters, `mpdb_queue_alloc`
with the value it stores in `q_queue_mem`, `q_addr` and `q_queue_mem` after
`mpdb_queue_free`, `kmalloc`, the second `copy_from_user` of the group state,
`strncpy_from_user`, `pfq_get_steering_function`, `pfq_alloc_sk_filter`,
`sock_setsockopt`). Pointers are numbers, 0 is null. -/
structure pfq_env where
  Q_MAX_ID : Nat
  Q_MAX_GROUP : Int
  Q_ANY_GROUP : Int
  cap_len : Nat
  queue_slots : Nat
  DBMP_QUEUE_SLOT_SIZE : Nat → Nat
  sizeof : sized → Nat
  has_joined_group : Int → Int → Bool
  vlan_filters_enabled : Int → Bool
  group_access : Int → Int → Bool
  join_free_group : Int → Nat → Int → Int
  join_group : Int → Int → Nat → Int → Int
  leave_group : Int → Int → Int
  get_groups : Int → Nat
  group_stats : Int → pfq_stats
  mpdb_queue_alloc : pfq_opt → Nat × Nat
  mpdb_queue_free : pfq_opt → Nat × Nat
  kmalloc : Nat → Nat
  copy_state_fault : Nat → Nat → Bool
  strncpy_from_user : Nat → Int
  get_steering_function : Nat → Nat
  alloc_sk_filter : Nat → Nat
  sock_setsockopt : Int → Int

/-- The global state touched by the socket control functions: the process-wide `atomic_t
timestamp_toggle` (pf_q.c 109) and the calls recorded so far. -/
structure pfq_state where
  timestamp_toggle : Int
  effects : List effect
  deriving DecidableEq

/-- Record one call. -/
def pfq_state.call (st : pfq_state) (c : effect) : pfq_state :=
  { st with effects := st.effects ++ [c] }

/-- The kernel primitive `atomic_add(i, &timestamp_toggle)`. -/
def atomic_add (i : Int) (st : pfq_state) : pfq_state :=
  { st with timestamp_toggle := int32 (st.timestamp_toggle + i) }

/-- The kernel primitive `atomic_dec(&timestamp_toggle)`. -/
def atomic_dec (st : pfq_state) : pfq_state :=
  { st with timestamp_toggle := int32 (st.timestamp_toggle - 1) }

/-- The object left by `memset(pq, 0, sizeof(struct pfq_opt))`. -/
def zero_opt : pfq_opt :=
  { q_id := 0, q_tstamp := 0, q_active := false, q_addr := 0, q_queue_mem := 0, q_caplen := 0
    q_offset := 0, q_slot_size := 0, q_slots := 0, q_stat := { recv := 0, lost := 0, drop := 0 } }

/-- The function `pfq_ctor` of pf_q.c 757-797 on the object at address `pq`: the return
value, the constructed object and `pfq_vector` after the call. -/
def pfq_ctor (e : pfq_env) (pq : Nat) (pfq_vector : Nat → Nat) :
    Int × pfq_opt × (Nat → Nat) :=
  let r := pfq_get_free_id e.Q_MAX_ID pq pfq_vector
  let opt : pfq_opt := { zero_opt with q_id := r.1 }
  if opt.q_id = -1 then (-EBUSY, opt, r.2)
  else
    (0,
     { opt with
       q_tstamp := 0
       q_addr := 0
       q_queue_mem := 0
       q_caplen := e.cap_len
       q_offset := 0
       q_slot_size := e.DBMP_QUEUE_SLOT_SIZE e.cap_len
       q_slots := e.queue_slots
       q_active := false
       q_stat := { recv := 0, lost := 0, drop := 0 } },
     r.2)

/-- The inputs of `pfq_create` that come from the kernel: the three sanity checks, the
pointer returned by `sk_alloc` and the pointer returned by `kmalloc` for the `pfq_opt`. -/
structure create_args where
  capable : Bool
  sock_raw : Bool
  eth_p_all : Bool
  sk : Nat
  pq : Nat

/-- The function `pfq_create` of pf_q.c 809-878: the return value, the `pfq_opt` stored in
the socket on success, and `pfq_vector` after the call. -/
def pfq_create (e : pfq_env) (a : create_args) (pfq_vector : Nat → Nat) :
    Int × Option pfq_opt × (Nat → Nat) :=
  if !a.capable then (-EPERM, none, pfq_vector)
  else if !a.sock_raw then (-ESOCKTNOSUPPORT, none, pfq_vector)
  else if !a.eth_p_all then (-EPROTONOSUPPORT, none, pfq_vector)
  else if a.sk = 0 then (-ENOMEM, none, pfq_vector)
  else if a.pq = 0 then (-ENOMEM, none, pfq_vector)
  else
    let r := pfq_ctor e a.pq pfq_vector
    if r.1 ≠ 0 then (-ENOMEM, none, r.2.2)
    else (0, some r.2.1, r.2.2)

/-- The function `pfq_dtor` of pf_q.c 800-806. -/
def pfq_dtor (e : pfq_env) (pq : pfq_opt) (st : pfq_state) (pfq_vector : Nat → Nat) :
    pfq_state × (Nat → Nat) :=
  (st.call (effect.mpdb_queue_free pq.q_id), pfq_release_id e.Q_MAX_ID pq.q_id pfq_vector)

/-- The function `pfq_release` of pf_q.c 881-930; `sk` is `sock->sk` (`none` when null) and
holds `pfq_sk(sk)->opt` (`none` when null). The `pfq_opt` is freed by the call. -/
def pfq_release (e : pfq_env) (sk : Option (Option pfq_opt)) (st : pfq_state)
    (pfq_vector : Nat → Nat) : Int × pfq_state × (Nat → Nat) :=
  match sk with
  | none => (0, st, pfq_vector)
  | some none => (0, st, pfq_vector)
  | some (some pq) =>
    let st := if pq.q_tstamp ≠ 0 then atomic_dec st else st
    let pq := { pq with q_active := false }
    let st := st.call (effect.pfq_leave_all_groups pq.q_id)
    let r := pfq_dtor e pq st pfq_vector
    (0, r.1, r.2)

/-! ## The socket options (pf_q.c 933-1467) -/

/-- The outcome of a `copy_from_user` or `get_user`: `fault` is a non-zero return, `value`
is what the destination holds after the call. -/
structure user_copy (α : Type) where
  fault : Bool
  value : α

/-- The fields of `struct pfq_group_join` used by pf_q.c. -/
structure pfq_group_join where
  gid : Int
  class_mask : Nat
  policy : Int
  deriving DecidableEq

/-- The fields of `struct pfq_binding` used by pf_q.c. -/
structure pfq_binding where
  gid : Int
  if_index : Int
  hw_queue : Int

/-- The fields of `struct pfq_group_state` used by pf_q.c; `state` is a user pointer. -/
structure pfq_group_state where
  gid : Int
  size : Nat
  state : Nat

/-- The fields of `struct pfq_steering` used by pf_q.c; `name` is a user pointer. -/
structure pfq_steering where
  gid : Int
  name : Nat

/-- The fields of `struct pfq_fprog` used by pf_q.c: the gid, `fcode.len` and the program
(as a number standing for `&fprog.fcode`). -/
structure pfq_fprog where
  gid : Int
  fcode_len : Int
  fcode : Nat

/-- The fields of `struct pfq_vlan_toggle` used by pf_q.c. -/
structure pfq_vlan_toggle where
  gid : Int
  vid : Int
  toggle : Int

/-- A call of `pfq_setsockopt`: the option name together with what `copy_from_user` reads
for it from `optval`. -/
inductive setsockopt_call
  | TOGGLE_QUEUE (active : user_copy Int)
  | ADD_BINDING (bind : user_copy pfq_binding)
  | REMOVE_BINDING (bind : user_copy pfq_binding)
  | SET_TSTAMP (tstamp : user_copy Int)
  | SET_CAPLEN (caplen : user_copy Nat)
  | SET_SLOTS (slots : user_copy Nat)
  | SET_OFFSET (offset : user_copy Nat)
  | GROUP_LEAVE (gid : user_copy Int)
  | GROUP_STATE (s : user_copy pfq_group_state)
  | GROUP_STEER_FUN (s : user_copy pfq_steering)
  | GROUP_FPROG (fprog : user_copy pfq_fprog)
  | GROUP_VLAN_FILT_TOGGLE (vlan : user_copy pfq_vlan_toggle)
  | GROUP_VLAN_FILT (filt : user_copy pfq_vlan_toggle)
  | other (optname : Int)

/-- The loop `for(i = 1; i < 4095; i++) __pfq_set_group_vlan_filter(gid, toggle, i)` of
pf_q.c 1451-1456. -/
def vlan_filter_all (gid toggle : Int) (st : pfq_state) : pfq_state :=
  (List.range' 1 (4095 - 1)).foldl
    (fun st (i : Nat) => st.call (effect.set_group_vlan_filter gid toggle (i : Int))) st

/-- The function `pfq_setsockopt` of pf_q.c 1107-1467 on the socket whose `pfq_sk(sk)->opt`
is `pq` (`none` when null): the return value, the `pfq_opt` and the global state after the
call. -/
def pfq_setsockopt (e : pfq_env) (pq : Option pfq_opt) (optlen : Nat) (call : setsockopt_call)
    (st : pfq_state) : Int × Option pfq_opt × pfq_state :=
  match pq with
  | none => (-EINVAL, none, st)
  | some pq =>
    match call with
    | .TOGGLE_QUEUE active =>
      if optlen ≠ e.sizeof sized.int then (-EINVAL, some pq, st)
      else if active.fault then (-EFAULT, some pq, st)
      else if active.value ≠ 0 then
        if pq.q_addr = 0 then
          let r := e.mpdb_queue_alloc pq
          let st := st.call (effect.mpdb_queue_alloc pq.q_id)
          let pq := { pq with q_addr := r.1, q_queue_mem := r.2 }
          if pq.q_addr = 0 then (-ENOMEM, some pq, st)
          else (0, some { pq with q_active := true }, st)
        else (0, some pq, st)
      else
        let pq := { pq with q_active := false }
        let r := e.mpdb_queue_free pq
        (0, some { pq with q_addr := r.1, q_queue_mem := r.2 },
          st.call (effect.mpdb_queue_free pq.q_id))
    | .ADD_BINDING bind =>
      if optlen ≠ e.sizeof sized.pfq_binding then (-EINVAL, some pq, st)
      else if bind.fault then (-EFAULT, some pq, st)
      else if bind.value.gid < 0 ∨ bind.value.gid ≥ e.Q_MAX_GROUP then (-EINVAL, some pq, st)
      else if !e.has_joined_group bind.value.gid pq.q_id then (-EPERM, some pq, st)
      else
        (0, some pq,
          st.call (effect.pfq_devmap_update true bind.value.if_index bind.value.hw_queue
            bind.value.gid))
    | .REMOVE_BINDING bind =>
      if optlen ≠ e.sizeof sized.pfq_binding then (-EINVAL, some pq, st)
      else if bind.fault then (-EFAULT, some pq, st)
      else if bind.value.gid < 0 ∨ bind.value.gid ≥ e.Q_MAX_GROUP then (-EINVAL, some pq, st)
      else if !e.has_joined_group bind.value.gid pq.q_id then (-EPERM, some pq, st)
      else
        (0, some pq,
          st.call (effect.pfq_devmap_update false bind.value.if_index bind.value.hw_queue
            bind.value.gid))
    | .SET_TSTAMP tstamp =>
      if optlen ≠ e.sizeof sized.q_tstamp then (-EINVAL, some pq, st)
      else if tstamp.fault then (-EFAULT, some pq, st)
      else if tstamp.value ≠ 0 ∧ tstamp.value ≠ 1 then (-EINVAL, some pq, st)
      else
        (0, some { pq with q_tstamp := tstamp.value },
          atomic_add (tstamp.value - pq.q_tstamp) st)
    | .SET_CAPLEN caplen =>
      if optlen ≠ e.sizeof sized.q_caplen then (-EINVAL, some pq, st)
      else
        let pq := { pq with q_caplen := caplen.value }
        if caplen.fault then (-EFAULT, some pq, st)
        else (0, some { pq with q_slot_size := e.DBMP_QUEUE_SLOT_SIZE pq.q_caplen }, st)
    | .SET_SLOTS slots =>
      if optlen ≠ e.sizeof sized.q_slots then (-EINVAL, some pq, st)
      else
        let pq := { pq with q_slots := slots.value }
        if slots.fault then (-EFAULT, some pq, st)
        else (0, some pq, st)
    | .SET_OFFSET offset =>
      if optlen ≠ e.sizeof sized.q_offset then (-EINVAL, some pq, st)
      else
        let pq := { pq with q_offset := offset.value }
        if offset.fault then (-EFAULT, some pq, st)
        else (0, some pq, st)
    | .GROUP_LEAVE gid =>
      if optlen ≠ e.sizeof sized.int then (-EINVAL, some pq, st)
      else if gid.fault then (-EFAULT, some pq, st)
      else
        let st := st.call (effect.pfq_leave_group gid.value pq.q_id)
        if e.leave_group gid.value pq.q_id < 0 then (-EFAULT, some pq, st)
        else (0, some pq, st)
    | .GROUP_STATE s =>
      if optlen ≠ e.sizeof sized.pfq_group_state then (-EINVAL, some pq, st)
      else if s.fault then (-EFAULT, some pq, st)
      else if s.value.gid < 0 ∨ s.value.gid ≥ e.Q_MAX_GROUP then (-EINVAL, some pq, st)
      else if !e.has_joined_group s.value.gid pq.q_id then (-EPERM, some pq, st)
      else if s.value.size ≠ 0 ∧ s.value.state ≠ 0 then
        let state := e.kmalloc s.value.size
        if state = 0 then (-ENOMEM, some pq, st)
        else if e.copy_state_fault s.value.state s.value.size then
          (-EFAULT, some pq, st.call (effect.kfree state))
        else (0, some pq, st.call (effect.set_group_state s.value.gid state))
      else (0, some pq, st.call (effect.set_group_state s.value.gid 0))
    | .GROUP_STEER_FUN s =>
      if optlen ≠ e.sizeof sized.pfq_steering then (-EINVAL, some pq, st)
      else if s.fault then (-EFAULT, some pq, st)
      else if s.value.gid < 0 ∨ s.value.gid ≥ e.Q_MAX_GROUP then (-EINVAL, some pq, st)
      else if !e.has_joined_group s.value.gid pq.q_id then (-EPERM, some pq, st)
      else if s.value.name = 0 then
        (0, some pq, st.call (effect.set_group_steering s.value.gid 0))
      else if e.strncpy_from_user s.value.name < 0 then (-EFAULT, some pq, st)
      else
        let steering := e.get_steering_function s.value.name
        if steering = 0 then (-EINVAL, some pq, st)
        else (0, some pq, st.call (effect.set_group_steering s.value.gid steering))
    | .GROUP_FPROG fprog =>
      if optlen ≠ e.sizeof sized.pfq_fprog then (-EINVAL, some pq, st)
      else if fprog.fault then (-EFAULT, some pq, st)
      else if fprog.value.gid < 0 ∨ fprog.value.gid ≥ e.Q_MAX_GROUP then
        (-EINVAL, some pq, st)
      else if !e.has_joined_group fprog.value.gid pq.q_id then (-EPERM, some pq, st)
      else if fprog.value.fcode_len > 0 then
        let filter := e.alloc_sk_filter fprog.value.fcode
        if filter = 0 then (-EINVAL, some pq, st)
        else (0, some pq, st.call (effect.set_group_filter fprog.value.gid filter))
      else (0, some pq, st.call (effect.set_group_filter fprog.value.gid 0))
    | .GROUP_VLAN_FILT_TOGGLE vlan =>
      if optlen ≠ e.sizeof sized.pfq_vlan_toggle then (-EINVAL, some pq, st)
      else if vlan.fault then (-EFAULT, some pq, st)
      else if vlan.value.gid < 0 ∨ vlan.value.gid ≥ e.Q_MAX_GROUP then (-EINVAL, some pq, st)
      else if !e.has_joined_group vlan.value.gid pq.q_id then (-EPERM, some pq, st)
      else
        (0, some pq,
          st.call (effect.toggle_group_vlan_filters vlan.value.gid vlan.value.toggle))
    | .GROUP_VLAN_FILT filt =>
      if optlen ≠ e.sizeof sized.pfq_vlan_toggle then (-EINVAL, some pq, st)
      else if filt.fault then (-EFAULT, some pq, st)
      else if !e.has_joined_group filt.value.gid pq.q_id then (-EPERM, some pq, st)
      else if filt.value.gid < 0 ∨ filt.value.gid ≥ e.Q_MAX_GROUP then (-EINVAL, some pq, st)
      else if filt.value.vid < -1 ∨ filt.value.vid > 4094 then (-EINVAL, some pq, st)
      else if !e.vlan_filters_enabled filt.value.gid then (-EINVAL, some pq, st)
      else if filt.value.vid = -1 then
        (0, some pq, vlan_filter_all filt.value.gid filt.value.toggle st)
      else
        (0, some pq,
          st.call (effect.set_group_vlan_filter filt.value.gid filt.value.toggle
            filt.value.vid))
    | .other optname =>
      (e.sock_setsockopt optname, some pq, st.call (effect.sock_setsockopt optname))

/-- A call of `pfq_getsockopt`: the option name together with what `copy_from_user` reads
for it from `optval` (for the two options that read their argument). -/
inductive getsockopt_call
  | GROUP_JOIN (group : user_copy pfq_group_join)
  | GET_ID
  | GET_STATUS
  | GET_STATS
  | GET_TSTAMP
  | GET_QUEUE_MEM
  | GET_CAPLEN
  | GET_SLOTS
  | GET_OFFSET
  | GET_GROUPS
  | GET_GROUP_STATS (stat : user_copy pfq_stats)
  | other (optname : Int)

/-- What `pfq_getsockopt` stores in `optval` with `copy_to_user`. -/
inductive optval
  | int (v : Int)
  | bool (v : Bool)
  | size (v : Nat)
  | stats (v : pfq_stats)
  | join (v : pfq_group_join)
  deriving DecidableEq

/-- A successful or failed `copy_to_user(optval, src, n)` at the end of a case: with a fault
the call returns `-EFAULT`, otherwise `v` is stored and the `break` leads to `return 0`. -/
def copy_to_user (to_user_fault : Bool) (v : optval) (st : pfq_state) :
    Int × Option optval × pfq_state :=
  if to_user_fault then (-EFAULT, none, st) else (0, some v, st)

/-- The function `pfq_getsockopt` of pf_q.c 933-1105: `len` is the outcome of
`get_user(len, optlen)` and `to_user_fault` that of the final `copy_to_user`. Returns the
return value, what was stored in `optval`, and the global state. -/
def pfq_getsockopt (e : pfq_env) (pq : Option pfq_opt) (len : user_copy Int)
    (to_user_fault : Bool) (call : getsockopt_call) (st : pfq_state) :
    Int × Option optval × pfq_state :=
  match pq with
  | none => (-EFAULT, none, st)
  | some pq =>
    if len.fault then (-EFAULT, none, st)
    else if len.value < 0 then (-EINVAL, none, st)
    else
      match call with
      | .GROUP_JOIN group =>
        if len.value ≠ (e.sizeof sized.pfq_group_join : Int) then (-EINVAL, none, st)
        else if group.fault then (-EFAULT, none, st)
        else if group.value.gid < e.Q_ANY_GROUP ∨ group.value.gid ≥ e.Q_MAX_GROUP then
          (-EINVAL, none, st)
        else if group.value.class_mask = 0 then (-EINVAL, none, st)
        else if group.value.gid = e.Q_ANY_GROUP then
          let gid := e.join_free_group pq.q_id group.value.class_mask group.value.policy
          let st := st.call
            (effect.pfq_join_free_group pq.q_id group.value.class_mask group.value.policy)
          if gid < 0 then (-EFAULT, none, st)
          else copy_to_user to_user_fault (optval.join { group.value with gid := gid }) st
        else
          let st := st.call
            (effect.pfq_join_group group.value.gid pq.q_id group.value.class_mask
              group.value.policy)
          if e.join_group group.value.gid pq.q_id group.value.class_mask group.value.policy < 0
          then (-EPERM, none, st)
          else (0, none, st)
      | .GET_ID =>
        if len.value ≠ (e.sizeof sized.q_id : Int) then (-EINVAL, none, st)
        else copy_to_user to_user_fault (optval.int pq.q_id) st
      | .GET_STATUS =>
        if len.value ≠ (e.sizeof sized.q_active : Int) then (-EINVAL, none, st)
        else copy_to_user to_user_fault (optval.bool pq.q_active) st
      | .GET_STATS =>
        if len.value ≠ (e.sizeof sized.pfq_stats : Int) then (-EINVAL, none, st)
        else copy_to_user to_user_fault (optval.stats pq.q_stat) st
      | .GET_TSTAMP =>
        if len.value ≠ (e.sizeof sized.q_tstamp : Int) then (-EINVAL, none, st)
        else copy_to_user to_user_fault (optval.int pq.q_tstamp) st
      | .GET_QUEUE_MEM =>
        if len.value ≠ (e.sizeof sized.q_queue_mem : Int) then (-EINVAL, none, st)
        else copy_to_user to_user_fault (optval.size pq.q_queue_mem) st
      | .GET_CAPLEN =>
        if len.value ≠ (e.sizeof sized.q_caplen : Int) then (-EINVAL, none, st)
        else copy_to_user to_user_fault (optval.size pq.q_caplen) st
      | .GET_SLOTS =>
        if len.value ≠ (e.sizeof sized.q_slots : Int) then (-EINVAL, none, st)
        else copy_to_user to_user_fault (optval.size pq.q_slots) st
      | .GET_OFFSET =>
        if len.value ≠ (e.sizeof sized.q_offset : Int) then (-EINVAL, none, st)
        else copy_to_user to_user_fault (optval.size pq.q_offset) st
      | .GET_GROUPS =>
        if len.value ≠ (e.sizeof sized.unsigned_long : Int) then (-EINVAL, none, st)
        else copy_to_user to_user_fault (optval.size (e.get_groups pq.q_id)) st
      | .GET_GROUP_STATS stat =>
        if len.value ≠ (e.sizeof sized.pfq_stats : Int) then (-EINVAL, none, st)
        else if stat.fault then (-EFAULT, none, st)
        else
          let gid : Int := int32 stat.value.recv
          if gid < 0 ∨ gid ≥ e.Q_MAX_GROUP then (-EINVAL, none, st)
          else if !e.group_access gid pq.q_id then (-EPERM, none, st)
          else copy_to_user to_user_fault (optval.stats (e.group_stats gid)) st
      | .other _ => (-EFAULT, none, st)

/-! ## The sockets of the module as a system -/

/-- The sockets of the module: the global state, `pfq_vector`, and the `pfq_opt` of every
open socket. -/
structure pfq_system where
  st : pfq_state
  pfq_vector : Nat → Nat
  socks : List pfq_opt

/-- An operation on the module: opening a socket, a `pfq_setsockopt` call on the open socket
number `i`, closing the open socket number `i`. -/
inductive sys_op
  | create (a : create_args)
  | setsockopt (i : Nat) (optlen : Nat) (call : setsockopt_call)
  | release (i : Nat)

/-- One operation on the module, through `pfq_create`, `pfq_setsockopt` and `pfq_release`. -/
def sys_step (e : pfq_env) (s : pfq_system) : sys_op → pfq_system
  | .create a =>
    match pfq_create e a s.pfq_vector with
    | (_, some pq, pfq_vector) => { s with pfq_vector := pfq_vector, socks := s.socks ++ [pq] }
    | (_, none, pfq_vector) => { s with pfq_vector := pfq_vector }
  | .setsockopt i optlen call =>
    match s.socks[i]? with
    | none => s
    | some pq =>
      match pfq_setsockopt e (some pq) optlen call s.st with
      | (_, some pq, st) => { s with st := st, socks := s.socks.set i pq }
      | (_, none, st) => { s with st := st }
  | .release i =>
    match s.socks[i]? with
    | none => s
    | some pq =>
      let r := pfq_release e (some (some pq)) s.st s.pfq_vector
      { st := r.2.1, pfq_vector := r.2.2, socks := s.socks.eraseIdx i }

/-- The module after a sequence of operations. -/
def sys_run (e : pfq_env) (s : pfq_system) (ops : List sys_op) : pfq_system :=
  ops.foldl (sys_step e) s

/-- The module after loading: no socket, `pfq_vector` and `timestamp_toggle` zero. -/
def sys_init : pfq_system :=
  { st := { timestamp_toggle := 0, effects := [] }, pfq_vector := fun _ => 0, socks := [] }

/-- The number of open sockets whose `q_tstamp` is 1. -/
def tstamp_count (s : pfq_system) : Nat :=
  (s.socks.filter (fun pq => decide (pq.q_tstamp = 1))).length

/-- An environment for the scenarios: 64 socket ids, 16 groups, no socket has joined any
group, every allocation succeeds, `sizeof` is 4 for `int`-sized objects and 8 otherwise. -/
def plain_env : pfq_env :=
  { Q_MAX_ID := 64, Q_MAX_GROUP := 16, Q_ANY_GROUP := -1, cap_len := 1514
    queue_slots := 131072, DBMP_QUEUE_SLOT_SIZE := fun caplen => caplen + 24
    sizeof := fun o =>
      if o = sized.int ∨ o = sized.q_id ∨ o = sized.q_tstamp then 4
      else if o = sized.q_active then 1
      else if o = sized.pfq_vlan_toggle ∨ o = sized.pfq_binding ∨ o = sized.pfq_group_join
      then 12
      else if o = sized.pfq_stats then 24
      else if o = sized.pfq_group_state ∨ o = sized.pfq_steering ∨ o = sized.pfq_fprog then 16
      else 8
    has_joined_group := fun _ _ => false
    vlan_filters_enabled := fun _ => false
    group_access := fun _ _ => false
    join_free_group := fun _ _ _ => 0
    join_group := fun _ _ _ _ => 0
    leave_group := fun _ _ => 0
    get_groups := fun _ => 0
    group_stats := fun _ => { recv := 0, lost := 0, drop := 0 }
    mpdb_queue_alloc := fun _ => (4096, 65536)
    mpdb_queue_free := fun _ => (0, 0)
    kmalloc := fun _ => 8192
    copy_state_fault := fun _ _ => false
    strncpy_from_user := fun _ => 0
    get_steering_function := fun _ => 0
    alloc_sk_filter := fun _ => 0
    sock_setsockopt := fun _ => 0 }

/-- The environment `plain_env` in which the socket 0 has joined group 3 and VLAN filters
are enabled for that group. -/
def joined_env : pfq_env :=
  { plain_env with
    has_joined_group := fun gid id => decide (gid = 3 ∧ id = 0)
    vlan_filters_enabled := fun gid => decide (gid = 3) }

/-- A socket as `pfq_ctor` leaves it in `plain_env` with id 0. -/
def fresh_opt : pfq_opt :=
  { zero_opt with q_caplen := 1514, q_slot_size := 1538, q_slots := 131072 }

/-- A global state with no recorded call. -/
def fresh_state : pfq_state := { timestamp_toggle := 0, effects := [] }

/-- The invariant of the module used in the proofs (proof device): `timestamp_toggle` is the
sum of the `q_tstamp` flags of the open sockets, every flag is 0 or 1, the open sockets have
distinct ids, and each id is an occupied slot of `pfq_vector` below `Q_MAX_ID`. -/
def sys_inv (e : pfq_env) (s : pfq_system) : Prop :=
  s.st.timestamp_toggle = (s.socks.map (fun pq => pq.q_tstamp)).sum ∧
  (∀ pq, pq ∈ s.socks → pq.q_tstamp = 0 ∨ pq.q_tstamp = 1) ∧
  (s.socks.map (fun pq => pq.q_id)).Nodup ∧
  (∀ pq, pq ∈ s.socks → ∃ n : Nat, pq.q_id = (n : Int) ∧ n < e.Q_MAX_ID ∧ s.pfq_vector n ≠ 0)

/-- The arguments of a `pfq_create` that passes the sanity checks, with `pq` the address of
the new `pfq_opt`. -/
def good_create (pq : Nat) : create_args :=
  { capable := true, sock_raw := true, eth_p_all := true, sk := 1, pq := pq }

/-- A run of the module: two sockets are opened, timestamping is enabled twice on the first
and once on the second, an invalid value is tried, and the first socket is closed. -/
def tstamp_ops : List sys_op :=
  [sys_op.create (good_create 4096), sys_op.create (good_create 8192),
   sys_op.setsockopt 0 4 (.SET_TSTAMP ⟨false, 1⟩),
   sys_op.setsockopt 0 4 (.SET_TSTAMP ⟨false, 1⟩),
   sys_op.setsockopt 1 4 (.SET_TSTAMP ⟨false, 1⟩),
   sys_op.setsockopt 1 4 (.SET_TSTAMP ⟨false, 2⟩),
   sys_op.release 0]

/-- The function `pfq_fold` of pf_q.c 284-315. -/
def pfq_fold (a b : Nat) : Nat :=
  let c := Core.u32 (b + 2 ^ 32 - 1)
  if b &&& c ≠ 0 then
    if b = 3 then a % 3
    else if b = 5 then a % 5
    else if b = 6 then a % 6
    else if b = 9 then a % 9
    else if b = 10 then a % 10
    else if b = 11 then a % 11
    else if b = 12 then a % 12
    else if b = 13 then a % 13
    else if b = 17 then a % 17
    else if b = 18 then a % 18
    else if b = 19 then a % 19
    else if b = 20 then a % 20
    else
      let p := clp2 b
      let r := a &&& Core.u32 (p + 2 ^ 32 - 1)
      if r < b then r else a % b
  else a &&& c

/-- The divisors on which the two copies of `pfq_fold` take different branches: 7 is a
`case` of core.c only, the others are `case`s of pf_q.c only. -/
def fold_differs : List Nat := [7, 9, 10, 11, 12, 13, 17, 18, 19, 20]

/-! ## The steering engines of `pfq_receive` (pf_q.c 318-662)

The headers that declare `steering_t`, the action flags, `struct pfq_group` of this engine
and the macros `bitwise_foreach` and `queue_for_each` are not part of the sources at hand;
the fields below are the ones `pfq_receive` reads and writes. -/

/-- Modelled from the spec: the macro `bitwise_foreach(mask, bit)` runs its body once for
every bit set in an `unsigned long` mask, "strictly ascending"; the list holds the positions
`pfq_ctz(bit)` in the order of the iterations. -/
def bitwise_foreach (mask : Nat) : List Nat := Core.pfq_bitwise_foreach mask

/-- The function `pfq_enqueue_mask_to_batch` of pf_q.c 225-235: for every bit of `mask`,
`batch_queue[pfq_ctz(bit)] |= 1UL << j`. -/
def pfq_enqueue_mask_to_batch (j mask : Nat) (batch_queue : Nat → Nat) : Nat → Nat :=
  (bitwise_foreach mask).foldl
    (fun q index => fun i => if i = index then q i ||| Core.u64 (1 <<< j) else q i) batch_queue

/-- The fields of `steering_t` used by `pfq_receive` (`cls` is the field `class`). -/
structure steering_t where
  type : Nat
  cls : Nat
  hash : Nat

/-- The fields of `struct sk_buff` used by `pfq_receive`; `data` stands for the contents of
the packet, which the filters and the steering functions read. -/
structure sk_buff where
  ifindex : Nat
  rx_queue : Nat
  vlan_tci : Nat
  data : Nat
  deriving DecidableEq

/-- The control block `struct pfq_skb_cb` of pf_q.c 318-325. -/
structure pfq_skb_cb where
  group_mask : Nat
  direct_skb : Bool
  stolen_skb : Bool
  send_to_kernel : Bool
  deriving DecidableEq

/-- The fields of `pfq_groups[gindex]` read by `pfq_receive`: `filter` is the byte-code
filter (`none` when the pointer is null) with `sk_run_filter` applied to it, `vlan_filter` is
`__pfq_check_group_vlan_filter` for this group, `steering` the steering function (`none` when
null) applied to the packet and to `state`, `sock_mask[class]` the per-class socket masks. The
`recv` counter is kept in the state of the engine. -/
structure pfq_group where
  filter : Option (sk_buff → Bool)
  vlan_filters_enabled : Bool
  vlan_filter : Nat → Bool
  steering : Option (sk_buff → Nat → steering_t)
  state : Nat
  sock_mask : Nat → Nat

/-- What `pfq_receive` takes from its environment: `devmap ifindex queue` is
`__pfq_devmap_get_groups`, `groups` the group table, and the constants `action_steal`,
`action_pass`, `action_drop`, `action_clone` and `VLAN_TAG_PRESENT`, whose values are
declared outside the sources at hand. -/
structure receive_env where
  devmap : Nat → Nat → Nat
  groups : Nat → pfq_group
  action_steal : Nat
  action_pass : Nat
  action_drop : Nat
  action_clone : Nat
  VLAN_TAG_PRESENT : Nat

/-- The steering cache of `struct local_data` (pf_q.c 113-120). -/
structure local_data where
  eligible_mask : Nat
  sock_mask : Nat → Nat
  sock_cnt : Nat

/-- The rebuild of the cache, pf_q.c 484-492 and 631-639:
`local_cache->sock_mask[local_cache->sock_cnt++] = ebit` for every bit of the mask. -/
def rebuild (eligible_mask : Nat) (c : local_data) : local_data :=
  (bitwise_foreach eligible_mask).foldl
    (fun c id =>
      { c with
        sock_mask := fun i => if i = c.sock_cnt then 1 <<< id else c.sock_mask i
        sock_cnt := c.sock_cnt + 1 })
    { c with eligible_mask := eligible_mask, sock_cnt := 0 }

/-- How the statements for one packet and one group end: at a `continue` after a filter, at
the `action_steal` exit, at the `continue` of `action_clone`, or at the end of the
`if (steer_fun) ... else ...` statement. -/
inductive step_exit
  | filtered
  | stolen
  | cloned
  | selected
  deriving DecidableEq

/-- The variables that the statements for one packet and one group read and write: the
cache, the `recv` counters of the groups, the control block of the packet and the local
`sock_mask`. -/
structure step_state where
  local_cache : local_data
  recv : Nat → Nat
  cb : pfq_skb_cb
  sock_mask : Nat

/-- The statements for one packet and one group, which both engines contain (pf_q.c 441-508
in the engine v1, 583-648 in the engine v2): the `recv` increment, the two filters, the call
of the steering function and the handling of its result. `bpf`, `vlan_filter_enabled` and
`steer_fun` are the values read from the group (per packet in v1, once per group in v2). -/
def steer_packet (e : receive_env) (skb : sk_buff) (gindex : Nat)
    (bpf : Option (sk_buff → Bool)) (vlan_filter_enabled : Bool)
    (steer_fun : Option (sk_buff → Nat → steering_t)) (st : step_state) :
    step_exit × step_state :=
  let st := { st with recv := fun g => if g = gindex then st.recv g + 1 else st.recv g }
  if bpf.any (fun run => !run skb) then (step_exit.filtered, st)
  else if vlan_filter_enabled &&
      !(e.groups gindex).vlan_filter
        (skb.vlan_tci ^^^ (skb.vlan_tci &&& e.VLAN_TAG_PRESENT)) then
    (step_exit.filtered, st)
  else
    match steer_fun with
    | some steer =>
      let ret := steer skb (e.groups gindex).state
      if ret.type &&& e.action_steal ≠ 0 then
        (step_exit.stolen, { st with cb := { st.cb with stolen_skb := true } })
      else
        let st :=
          if ret.type &&& e.action_pass ≠ 0 then
            { st with cb := { st.cb with send_to_kernel := true } }
          else st
        if ret.type &&& e.action_drop = 0 then
          let eligible_mask :=
            (bitwise_foreach ret.cls).foldl
              (fun m cindex => m ||| Core.u64 ((e.groups gindex).sock_mask cindex)) 0
          if ret.type &&& e.action_clone ≠ 0 then
            (step_exit.cloned, { st with sock_mask := st.sock_mask ||| eligible_mask })
          else
            let cache :=
              if eligible_mask ≠ st.local_cache.eligible_mask then
                rebuild eligible_mask st.local_cache
              else st.local_cache
            let st := { st with local_cache := cache }
            if cache.sock_cnt ≠ 0 then
              let h := Core.u32 (ret.hash ^^^ (ret.hash >>> 8) ^^^ (ret.hash >>> 16))
              (step_exit.selected,
                { st with
                  sock_mask :=
                    st.sock_mask ||| cache.sock_mask (pfq_fold h (Core.u32 cache.sock_cnt)) })
            else (step_exit.selected, st)
        else (step_exit.selected, st)
    | none =>
      (step_exit.selected,
        { st with sock_mask := st.sock_mask ||| Core.u64 ((e.groups gindex).sock_mask 0) })

/-- The state of the steering phase of `pfq_receive`: the cache, the `recv` counters of the
groups, the control blocks of the queued packets (by position in the prefetch queue),
`batch_queue[]` and `global_mask`. -/
structure receive_state where
  local_cache : local_data
  recv : Nat → Nat
  cb : Nat → pfq_skb_cb
  batch_queue : Nat → Nat
  global_mask : Nat

/-- The loop `bitwise_foreach(group_mask, bit)` of the engine v1 (pf_q.c 434-509) for one
packet; the boolean tells that the loop was left by `goto next_skb`. -/
def v1_groups (e : receive_env) (skb : sk_buff) : List Nat → step_state → step_state × Bool
  | [], st => (st, false)
  | gindex :: rest, st =>
    match steer_packet e skb gindex (e.groups gindex).filter
        (e.groups gindex).vlan_filters_enabled (e.groups gindex).steering st with
    | (step_exit.stolen, st) => (st, true)
    | (_, st) => v1_groups e skb rest st

/-- The body of `queue_for_each` of the engine v1 (pf_q.c 416-517) for the packet at
position `n`. -/
def v1_packet (e : receive_env) (s : receive_state) (n : Nat) (skb : sk_buff) :
    receive_state :=
  let group_mask := Core.u64 (e.devmap skb.ifindex skb.rx_queue)
  let r := v1_groups e skb (bitwise_foreach group_mask)
    { local_cache := s.local_cache, recv := s.recv, cb := s.cb n, sock_mask := 0 }
  let s :=
    { s with
      local_cache := r.1.local_cache
      recv := r.1.recv
      cb := fun i => if i = n then r.1.cb else s.cb i }
  if r.2 then s
  else
    { s with
      batch_queue := pfq_enqueue_mask_to_batch n r.1.sock_mask s.batch_queue
      global_mask := s.global_mask ||| r.1.sock_mask }

/-- The engine v1 (packet-major), pf_q.c 411-517, over the prefetch queue. -/
def engine_v1 (e : receive_env) (queue : List sk_buff) (s : receive_state) : receive_state :=
  queue.enum.foldl (fun s p => v1_packet e s p.1 p.2) s

/-- The first loop of the engine v2 (pf_q.c 542-550): the group masks are stored in the
control blocks and ORed into `global_group_mask`. -/
def v2_group_masks (e : receive_env) (queue : List sk_buff) (s : receive_state) :
    receive_state × Nat :=
  queue.enum.foldl
    (fun (r : receive_state × Nat) p =>
      let group_mask := Core.u64 (e.devmap p.2.ifindex p.2.rx_queue)
      ({ r.1 with
          cb := fun i => if i = p.1 then { r.1.cb p.1 with group_mask := group_mask }
            else r.1.cb i },
        r.2 ||| group_mask))
    (s, 0)

/-- The body of the inner `queue_for_each` of the engine v2 (pf_q.c 563-656) for the group
`gindex` and the packet at position `n`. -/
def v2_packet (e : receive_env) (gindex : Nat) (bpf : Option (sk_buff → Bool))
    (vlan_filter_enabled : Bool) (steer_fun : Option (sk_buff → Nat → steering_t))
    (s : receive_state) (n : Nat) (skb : sk_buff) : receive_state :=
  if (s.cb n).group_mask &&& (1 <<< gindex) = 0 then s
  else
    match steer_packet e skb gindex bpf vlan_filter_enabled steer_fun
        { local_cache := s.local_cache, recv := s.recv, cb := s.cb n, sock_mask := 0 } with
    | (step_exit.selected, st) =>
      { local_cache := st.local_cache
        recv := st.recv
        cb := fun i => if i = n then st.cb else s.cb i
        batch_queue := pfq_enqueue_mask_to_batch n st.sock_mask s.batch_queue
        global_mask := s.global_mask ||| st.sock_mask }
    | (_, st) =>
      { s with
        local_cache := st.local_cache
        recv := st.recv
        cb := fun i => if i = n then st.cb else s.cb i }

/-- The body of the loop `bitwise_foreach(global_group_mask, bit)` of the engine v2
(pf_q.c 553-659) for the group `gindex`. -/
def v2_group (e : receive_env) (queue : List sk_buff) (s : receive_state) (gindex : Nat) :
    receive_state :=
  let bpf := (e.groups gindex).filter
  let steer_fun := (e.groups gindex).steering
  let vlan_filter_enabled := (e.groups gindex).vlan_filters_enabled
  queue.enum.foldl (fun s p => v2_packet e gindex bpf vlan_filter_enabled steer_fun s p.1 p.2) s

/-- The engine v2 (group-major), pf_q.c 538-660, over the prefetch queue. -/
def engine_v2 (e : receive_env) (queue : List sk_buff) (s : receive_state) : receive_state :=
  let r := v2_group_masks e queue s
  (bitwise_foreach r.2).foldl (v2_group e queue) r.1

/-- The state with which the steering phase starts (pf_q.c 383-405): `batch_queue` zeroed,
`global_mask = 0`, and every queued packet with the control block written when it was
pushed (`stolen_skb = false`, `send_to_kernel = false`). -/
def receive_begin (local_cache : local_data) (recv : Nat → Nat) (direct : Nat → Bool) :
    receive_state :=
  { local_cache := local_cache
    recv := recv
    cb := fun n =>
      { group_mask := 0, direct_skb := direct n, stolen_skb := false, send_to_kernel := false }
    batch_queue := fun _ => 0
    global_mask := 0 }

/-- What the claims compare between the engines: `batch_queue[]`, `global_mask`, the
`send_to_kernel` marks of the queued packets and the `recv` counters of the groups. -/
structure engine_out where
  batch_queue : Nat → Nat
  global_mask : Nat
  send_to_kernel : Nat → Bool
  recv : Nat → Nat

/-- The compared part of a state. -/
def out_of (s : receive_state) : engine_out :=
  { batch_queue := s.batch_queue
    global_mask := s.global_mask
    send_to_kernel := fun n => (s.cb n).send_to_kernel
    recv := s.recv }

/-! ## Scenarios for the steering engines -/

/-- A zero-initialised steering cache. -/
def zero_cache : local_data := { eligible_mask := 0, sock_mask := fun _ => 0, sock_cnt := 0 }

/-- One group for every index: no filter, the given steering function, and socket 0 joined
under class 0. -/
def one_socket_group (steer : Option (sk_buff → Nat → steering_t)) : pfq_group :=
  { filter := none, vlan_filters_enabled := false, vlan_filter := fun _ => true
    steering := steer, state := 0, sock_mask := fun c => if c = 0 then 1 else 0 }

/-- An environment for the scenarios: every device feeds group 0, every group is
`one_socket_group steer`, and the four action flags are four distinct bits (drop 1, pass 2,
clone 4, steal 8). -/
def scenario_env (steer : Option (sk_buff → Nat → steering_t)) : receive_env :=
  { devmap := fun _ _ => 1, groups := fun _ => one_socket_group steer
    action_steal := 8, action_pass := 2, action_drop := 1, action_clone := 4
    VLAN_TAG_PRESENT := 0x1000 }

/-- A steering function that answers every packet with the given action flags on class 0,
hash 0. -/
def constant_steering (type : Nat) : sk_buff → Nat → steering_t :=
  fun _ _ => { type := type, cls := 1, hash := 0 }

/-- A packet received on interface 1, queue 0, without VLAN tag. -/
def plain_skb (data : Nat) : sk_buff := { ifindex := 1, rx_queue := 0, vlan_tci := 0, data := data }

/-- The state at the start of the steering phase with a zeroed cache, zeroed counters and
packets received through the packet handler (`direct = false`). -/
def fresh_receive : receive_state := receive_begin zero_cache (fun _ => 0) (fun _ => false)

/-! ## The contribution of one packet and one group to the result of the engines -/

/-- The invariant of the steering cache: `sock_mask[0 .. sock_cnt)` are the bits of
`eligible_mask` in ascending order. -/
def cache_canon (c : local_data) : Prop :=
  (List.range c.sock_cnt).map c.sock_mask =
    (bitwise_foreach c.eligible_mask).map (fun id => 1 <<< id)

/-- Whether one of the two filters of the group `gindex` rejects the packet (the two
`continue` statements after the filters). -/
def pair_filtered (e : receive_env) (skb : sk_buff) (gindex : Nat) : Bool :=
  (e.groups gindex).filter.any (fun run => !run skb) ||
    ((e.groups gindex).vlan_filters_enabled &&
      !(e.groups gindex).vlan_filter (skb.vlan_tci ^^^ (skb.vlan_tci &&& e.VLAN_TAG_PRESENT)))

/-- The bit that `local_cache->sock_mask[pfq_fold(h, local_cache->sock_cnt)]` holds when the
cache satisfies its invariant for `eligible_mask`; `0` when the mask is empty. -/
def pick (eligible_mask hash : Nat) : Nat :=
  let ids := bitwise_foreach eligible_mask
  if ids.length ≠ 0 then
    1 <<< ids.getD
      (pfq_fold (Core.u32 (hash ^^^ (hash >>> 8) ^^^ (hash >>> 16))) (Core.u32 ids.length)) 0
  else 0

/-- The mask that the statements for one packet and one group OR into `sock_mask` when the
cache satisfies its invariant and the steering function returns neither `action_steal` nor
`action_clone`. -/
def pair_mask (e : receive_env) (skb : sk_buff) (gindex : Nat) : Nat :=
  if pair_filtered e skb gindex then 0
  else
    match (e.groups gindex).steering with
    | some steer =>
      let ret := steer skb (e.groups gindex).state
      if ret.type &&& e.action_drop = 0 then
        pick ((bitwise_foreach ret.cls).foldl
          (fun m cindex => m ||| Core.u64 ((e.groups gindex).sock_mask cindex)) 0) ret.hash
      else 0
    | none => Core.u64 ((e.groups gindex).sock_mask 0)

/-- Whether the statements for one packet and one group set `send_to_kernel`, when the
steering function does not return `action_steal`. -/
def pair_pass (e : receive_env) (skb : sk_buff) (gindex : Nat) : Bool :=
  !pair_filtered e skb gindex &&
    match (e.groups gindex).steering with
    | some steer => decide ((steer skb (e.groups gindex).state).type &&& e.action_pass ≠ 0)
    | none => false

/-- The contribution of the packet at position `n` and the group `gindex` to the compared
part of the state. -/
def pair_step (e : receive_env) (o : engine_out) (n : Nat) (skb : sk_buff) (gindex : Nat) :
    engine_out :=
  { batch_queue := pfq_enqueue_mask_to_batch n (pair_mask e skb gindex) o.batch_queue
    global_mask := o.global_mask ||| pair_mask e skb gindex
    send_to_kernel := fun i =>
      if i = n then o.send_to_kernel i || pair_pass e skb gindex else o.send_to_kernel i
    recv := fun g => if g = gindex then o.recv g + 1 else o.recv g }

/-- The compared part of the state of the engine v1 inside the group loop of the packet at
position `n`, with the pending `sock_mask` already enqueued. -/
def pending_out (s : receive_state) (n : Nat) (st : step_state) : engine_out :=
  { batch_queue := pfq_enqueue_mask_to_batch n st.sock_mask s.batch_queue
    global_mask := s.global_mask ||| st.sock_mask
    send_to_kernel := fun i => if i = n then st.cb.send_to_kernel else (s.cb i).send_to_kernel
    recv := st.recv }

end PfQ

namespace RTP

/-! ## The VoIP heuristic of the RTP module (module/RTP/RTP.c)

The packet is a sequence of bytes. `pfq/qbuff.h` and `pfq/nethdr.h`, which declare
`struct qbuff`, `qbuff_eth_hdr` and `qbuff_header_pointer`, are not part of the sources at
hand, nor are the kernel headers with `struct iphdr`, `struct udphdr` and `be16_to_cpu`; the
byte order of the host is a parameter (`big_endian`). -/

/-- What `heuristic_voip` reads of a `struct qbuff`: `h_proto` is the field
`qbuff_eth_hdr(buff)->h_proto` as the host loads it, `mac_len` is `QBUFF_SKB(buff)->mac_len`,
`len` the number of bytes of the packet, `data` its bytes. -/
structure qbuff where
  h_proto : Nat
  mac_len : Nat
  len : Nat
  data : Nat → Nat

/-- Modelled from the spec: `qbuff_header_pointer(buff, offset, len, buffer)` of
`pfq/qbuff.h` ("byte-level packet parsing utilities") yields, as `skb_header_pointer`, the
`len` bytes of the packet that start at `offset`, or NULL when the packet is shorter than
`offset + len`. -/
def qbuff_header_pointer (buff : qbuff) (offset len : Nat) : Option (Nat → Nat) :=
  if offset + len ≤ buff.len then some (fun i => buff.data (offset + i) % 256) else none

/-- The load of a 16-bit field at byte `off` of a header, in the byte order of the host. -/
def load16 (big_endian : Bool) (p : Nat → Nat) (off : Nat) : Nat :=
  if big_endian then p off * 256 + p (off + 1) else p off + p (off + 1) * 256

/-- The load of a 32-bit field at byte `off` of a header, in the byte order of the host. -/
def load32 (big_endian : Bool) (p : Nat → Nat) (off : Nat) : Nat :=
  if big_endian then
    p off * 16777216 + p (off + 1) * 65536 + p (off + 2) * 256 + p (off + 3)
  else
    p off + p (off + 1) * 256 + p (off + 2) * 65536 + p (off + 3) * 16777216

/-- The conversion `be16_to_cpu` of a 16-bit value: the identity on a big-endian host, the
exchange of the two bytes on a little-endian host. -/
def be16_to_cpu (big_endian : Bool) (x : Nat) : Nat :=
  if big_endian then x % 65536 else (x % 256) * 256 + (x / 256) % 256

/-- The constant `__constant_htons(ETH_P_IP)`, with `ETH_P_IP = 0x0800`. -/
def htons_ETH_P_IP (big_endian : Bool) : Nat := if big_endian then 0x0800 else 0x0008

/-- The constant `IPPROTO_UDP`. -/
def IPPROTO_UDP : Nat := 17

/-- The function `valid_codec` of RTP.c 69-81. -/
def valid_codec (c : Nat) : Bool :=
  if c < 19 then true
  else if c > 95 then true
  else if c = 25 then true
  else if c = 26 then true
  else if c = 28 then true
  else if c = 31 then true
  else if c = 32 then true
  else if c = 33 then true
  else if c = 34 then true
  else false

/-- The type `enum htype` of RTP.c 84-90. -/
inductive htype
  | type_unknown
  | type_rtp
  | type_rtcp
  | type_sip
  deriving DecidableEq

/-- The type `struct hret` of RTP.c 93-97. -/
structure hret where
  hash : Nat
  type : htype
  deriving DecidableEq

/-- The function `heuristic_voip` of RTP.c 100-169. The fields of the headers are read at
their offsets: in `struct iphdr` `ihl` is the low half of byte 0, `protocol` byte 9, `saddr`
bytes 12-15 and `daddr` bytes 16-19; in `struct headers` `udp.source` is bytes 0-1, `udp.dest`
bytes 2-3, `un.rtp.rh_flags` byte 8 and `un.rtp.rh_pt`, `un.rtcp.rh_type` byte 9; both
structures have 20 bytes. `steered type` is the value returned at the end of the function:
`ret.type` as assigned, and `ret.hash` assigned `if (steer)`. -/
def heuristic_voip (big_endian : Bool) (buff : qbuff) (steer : Bool) : hret :=
  let ret : hret := { hash := 0, type := htype.type_unknown }
  if buff.h_proto = htons_ETH_P_IP big_endian then
    match qbuff_header_pointer buff buff.mac_len 20 with
    | none => ret
    | some ip =>
      match qbuff_header_pointer buff (buff.mac_len + ((ip 0 % 16) <<< 2)) 20 with
      | none => ret
      | some hdr =>
        let dest := be16_to_cpu big_endian (load16 big_endian hdr 2)
        let source := be16_to_cpu big_endian (load16 big_endian hdr 0)
        let steered (type : htype) : hret :=
          { type := type
            hash :=
              if steer then
                Core.u32 (load32 big_endian ip 12 ^^^ (load32 big_endian ip 12 >>> 8) ^^^
                  (load32 big_endian ip 12 >>> 16) ^^^ (load32 big_endian ip 12 >>> 24) ^^^
                  load32 big_endian ip 16 ^^^ (load32 big_endian ip 16 >>> 8) ^^^
                  (load32 big_endian ip 16 >>> 16) ^^^ (load32 big_endian ip 16 >>> 24) ^^^
                  (load16 big_endian hdr 0 >>> 1) ^^^ (load16 big_endian hdr 2 >>> 1))
              else 0 }
        if dest = 5060 ∨ source = 5060 ∨ dest = 5061 ∨ source = 5061 then
          { ret with type := htype.type_sip }
        else if ip 9 ≠ IPPROTO_UDP then ret
        else if ¬ (be16_to_cpu big_endian (hdr 8) &&& 0xc000 = 0x8000) then ret
        else if dest < 1024 ∨ source < 1024 then ret
        else if dest &&& 1 ≠ 0 ∧ source &&& 1 ≠ 0 then
          if hdr 9 ≠ 200 then ret
          else steered htype.type_rtcp
        else
          if ¬ (dest &&& 1 ≠ 0 ∨ source &&& 1 ≠ 0) then
            if !valid_codec (hdr 9) then ret
            else steered htype.type_rtp
          else steered htype.type_rtp
  else ret

/-- The statements of `heuristic_voip` after the two headers are found (RTP.c 123-165), as
a function of the fields they read. -/
def voip_fields (big_endian steer : Bool)
    (protocol rh_flags rh_pt saddr daddr udp_source udp_dest : Nat) : hret :=
  let ret : hret := { hash := 0, type := htype.type_unknown }
  let dest := be16_to_cpu big_endian udp_dest
  let source := be16_to_cpu big_endian udp_source
  let steered (type : htype) : hret :=
    { type := type
      hash :=
        if steer then
          Core.u32 (saddr ^^^ (saddr >>> 8) ^^^ (saddr >>> 16) ^^^ (saddr >>> 24) ^^^
            daddr ^^^ (daddr >>> 8) ^^^ (daddr >>> 16) ^^^ (daddr >>> 24) ^^^
            (udp_source >>> 1) ^^^ (udp_dest >>> 1))
        else 0 }
  if dest = 5060 ∨ source = 5060 ∨ dest = 5061 ∨ source = 5061 then
    { ret with type := htype.type_sip }
  else if protocol ≠ IPPROTO_UDP then ret
  else if ¬ (be16_to_cpu big_endian rh_flags &&& 0xc000 = 0x8000) then ret
  else if dest < 1024 ∨ source < 1024 then ret
  else if dest &&& 1 ≠ 0 ∧ source &&& 1 ≠ 0 then
    if rh_pt ≠ 200 then ret
    else steered htype.type_rtcp
  else
    if ¬ (dest &&& 1 ≠ 0 ∨ source &&& 1 ≠ 0) then
      if !valid_codec rh_pt then ret
      else steered htype.type_rtp
    else steered htype.type_rtp

/-- Modelled from the spec: the fanout decisions `Drop(buff)`, `Steering(buff, hash)` and
`Broadcast(buff)` that a steering function of the language returns (`lang/module.h` is not
part of the sources at hand). -/
inductive ActionQbuff
  | Drop
  | Steering (hash : Nat)
  | Broadcast
  deriving DecidableEq

/-- The function `steering_rtp` of RTP.c 230-244. -/
def steering_rtp (big_endian : Bool) (buff : qbuff) : ActionQbuff :=
  let ret := heuristic_voip big_endian buff true
  match ret.type with
  | htype.type_unknown => ActionQbuff.Drop
  | htype.type_rtp => ActionQbuff.Steering ret.hash
  | htype.type_rtcp => ActionQbuff.Steering ret.hash
  | htype.type_sip => ActionQbuff.Drop

/-- The function `steering_voip` of RTP.c 247-261. -/
def steering_voip (big_endian : Bool) (buff : qbuff) : ActionQbuff :=
  let ret := heuristic_voip big_endian buff true
  match ret.type with
  | htype.type_unknown => ActionQbuff.Drop
  | htype.type_rtp => ActionQbuff.Steering ret.hash
  | htype.type_rtcp => ActionQbuff.Steering ret.hash
  | htype.type_sip => ActionQbuff.Broadcast

/-- The position from which the packet of the other direction takes its byte `i`: the
bytes of `saddr` and `daddr` (at `ip + 12` and `ip + 16`) change places, and so do the bytes
of `udp.source` and `udp.dest` (at `udp` and `udp + 2`). -/
def swap_index (ip udp i : Nat) : Nat :=
  if ip + 12 ≤ i ∧ i < ip + 16 then i + 4
  else if ip + 16 ≤ i ∧ i < ip + 20 then i - 4
  else if udp ≤ i ∧ i < udp + 2 then i + 2
  else if udp + 2 ≤ i ∧ i < udp + 4 then i - 2
  else i

/-- The packet of the other direction of the flow: source address and port exchanged with
destination address and port, every other byte kept. -/
def swap_direction (buff : qbuff) : qbuff :=
  { buff with
    data := fun i =>
      buff.data (swap_index buff.mac_len
        (buff.mac_len + ((buff.data buff.mac_len % 256 % 16) <<< 2)) i) }

/-- An RTP packet of 54 bytes after a MAC header of 14 bytes: IPv4 with `ihl = 5`, UDP,
10.0.0.1:10000 to 10.0.0.2:20000, RTP version 2 with payload type 0. -/
def rtp_example : qbuff :=
  { h_proto := 0x0008, mac_len := 14, len := 54
    data := fun i =>
      if i = 14 then 0x45 else if i = 23 then 17
      else if i = 26 then 10 else if i = 29 then 1
      else if i = 30 then 10 else if i = 33 then 2
      else if i = 34 then 0x27 else if i = 35 then 0x10
      else if i = 36 then 0x4e else if i = 37 then 0x20
      else if i = 42 then 0x80
      else 0 }

end RTP

/-! # Theorems -/

namespace Core

/-! ## Bit-level lemmas -/

theorem topFilled_step {n m d y : Nat} (h : TopFilled n m y) (hd : d ≤ m) :
    TopFilled n (m + d) (y ||| (y >>> d)) := by
  obtain ⟨hlt, hbits⟩ := h
  refine ⟨Nat.or_lt_two_pow hlt ?_, ?_⟩
  · rw [Nat.shiftRight_eq_div_pow]
    exact lt_of_le_of_lt (Nat.div_le_self _ _) hlt
  · intro i hi hn
    rw [Nat.testBit_lor, Nat.testBit_shiftRight]
    by_cases h1 : n ≤ i + m
    · simp [hbits i hi h1]
    · have h2 : y.testBit (d + i) = true := hbits (d + i) (by omega) (by omega)
      simp [h2]


theorem testBit_top {n y : Nat} (hlo : 2 ^ n ≤ y) (hhi : y < 2 ^ (n + 1)) :
    y.testBit n = true := by
  obtain ⟨r, rfl⟩ : ∃ r, y = 2 ^ n + r := ⟨y - 2 ^ n, by omega⟩
  have hr : r < 2 ^ n := by rw [pow_succ] at hhi; omega
  rw [Nat.testBit_two_pow_add_eq, Nat.testBit_lt_two_pow hr]
  rfl

theorem topFilled_full {n z : Nat} (h : TopFilled n 32 z) (hn : n ≤ 32) : z = 2 ^ n - 1 := by
  obtain ⟨hlt, hbits⟩ := h
  apply Nat.eq_of_testBit_eq
  intro i
  rw [Nat.testBit_two_pow_sub_one]
  by_cases hi : i < n
  · simp [hi, hbits i hi (by omega)]
  · have : z < 2 ^ i := lt_of_lt_of_le hlt (Nat.pow_le_pow_right (by norm_num) (by omega))
    simp [hi, Nat.testBit_lt_two_pow this]

/-- The five or-shift rounds of `clp2` turn a value of bit length `n ≤ 32` into `2^n - 1`. -/
theorem smear_eq {n y : Nat} (hn : n ≤ 32) (hlt : y < 2 ^ n) (htop : n = 0 ∨ 2 ^ (n - 1) ≤ y) :
    (let x := y
     let x := x ||| (x >>> 1)
     let x := x ||| (x >>> 2)
     let x := x ||| (x >>> 4)
     let x := x ||| (x >>> 8)
     let x := x ||| (x >>> 16)
     x) = 2 ^ n - 1 := by
  have h1 : TopFilled n 1 y := by
    refine ⟨hlt, fun i hi hni => ?_⟩
    have hin : i = n - 1 := by omega
    rcases htop with h0 | h0
    · omega
    · subst hin
      exact testBit_top h0 (by rwa [Nat.sub_add_cancel (by omega)])
  have h2 := topFilled_step h1 (le_refl 1)
  have h4 := topFilled_step h2 (le_refl 2)
  have h8 := topFilled_step h4 (le_refl 4)
  have h16 := topFilled_step h8 (le_refl 8)
  have h32 := topFilled_step h16 (le_refl 16)
  exact topFilled_full h32 hn

/-- Every natural has a bit length: `y < 2^n`, and the bit below `n` is set unless `n = 0`. -/
theorem exists_bitlen (y : Nat) : ∃ n, y < 2 ^ n ∧ (n = 0 ∨ 2 ^ (n - 1) ≤ y) := by
  refine ⟨Nat.size y, Nat.lt_size_self y, ?_⟩
  by_cases h : Nat.size y = 0
  · exact Or.inl h
  · right
    exact Nat.lt_size.mp (by omega)

/-- Characterisation of `clp2` on `[1, 2^31]`. -/
theorem clp2_spec (x : Nat) (h1 : 1 ≤ x) (h2 : x ≤ 2 ^ 31) :
    ∃ k, k ≤ 31 ∧ clp2 x = 2 ^ k ∧ x ≤ 2 ^ k ∧ (k = 0 ∨ 2 ^ (k - 1) < x) := by
  obtain ⟨n, hlt, htop⟩ := exists_bitlen (x - 1)
  have hn : n ≤ 31 := by
    rcases htop with h0 | h0
    · omega
    · by_contra hc
      have : 2 ^ 31 ≤ 2 ^ (n - 1) := Nat.pow_le_pow_right (by norm_num) (by omega)
      omega
  have hx0 : u32 (x + 2 ^ 32 - 1) = x - 1 := by
    unfold u32
    rw [show x + 2 ^ 32 - 1 = (x - 1) + 2 ^ 32 by omega, Nat.add_mod_right]
    exact Nat.mod_eq_of_lt (by omega)
  have hs := smear_eq (show n ≤ 32 by omega) hlt htop
  have hp : 2 ^ n ≤ 2 ^ 31 := Nat.pow_le_pow_right (by norm_num) hn
  have hpos : 0 < 2 ^ n := Nat.two_pow_pos n
  refine ⟨n, hn, ?_, by omega, ?_⟩
  · unfold clp2
    simp only [hx0]
    simp only at hs
    rw [hs]
    unfold u32
    rw [Nat.sub_add_cancel hpos]
    exact Nat.mod_eq_of_lt (by omega)
  · rcases htop with h0 | h0
    · exact Or.inl h0
    · right; omega


theorem u32_pred {b : Nat} (h1 : 1 ≤ b) (h2 : b < 2 ^ 32) : u32 (b + 2 ^ 32 - 1) = b - 1 := by
  unfold u32
  rw [show b + 2 ^ 32 - 1 = (b - 1) + 2 ^ 32 by omega, Nat.add_mod_right]
  exact Nat.mod_eq_of_lt (by omega)

/-- A positive `b` with `b & (b - 1) = 0` is a power of two. -/
theorem pow2_of_and_pred {b : Nat} (h1 : 1 ≤ b) (h : b &&& (b - 1) = 0) : ∃ k, b = 2 ^ k := by
  obtain ⟨n, hlt, htop⟩ := exists_bitlen b
  rcases htop with h0 | h0
  · subst h0; omega
  · refine ⟨n - 1, ?_⟩
    by_contra hne
    have hn : n - 1 + 1 = n := by
      rcases Nat.eq_zero_or_pos n with h | h
      · subst h; simp at hlt; omega
      · omega
    have t1 : b.testBit (n - 1) = true := testBit_top h0 (by rwa [hn])
    have t2 : (b - 1).testBit (n - 1) = true :=
      testBit_top (by omega) (by rw [hn]; omega)
    have : (b &&& (b - 1)).testBit (n - 1) = true := by
      rw [Nat.testBit_and, t1, t2]; rfl
    rw [h] at this
    simp at this

theorem two_pow_and_pred (k : Nat) : 2 ^ k &&& (2 ^ k - 1) = 0 := by
  rw [Nat.and_pow_two_sub_one_eq_mod, Nat.mod_self]

theorem pfq_fold_lt_aux (a b : Nat) (h1 : 1 ≤ b) (h2 : b < 2 ^ 32) : pfq_fold a b < b := by
  unfold pfq_fold
  simp only [u32_pred h1 h2]
  split_ifs with hb1 hand h3 h5 h6 h7 hr
  · omega
  · exact lt_of_le_of_lt Nat.and_le_right (by omega)
  · have := Nat.mod_lt a (show 0 < 3 by norm_num); omega
  · have := Nat.mod_lt a (show 0 < 5 by norm_num); omega
  · have := Nat.mod_lt a (show 0 < 6 by norm_num); omega
  · have := Nat.mod_lt a (show 0 < 7 by norm_num); omega
  · exact hr
  · exact Nat.mod_lt _ (by omega)


theorem and_pred_ne_zero {b : Nat} (h1 : 1 ≤ b) (hnp : ∀ k, b ≠ 2 ^ k) : b &&& (b - 1) ≠ 0 := by
  intro h
  obtain ⟨k, hk⟩ := pow2_of_and_pred h1 h
  exact hnp k hk

/-- Above `2^31` the 32-bit `clp2` wraps around to `0`. -/
theorem clp2_wrap {b : Nat} (h1 : 2 ^ 31 < b) (h2 : b < 2 ^ 32) : clp2 b = 0 := by
  have hs := smear_eq (n := 32) (y := b - 1) (le_refl 32) (by omega) (Or.inr (by norm_num; omega))
  unfold clp2
  simp only [u32_pred (show 1 ≤ b by omega) h2]
  simp only at hs
  rw [hs]
  rfl

/-- The default branch of `pfq_fold`, reached by every non-power-of-two divisor other than
3, 5, 6 and 7. -/
theorem pfq_fold_default (a b : Nat) (h2 : 2 ≤ b) (hb : b < 2 ^ 32) (hnp : ∀ k, b ≠ 2 ^ k)
    (hs : ¬ (b = 3 ∨ b = 5 ∨ b = 6 ∨ b = 7)) :
    pfq_fold a b =
      if a &&& u32 (clp2 b + 2 ^ 32 - 1) < b then a &&& u32 (clp2 b + 2 ^ 32 - 1) else a % b := by
  have hand := and_pred_ne_zero (show 1 ≤ b by omega) hnp
  unfold pfq_fold
  simp only [u32_pred (show 1 ≤ b by omega) hb]
  rw [if_neg (by omega), if_neg hand, if_neg (by tauto), if_neg (by tauto), if_neg (by tauto),
    if_neg (by tauto)]

theorem pfq_fold_small (a b : Nat) (hnp : ∀ k, b ≠ 2 ^ k)
    (hs : b = 3 ∨ b = 5 ∨ b = 6 ∨ b = 7) : pfq_fold a b = a % b := by
  rcases hs with h | h | h | h <;> subst h <;> simp [pfq_fold, u32]

theorem pfq_fold_mid (a b : Nat) (h2 : 2 ≤ b) (hb : b ≤ 2 ^ 31) (hnp : ∀ k, b ≠ 2 ^ k)
    (hs : ¬ (b = 3 ∨ b = 5 ∨ b = 6 ∨ b = 7)) :
    pfq_fold a b = if a % clp2 b < b then a % clp2 b else a % b := by
  obtain ⟨k, hk, hc, hle, -⟩ := clp2_spec b (by omega) hb
  have hp : 2 ^ k ≤ 2 ^ 31 := Nat.pow_le_pow_right (by norm_num) hk
  rw [pfq_fold_default a b h2 (by omega) hnp hs, hc,
    u32_pred (show 1 ≤ 2 ^ k by omega) (by omega), Nat.and_pow_two_sub_one_eq_mod]

theorem pfq_fold_high (a b : Nat) (ha : a < 2 ^ 32) (h1 : 2 ^ 31 < b) (hb : b < 2 ^ 32)
    (hnp : ∀ k, b ≠ 2 ^ k) : pfq_fold a b = a % b := by
  have hs : ¬ (b = 3 ∨ b = 5 ∨ b = 6 ∨ b = 7) := by omega
  rw [pfq_fold_default a b (by omega) hb hnp hs, clp2_wrap h1 hb]
  have : u32 (0 + 2 ^ 32 - 1) = 2 ^ 32 - 1 := by decide
  rw [this, Nat.and_pow_two_sub_one_eq_mod, Nat.mod_eq_of_lt ha]
  split_ifs with h
  · exact (Nat.mod_eq_of_lt h).symm
  · rfl

theorem pfq_fold_below (a b : Nat) (hab : a < b) (h2 : 2 ≤ b) (hb : b < 2 ^ 32)
    (hnp : ∀ k, b ≠ 2 ^ k) : pfq_fold a b = a % b := by
  by_cases hs : b = 3 ∨ b = 5 ∨ b = 6 ∨ b = 7
  · exact pfq_fold_small a b hnp hs
  · by_cases h31 : b ≤ 2 ^ 31
    · obtain ⟨k, -, hc, hle, -⟩ := clp2_spec b (by omega) h31
      rw [pfq_fold_mid a b h2 h31 hnp hs, hc, Nat.mod_eq_of_lt (show a < 2 ^ k by omega),
        if_pos hab, Nat.mod_eq_of_lt hab]
    · exact pfq_fold_high a b (by omega) (by omega) hb hnp

theorem nine_not_pow2 : ∀ k : Nat, (9 : Nat) ≠ 2 ^ k := by
  intro k h
  have h2 : (2 : Nat) ∣ 2 ^ k := by
    rcases Nat.eq_zero_or_pos k with h0 | h0
    · subst h0; norm_num at h
    · exact dvd_pow_self 2 (by omega)
  rw [← h] at h2
  omega

/-! ## Claims on the numeric helpers -/

/-- C1: for every 32-bit unsigned `a` and every 32-bit unsigned `b ≥ 1`, `pfq_fold a b < b`;
in particular the slot `pfq_fold(prefold(hash), (unsigned int) sock_cnt)` read at
core.c 296/299 lies below `sock_cnt` whenever `sock_cnt` is a positive 32-bit value. -/
theorem pfq_fold_lt (a b : Nat) (ha : a < 2 ^ 32) (hb1 : 1 ≤ b) (hb : b < 2 ^ 32) :
    pfq_fold a b < b ∧ pfq_fold (prefold a) (u32 b) < b := by
  have hu : u32 b = b := Nat.mod_eq_of_lt hb
  have _ := ha
  exact ⟨pfq_fold_lt_aux a b hb1 hb, by rw [hu]; exact pfq_fold_lt_aux _ b hb1 hb⟩

theorem pfq_fold_lt_witness :
    (305419896 : Nat) < 2 ^ 32 ∧ 1 ≤ 9 ∧ 9 < 2 ^ 32 ∧
      (pfq_fold 305419896 9 < 9 ∧ pfq_fold (prefold 305419896) (u32 9) < 9) :=
  ⟨by norm_num, by norm_num, by norm_num, pfq_fold_lt 305419896 9 (by norm_num) (by norm_num)
    (by norm_num)⟩

/-- C2 (as stated, refuted): `b = 9` is a 32-bit non-power-of-two, yet
`pfq_fold 16 9 = 0` while `16 mod 9 = 7`. -/
theorem pfq_fold_ne_mod :
    ¬ (∀ a b : Nat, a < 2 ^ 32 → 2 ≤ b → b < 2 ^ 32 → (∀ k, b ≠ 2 ^ k) →
        pfq_fold a b = a % b) := by
  intro h
  have h9 := h 16 9 (by norm_num) (by norm_num) (by norm_num) nine_not_pow2
  revert h9
  decide

/-- C2 (amended): for 32-bit `a` and a 32-bit non-power-of-two `b ≥ 2`, `pfq_fold a b` is
`a mod b` when `b` is 3, 5, 6 or 7, when `b > 2^31`, or when `a < b`; for every other `b`
(the default case, `b ≤ 2^31`) it is `a mod clp2 b` if that is below `b` and `a mod b`
otherwise. -/
theorem pfq_fold_non_pow2 (a b : Nat) (ha : a < 2 ^ 32) (h2 : 2 ≤ b) (hb : b < 2 ^ 32)
    (hnp : ∀ k, b ≠ 2 ^ k) :
    ((b = 3 ∨ b = 5 ∨ b = 6 ∨ b = 7) ∨ 2 ^ 31 < b ∨ a < b → pfq_fold a b = a % b) ∧
    (¬ (b = 3 ∨ b = 5 ∨ b = 6 ∨ b = 7) → b ≤ 2 ^ 31 →
      pfq_fold a b = if a % clp2 b < b then a % clp2 b else a % b) := by
  refine ⟨?_, fun hs h31 => pfq_fold_mid a b h2 h31 hnp hs⟩
  rintro (hs | h31 | hab)
  · exact pfq_fold_small a b hnp hs
  · exact pfq_fold_high a b ha h31 hb hnp
  · exact pfq_fold_below a b hab h2 hb hnp

theorem pfq_fold_non_pow2_witness :
    (16 : Nat) < 2 ^ 32 ∧ 2 ≤ 9 ∧ 9 < 2 ^ 32 ∧ (∀ k : Nat, (9 : Nat) ≠ 2 ^ k) ∧
    (((9 = 3 ∨ 9 = 5 ∨ 9 = 6 ∨ 9 = 7) ∨ 2 ^ 31 < 9 ∨ 16 < 9 → pfq_fold 16 9 = 16 % 9) ∧
     (¬ (9 = 3 ∨ 9 = 5 ∨ 9 = 6 ∨ 9 = 7) → 9 ≤ 2 ^ 31 →
        pfq_fold 16 9 = if 16 % clp2 9 < 9 then 16 % clp2 9 else 16 % 9)) :=
  ⟨by norm_num, by norm_num, by norm_num, nine_not_pow2,
    pfq_fold_non_pow2 16 9 (by norm_num) (by norm_num) (by norm_num) nine_not_pow2⟩

theorem pfq_fold_two_pow (a k : Nat) (hk : k ≤ 31) :
    pfq_fold a (2 ^ k) = a &&& (2 ^ k - 1) := by
  have hp : 2 ^ k ≤ 2 ^ 31 := Nat.pow_le_pow_right (by norm_num) hk
  have hpos : 0 < 2 ^ k := Nat.two_pow_pos k
  unfold pfq_fold
  simp only [u32_pred (show 1 ≤ 2 ^ k by omega) (show 2 ^ k < 2 ^ 32 by omega),
    two_pow_and_pred]
  split_ifs with h1
  · rw [h1]; simp
  · rfl

/-- C3: for every 32-bit unsigned `a`, `pfq_fold a 1 = 0`, and for every `k ≤ 31`,
`pfq_fold a (2^k) = a AND (2^k - 1)`. -/
theorem pfq_fold_pow2 (a : Nat) (ha : a < 2 ^ 32) :
    pfq_fold a 1 = 0 ∧ ∀ k, k ≤ 31 → pfq_fold a (2 ^ k) = a &&& (2 ^ k - 1) := by
  have _ := ha
  exact ⟨by simp [pfq_fold], fun k hk => pfq_fold_two_pow a k hk⟩

theorem pfq_fold_pow2_witness :
    (305419896 : Nat) < 2 ^ 32 ∧ pfq_fold 305419896 1 = 0 ∧
      pfq_fold 305419896 (2 ^ 4) = 305419896 &&& (2 ^ 4 - 1) :=
  ⟨by norm_num, (pfq_fold_pow2 305419896 (by norm_num)).1,
    (pfq_fold_pow2 305419896 (by norm_num)).2 4 (by norm_num)⟩

/-- C4: for every 32-bit `x` with `1 ≤ x ≤ 2^31`, `clp2 x` (core.c and pf_q.c alike) is the
least power of two that is `≥ x`: it is `2^k` for the unique `k` with `2^k ≥ x` and
(`k = 0` or `2^(k-1) < x`), no smaller power of two reaches `x`, and `clp2 x = x` when `x`
is a power of two. -/
theorem clp2_least_pow2 (x : Nat) (h1 : 1 ≤ x) (h2 : x ≤ 2 ^ 31) :
    (∃ k, clp2 x = 2 ^ k ∧ x ≤ 2 ^ k ∧ (k = 0 ∨ 2 ^ (k - 1) < x) ∧
      (∀ j, x ≤ 2 ^ j ∧ (j = 0 ∨ 2 ^ (j - 1) < x) → j = k) ∧
      (∀ j, x ≤ 2 ^ j → clp2 x ≤ 2 ^ j)) ∧
    (∀ j, x = 2 ^ j → clp2 x = x) ∧
    PfQ.clp2 x = clp2 x := by
  obtain ⟨k, -, hc, hle, hk⟩ := clp2_spec x h1 h2
  have least : ∀ j, x ≤ 2 ^ j → k ≤ j := by
    intro j hj
    rcases hk with h0 | h0
    · omega
    · by_contra hcon
      have : 2 ^ j ≤ 2 ^ (k - 1) := Nat.pow_le_pow_right (by norm_num) (by omega)
      omega
  refine ⟨⟨k, hc, hle, hk, ?_, ?_⟩, ?_, rfl⟩
  · rintro j ⟨hj, hj2⟩
    have h3 := least j hj
    rcases hj2 with h0 | h0
    · omega
    · by_contra hcon
      have : 2 ^ k ≤ 2 ^ (j - 1) := Nat.pow_le_pow_right (by norm_num) (by omega)
      omega
  · intro j hj
    rw [hc]
    exact Nat.pow_le_pow_right (by norm_num) (least j hj)
  · intro j hj
    rw [hc, hj]
    have h3 := least j (le_of_eq hj)
    have h4 : 2 ^ k ≤ 2 ^ j := Nat.pow_le_pow_right (by norm_num) h3
    omega

theorem clp2_least_pow2_witness :
    1 ≤ 9 ∧ 9 ≤ 2 ^ 31 ∧
    ((∃ k, clp2 9 = 2 ^ k ∧ 9 ≤ 2 ^ k ∧ (k = 0 ∨ 2 ^ (k - 1) < 9) ∧
      (∀ j, 9 ≤ 2 ^ j ∧ (j = 0 ∨ 2 ^ (j - 1) < 9) → j = k) ∧
      (∀ j, 9 ≤ 2 ^ j → clp2 9 ≤ 2 ^ j)) ∧
    (∀ j, 9 = 2 ^ j → clp2 9 = 9) ∧
    PfQ.clp2 9 = clp2 9) :=
  ⟨by norm_num, by norm_num, clp2_least_pow2 9 (by norm_num) (by norm_num)⟩


/-! ## The steering cache -/

theorem push_sock_mask_live (ebit : Nat) (d : pfq_percpu_data) :
    sock_mask_live (push_sock_mask ebit d) = sock_mask_live d ++ [ebit] := by
  unfold sock_mask_live push_sock_mask
  simp only [List.range_succ, List.map_append, List.map_cons, List.map_nil, if_true]
  congr 1
  apply List.map_congr_left
  intro i hi
  have : i ≠ d.sock_cnt := by
    have := List.mem_range.mp hi
    omega
  simp [this]

theorem push_sock_mask_eligible (ebit : Nat) (d : pfq_percpu_data) :
    (push_sock_mask ebit d).sock_eligible_mask = d.sock_eligible_mask := rfl

theorem push_weight_live (ebit w : Nat) (d : pfq_percpu_data) :
    sock_mask_live (push_weight ebit w d) = sock_mask_live d ++ List.replicate w ebit ∧
    (push_weight ebit w d).sock_eligible_mask = d.sock_eligible_mask := by
  induction w generalizing d with
  | zero => simp [push_weight]
  | succ w ih =>
    obtain ⟨h1, h2⟩ := ih (push_sock_mask ebit d)
    refine ⟨?_, ?_⟩
    · rw [push_weight, h1, push_sock_mask_live, List.replicate_succ, List.append_assoc]
      rfl
    · rw [push_weight, h2, push_sock_mask_eligible]

theorem rebuild_fold_live (weight : Nat → Nat) (ids : List Nat) (d : pfq_percpu_data) :
    sock_mask_live (ids.foldl (fun d id => push_weight (1 <<< id) (weight id) d) d) =
      sock_mask_live d ++ ids.flatMap (fun id => List.replicate (weight id) (1 <<< id)) ∧
    (ids.foldl (fun d id => push_weight (1 <<< id) (weight id) d) d).sock_eligible_mask =
      d.sock_eligible_mask := by
  induction ids generalizing d with
  | nil => simp
  | cons id rest ih =>
    obtain ⟨h1, h2⟩ := ih (push_weight (1 <<< id) (weight id) d)
    obtain ⟨h3, h4⟩ := push_weight_live (1 <<< id) (weight id) d
    refine ⟨?_, ?_⟩
    · rw [List.foldl_cons, h1, h3, List.flatMap_cons, List.append_assoc]
    · rw [List.foldl_cons, h2, h4]

theorem sock_mask_live_length (d : pfq_percpu_data) : (sock_mask_live d).length = d.sock_cnt := by
  simp [sock_mask_live]

theorem length_flatMap_replicate (weight : Nat → Nat) (ids : List Nat) :
    (ids.flatMap (fun id => List.replicate (weight id) (1 <<< id))).length = (ids.map weight).sum := by
  induction ids with
  | nil => rfl
  | cons id rest ih => simp [List.flatMap_cons, ih]

/-- What the rebuild of core.c 279-291 leaves in the cache. -/
theorem rebuild_sock_mask_spec (weight : Nat → Nat) (eligible_mask : Nat)
    (data : pfq_percpu_data) :
    (rebuild_sock_mask weight eligible_mask data).sock_eligible_mask = eligible_mask ∧
    (rebuild_sock_mask weight eligible_mask data).sock_cnt =
      ((pfq_bitwise_foreach eligible_mask).map weight).sum ∧
    sock_mask_live (rebuild_sock_mask weight eligible_mask data) =
      (pfq_bitwise_foreach eligible_mask).flatMap
        (fun id => List.replicate (weight id) (1 <<< id)) := by
  obtain ⟨h1, h2⟩ := rebuild_fold_live weight (pfq_bitwise_foreach eligible_mask)
    { data with sock_eligible_mask := eligible_mask, sock_cnt := 0 }
  have h3 : sock_mask_live { data with sock_eligible_mask := eligible_mask, sock_cnt := 0 } = [] :=
    rfl
  rw [h3, List.nil_append] at h1
  refine ⟨h2, ?_, h1⟩
  rw [← sock_mask_live_length, ← length_flatMap_replicate]
  exact congrArg List.length h1


/-- C5: in `pfq_process_batch`, when a steering fanout's `eligible_mask` differs from the
cached `data->sock_eligible_mask`, the packet step leaves `sock_eligible_mask = eligible_mask`,
`sock_cnt` equal to the sum of `weight(sid)` over the sids set in `eligible_mask`, and
`sock_mask[0 .. sock_cnt)` equal to the list that holds, in ascending sid order, `1 << sid`
repeated `weight(sid)` times. -/
theorem steering_cache_rebuilt (e : batch_env) (gid n : Nat) (monad : pfq_lang_monad)
    (s : batch_state) (hst : is_steering monad.fanout = true)
    (hne : eligible_mask_of (s.groups gid).sock_id monad.fanout.class_mask ≠
      s.data.sock_eligible_mask) :
    let eligible_mask := eligible_mask_of (s.groups gid).sock_id monad.fanout.class_mask
    let data := (fanout_packet e gid n monad s).data
    data.sock_eligible_mask = eligible_mask ∧
    data.sock_cnt =
      (((List.range 64).filter (fun sid => eligible_mask.testBit sid)).map e.weight).sum ∧
    (List.range data.sock_cnt).map data.sock_mask =
      ((List.range 64).filter (fun sid => eligible_mask.testBit sid)).flatMap
        (fun sid => List.replicate (e.weight sid) (1 <<< sid)) := by
  intro eligible_mask data
  have hd : data = rebuild_sock_mask e.weight eligible_mask s.data := by
    show (fanout_packet e gid n monad s).data = _
    unfold fanout_packet
    simp only [hst, if_true, fan_out, steering_cache]
    rw [if_pos hne]
  rw [hd]
  exact rebuild_sock_mask_spec e.weight eligible_mask s.data

theorem steering_cache_rebuilt_witness :
    (fanout_packet env_1_3 0 0 (steer_monad 7)
      (flat_state (plain_group 3) [fresh_qbuff 100 1])).data.sock_eligible_mask = 3 ∧
    (fanout_packet env_1_3 0 0 (steer_monad 7)
      (flat_state (plain_group 3) [fresh_qbuff 100 1])).data.sock_cnt = 4 ∧
    (List.range (fanout_packet env_1_3 0 0 (steer_monad 7)
        (flat_state (plain_group 3) [fresh_qbuff 100 1])).data.sock_cnt).map
      (fanout_packet env_1_3 0 0 (steer_monad 7)
        (flat_state (plain_group 3) [fresh_qbuff 100 1])).data.sock_mask = [1, 2, 2, 2] :=
  steering_cache_rebuilt env_1_3 0 0 (steer_monad 7)
    (flat_state (plain_group 3) [fresh_qbuff 100 1]) (by decide) (by decide)


/-! ## Steering selection -/

/-- Counting over `0 .. w*K` block by block: if each of the `K` blocks of width `w` holds
`c` hits, the whole range holds `c * K`. -/
theorem filter_range_blocks (p : Nat → Bool) (w c : Nat) :
    ∀ K : Nat, (∀ b, b < K → ((List.range' (w * b) w).filter p).length = c) →
      ((List.range (w * K)).filter p).length = c * K := by
  intro K
  induction K with
  | zero => intro _; simp
  | succ K ih =>
    intro h
    have h1 := ih (fun b hb => h b (by omega))
    have h2 := h K (by omega)
    rw [List.range_eq_range'] at h1 ⊢
    have hsplit : List.range' 0 (w * (K + 1)) = List.range' 0 (w * K) ++ List.range' (w * K) w := by
      have := List.range'_append_1 0 (w * K) w
      rw [Nat.zero_add] at this
      rw [this]
      congr 1
      ring
    rw [hsplit, List.filter_append, List.length_append, h1, h2]
    ring

/-- With the weights 1 and 3 the rebuilt cache is `[1, 2, 2, 2]`, so the selection only
depends on the two low bits of the pre-folded hash. -/
theorem steer_1_3_eq (h : Nat) :
    steering_sock_mask (steering_cache weight_1_3 3 zero_data) (steer_on h) =
      if prefold (u32 h) % 4 = 0 then 1 else 2 := by
  have h4 : (steering_cache weight_1_3 3 zero_data).sock_cnt = 4 := by decide
  have m0 : (steering_cache weight_1_3 3 zero_data).sock_mask 0 = 1 := by decide
  have m1 : (steering_cache weight_1_3 3 zero_data).sock_mask 1 = 2 := by decide
  have m2 : (steering_cache weight_1_3 3 zero_data).sock_mask 2 = 2 := by decide
  have m3 : (steering_cache weight_1_3 3 zero_data).sock_mask 3 = 2 := by decide
  have hf : pfq_fold (prefold (u32 h)) (u32 4) = prefold (u32 h) % 4 := by
    have := pfq_fold_two_pow (prefold (u32 h)) 2 (by norm_num)
    rw [Nat.and_pow_two_sub_one_eq_mod] at this
    rw [show u32 4 = 2 ^ 2 from rfl, this]
  have hlt : prefold (u32 h) % 4 < 4 := Nat.mod_lt _ (by norm_num)
  simp only [steering_sock_mask, steering_slot, h4, hf, is_double_steering, steer_on]
  generalize prefold (u32 h) % 4 = r at hlt
  interval_cases r <;> simp [m0, m1, m2, m3]

/-- Below `2^16` the two low bits of the pre-folded hash are the two low bits of the hash
xor-ed with its bits 8 and 9. -/
theorem prefold_low_bits (h : Nat) (hh : h < 2 ^ 16) :
    prefold h % 4 = 0 ↔ h % 4 = h / 256 % 4 := by
  have h16 : h >>> 16 = 0 := by
    rw [Nat.shiftRight_eq_div_pow]; exact Nat.div_eq_of_lt hh
  have h24 : h >>> 24 = 0 := by
    rw [Nat.shiftRight_eq_div_pow]
    exact Nat.div_eq_of_lt (lt_trans hh (by norm_num))
  have h8 : h >>> 8 = h / 256 := by rw [Nat.shiftRight_eq_div_pow]
  have hx : prefold h % 4 = (h % 4) ^^^ (h / 256 % 4) := by
    unfold prefold
    rw [h16, h24, Nat.xor_zero, Nat.xor_zero, h8]
    apply Nat.eq_of_testBit_eq
    intro i
    have e4 : (4 : Nat) = 2 ^ 2 := rfl
    simp only [e4, Nat.testBit_mod_two_pow, Nat.testBit_xor]
    by_cases hi : i < 2 <;> simp [hi]
  rw [hx, Nat.xor_eq_zero]

/-- A predicate of period `T` holds equally often in every block of width `T`. -/
theorem filter_periodic_block (p : Nat → Bool) (T b : Nat) (hper : ∀ h, p (T * b + h) = p h) :
    ((List.range' (T * b) T).filter p).length = ((List.range T).filter p).length := by
  rw [List.range'_eq_map_range, List.filter_map, List.length_map]
  congr 2
  funext h
  exact hper h

/-- Evaluation over one period: of the hashes `0 .. 1023`, 256 have their two low bits equal
to their bits 8 and 9. -/
theorem low_bits_period :
    ((List.range 1024).filter (fun h => decide (h % 4 = h / 256 % 4))).length = 256 := by
  decide!

/-- Evaluation over the last, partial period `39936 .. 39999`. -/
theorem low_bits_tail :
    ((List.range' 39936 64).filter (fun h => decide (h % 4 = h / 256 % 4))).length = 16 := by
  decide!

/-- Of the hashes `0 .. 39999`, 10,000 have their two low bits equal to their bits 8, 9. -/
theorem low_bits_count :
    ((List.range 40000).filter (fun h => decide (h % 4 = h / 256 % 4))).length = 10000 := by
  have hfull := filter_range_blocks (fun h => decide (h % 4 = h / 256 % 4)) 1024 256 39
    (fun b _ => by
      rw [filter_periodic_block _ 1024 b (fun h => by
        have e1 : (1024 * b + h) % 4 = h % 4 := by omega
        have e2 : (1024 * b + h) / 256 % 4 = h / 256 % 4 := by omega
        rw [e1, e2])]
      exact low_bits_period)
  have hsplit : List.range 40000 = List.range (1024 * 39) ++ List.range' 39936 64 := by
    rw [List.range_eq_range', List.range_eq_range']
    have := List.range'_append_1 0 (1024 * 39) 64
    rw [Nat.zero_add] at this
    exact this.symm
  rw [hsplit, List.filter_append, List.length_append, hfull, low_bits_tail]

theorem length_filter_add_not (p : Nat → Bool) (l : List Nat) :
    (l.filter p).length + (l.filter (fun h => !p h)).length = l.length := by
  induction l with
  | nil => rfl
  | cons a t ih =>
    by_cases ha : p a = true
    · simp only [List.filter_cons, ha, Bool.not_true, if_true, List.length_cons]
      simp only [Bool.false_eq_true, if_false]
      omega
    · simp only [Bool.not_eq_true] at ha
      simp only [List.filter_cons, ha, Bool.not_false, if_true, List.length_cons]
      simp only [Bool.false_eq_true, if_false]
      omega

/-- If `c` of the `n` elements of a list satisfy `p` and `c + d = n`, then `d` do not. -/
theorem length_filter_not (p : Nat → Bool) (l : List Nat) (n c d : Nat) (hlen : l.length = n)
    (hc : (l.filter p).length = c) (hd : c + d = n) :
    (l.filter (fun h => !p h)).length = d := by
  have := length_filter_add_not p l
  omega

theorem steer_1_3_select (h : Nat) (hh : h < 40000) :
    steering_sock_mask (steering_cache weight_1_3 3 zero_data) (steer_on h) =
      if h % 4 = h / 256 % 4 then 1 else 2 := by
  have hu : u32 h = h := Nat.mod_eq_of_lt (by omega)
  rw [steer_1_3_eq, hu]
  have := prefold_low_bits h (by omega)
  by_cases hz : prefold h % 4 = 0
  · rw [if_pos hz, if_pos (this.mp hz)]
  · rw [if_neg hz, if_neg (fun hc => hz (this.mpr hc))]

theorem steered_to_A :
    ((List.range 40000).filter (fun h =>
      steering_sock_mask (steering_cache weight_1_3 3 zero_data) (steer_on h) = 1)).length
        = 10000 := by
  have hc : (List.range 40000).filter (fun h => decide
      (steering_sock_mask (steering_cache weight_1_3 3 zero_data) (steer_on h) = 1)) =
      (List.range 40000).filter (fun h => decide (h % 4 = h / 256 % 4)) := by
    apply List.filter_congr
    intro h hmem
    rw [steer_1_3_select h (List.mem_range.mp hmem)]
    by_cases hz : h % 4 = h / 256 % 4 <;> simp [hz]
  rw [hc]
  exact low_bits_count

theorem steered_to_B :
    ((List.range 40000).filter (fun h =>
      steering_sock_mask (steering_cache weight_1_3 3 zero_data) (steer_on h) = 2)).length
        = 30000 := by
  have hc : (List.range 40000).filter (fun h => decide
      (steering_sock_mask (steering_cache weight_1_3 3 zero_data) (steer_on h) = 2)) =
      (List.range 40000).filter (fun h => !decide (h % 4 = h / 256 % 4)) := by
    apply List.filter_congr
    intro h hmem
    rw [steer_1_3_select h (List.mem_range.mp hmem)]
    by_cases hz : h % 4 = h / 256 % 4 <;> simp [hz]
  rw [hc]
  exact length_filter_not _ (List.range 40000) 40000 10000 30000 (List.length_range 40000)
    low_bits_count (by norm_num)

/-- C6: weighted steering with sockets A (id 0, weight 1, mask 1) and B (id 1, weight 3,
mask 2): the rebuilt cache has `sock_cnt = 4`, and of the 40,000 hashes `h = 0..39999` steered through
`sock_mask[pfq_fold(prefold(h), 4)]` socket A is selected for between 9,600 and 10,400
(exactly 10,000, i.e. 25%) and socket B for all the others (30,000, i.e. 75%). -/
theorem weighted_steering_1_3 :
    (steering_cache weight_1_3 3 zero_data).sock_cnt = 4 ∧
    sock_mask_live (steering_cache weight_1_3 3 zero_data) = [1 <<< 0, 1 <<< 1, 1 <<< 1, 1 <<< 1] ∧
    (∀ h, h < 40000 →
      steering_sock_mask (steering_cache weight_1_3 3 zero_data) (steer_on h) =
        (steering_cache weight_1_3 3 zero_data).sock_mask (pfq_fold (prefold h) 4)) ∧
    9600 ≤ ((List.range 40000).filter (fun h =>
      steering_sock_mask (steering_cache weight_1_3 3 zero_data) (steer_on h) = 1)).length ∧
    ((List.range 40000).filter (fun h =>
      steering_sock_mask (steering_cache weight_1_3 3 zero_data) (steer_on h) = 1)).length
        ≤ 10400 ∧
    ((List.range 40000).filter (fun h =>
      steering_sock_mask (steering_cache weight_1_3 3 zero_data) (steer_on h) = 1)).length
        = 10000 ∧
    ((List.range 40000).filter (fun h =>
      steering_sock_mask (steering_cache weight_1_3 3 zero_data) (steer_on h) = 2)).length
        = 30000 ∧
    ((List.range 40000).filter (fun h =>
      steering_sock_mask (steering_cache weight_1_3 3 zero_data) (steer_on h) = 2)).length =
      40000 - ((List.range 40000).filter (fun h =>
        steering_sock_mask (steering_cache weight_1_3 3 zero_data) (steer_on h) = 1)).length := by
  have hA := steered_to_A
  have hB := steered_to_B
  refine ⟨by decide, by decide, ?_, le_trans (by norm_num) (le_of_eq hA.symm),
    le_trans (le_of_eq hA) (by norm_num), hA, hB, by rw [hA, hB]⟩
  intro h hh
  have h4 : (steering_cache weight_1_3 3 zero_data).sock_cnt = 4 := by decide
  have hu : u32 h = h := Nat.mod_eq_of_lt (by omega)
  have h4u : u32 4 = 4 := rfl
  simp [steering_sock_mask, steering_slot, h4, is_double_steering, steer_on, hu, h4u]

end Core

namespace Core

theorem sock_mask_of_live {d : pfq_percpu_data} {l : List Nat} (h : sock_mask_live d = l)
    (i : Nat) (hi : i < d.sock_cnt) : l[i]? = some (d.sock_mask i) := by
  subst h
  simp [sock_mask_live, hi]

/-- The set bits of a two-bit mask, in ascending order. -/
theorem foreach_two_bits (a b : Nat) (hab : a < b) (hb : b < 64) :
    pfq_bitwise_foreach (1 <<< a ||| 1 <<< b) = [a, b] := by
  unfold pfq_bitwise_foreach
  apply List.eq_of_perm_of_sorted (r := (· < ·))
  · rw [List.perm_ext_iff_of_nodup ((List.nodup_range 64).filter _)
      (by simp; omega)]
    intro i
    simp only [List.mem_filter, List.mem_range, Nat.testBit_lor, Nat.one_shiftLeft,
      Nat.testBit_two_pow, Bool.or_eq_true, decide_eq_true_eq, List.mem_cons,
      List.mem_singleton, List.not_mem_nil, or_false]
    omega
  · exact (List.pairwise_lt_range 64).filter _
  · simp [List.Sorted]; omega

/-- C7: for a double-steering fanout with `sock_cnt > 0` the packet's `sock_mask` is the
union of the two single-steering choices `sock_mask[pfq_fold(prefold(hash), sock_cnt)]` and
`sock_mask[pfq_fold(prefold(hash2), sock_cnt)]`; double steering with `hash2 = hash` yields
the same `sock_mask` as single steering with `hash`; and with two eligible sockets `a < b` of
weight 1 (cache rebuilt for them) and `hash = 0`, `hash2 = 1` the `sock_mask` has both
sockets' bits. -/
theorem double_steering_union (data : pfq_percpu_data) (fanout : fanout_t)
    (hd : fanout.type = fanout_type.double) (hcnt : 0 < data.sock_cnt)
    (hc32 : data.sock_cnt < 2 ^ 32) (hh : fanout.hash < 2 ^ 32) (hh2 : fanout.hash2 < 2 ^ 32) :
    steering_sock_mask data fanout =
      data.sock_mask (pfq_fold (prefold fanout.hash) data.sock_cnt) |||
        data.sock_mask (pfq_fold (prefold fanout.hash2) data.sock_cnt) ∧
    (∀ hash class_mask other,
      steering_sock_mask data
          { class_mask := class_mask, type := fanout_type.double, hash := hash, hash2 := hash } =
        steering_sock_mask data
          { class_mask := class_mask, type := fanout_type.steer, hash := hash, hash2 := other }) ∧
    (∀ (weight : Nat → Nat) (a b class_mask : Nat), a < b → b < 64 → weight a = 1 →
      weight b = 1 → 1 <<< a ||| 1 <<< b ≠ data.sock_eligible_mask →
      steering_sock_mask (steering_cache weight (1 <<< a ||| 1 <<< b) data)
          { class_mask := class_mask, type := fanout_type.double, hash := 0, hash2 := 1 } =
        1 <<< a ||| 1 <<< b) := by
  refine ⟨?_, ?_, ?_⟩
  · have h1 : u32 fanout.hash = fanout.hash := Nat.mod_eq_of_lt hh
    have h2 : u32 fanout.hash2 = fanout.hash2 := Nat.mod_eq_of_lt hh2
    have h3 : u32 data.sock_cnt = data.sock_cnt := Nat.mod_eq_of_lt hc32
    have h4 : data.sock_cnt ≠ 0 := by omega
    simp [steering_sock_mask, steering_slot, is_double_steering, hd, h1, h2, h3, h4]
  · intro hash class_mask other
    simp [steering_sock_mask, is_double_steering]
  · intro weight a b class_mask hab hb wa wb hne
    obtain ⟨-, hc, hl⟩ := rebuild_sock_mask_spec weight (1 <<< a ||| 1 <<< b) data
    rw [foreach_two_bits a b hab hb] at hc hl
    simp only [List.map_cons, List.map_nil, wa, wb, List.sum_cons, List.sum_nil,
      List.flatMap_cons, List.flatMap_nil, List.replicate_one, List.singleton_append,
      List.append_nil] at hc hl
    have hc2 : (rebuild_sock_mask weight (1 <<< a ||| 1 <<< b) data).sock_cnt = 2 := hc
    have g0 := sock_mask_of_live hl 0 (by omega)
    have g1 := sock_mask_of_live hl 1 (by omega)
    simp only [List.getElem?_cons_zero, List.getElem?_cons_succ, Option.some.injEq] at g0 g1
    have p0 : pfq_fold (prefold (u32 0)) (u32 2) = 0 := by decide
    have p1 : pfq_fold (prefold (u32 1)) (u32 2) = 1 := by decide
    simp [steering_cache, hne, steering_sock_mask, steering_slot, is_double_steering, hc2, p0,
      p1, ← g0, ← g1]

theorem double_steering_union_witness :
    (steering_cache (fun _ => 1) 3 zero_data).sock_cnt < 2 ^ 32 ∧
    steering_sock_mask (steering_cache (fun _ => 1) 3 zero_data)
        { class_mask := 1, type := fanout_type.double, hash := 0, hash2 := 1 } =
      (steering_cache (fun _ => 1) 3 zero_data).sock_mask
          (pfq_fold (prefold 0) (steering_cache (fun _ => 1) 3 zero_data).sock_cnt) |||
        (steering_cache (fun _ => 1) 3 zero_data).sock_mask
          (pfq_fold (prefold 1) (steering_cache (fun _ => 1) 3 zero_data).sock_cnt) ∧
    steering_sock_mask (steering_cache (fun _ => 1) 3 zero_data)
        { class_mask := 1, type := fanout_type.double, hash := 0, hash2 := 1 } = 3 :=
  ⟨by decide,
   (double_steering_union (steering_cache (fun _ => 1) 3 zero_data)
      { class_mask := 1, type := fanout_type.double, hash := 0, hash2 := 1 }
      rfl (by decide) (by decide) (by decide) (by decide)).1,
   by decide⟩

end Core

namespace Core

/-! ## The packet step -/

theorem mask_to_sock_queue_zero (n : Nat) (q : Nat → Nat) : mask_to_sock_queue n 0 q = q := by
  have : pfq_bitwise_foreach 0 = [] := by decide
  simp [mask_to_sock_queue, this]

theorem fan_out_zero (s : batch_state) (n : Nat) : fan_out s n 0 = s := by
  simp [fan_out, mask_to_sock_queue_zero]

/-- On the path of a packet that belongs to the group, passes both filters and is returned
by the computation with a fanout that is not a drop, `process_packet` is `fanout_packet`
applied to a state that differs from the initial one only in the pool, the monad, `refs` and
the group's `recv`, `frwd` and `kern` counters. -/
theorem process_packet_classified (e : batch_env) (gid n : Nat) (s : batch_state)
    (buff buff1 : qbuff) (prg : computation) (monad : pfq_lang_monad)
    (hpool : s.pool[n]? = some buff)
    (hin : buff.group_mask &&& (1 <<< gid) ≠ 0)
    (hbp : (s.groups gid).bp_filter.any (fun run => !run buff) = false)
    (hvlan : ((s.groups gid).vlan_filt_enabled && !(s.groups gid).vlan_filter buff) = false)
    (hcomp : (s.groups gid).comp = some prg)
    (hrun : prg { buff with state := 0 } (setup_monad e gid s.monad) = (some buff1, monad))
    (hnd : is_drop monad.fanout = false) :
    ∃ s1 : batch_state, process_packet e gid n s = fanout_packet e gid n monad s1 ∧
      s1.data = s.data ∧ s1.sock_queue = s.sock_queue ∧ s1.socket_mask = s.socket_mask ∧
      s1.copies = s.copies ∧ s1.refs = s.refs ++ [some buff1.addr] ∧
      (s1.groups gid).sock_id = (s.groups gid).sock_id ∧
      (s1.groups gid).stats.drop = (s.groups gid).stats.drop ∧
      (s1.groups gid).stats.recv = (s.groups gid).stats.recv + 1 := by
  unfold process_packet
  simp only [hpool]
  rw [if_neg hin]
  simp only [inc_recv, set_group, if_true, hbp, hvlan, hcomp, hrun, hnd, Bool.false_eq_true,
    if_false]
  exact ⟨_, rfl, by simp [add_frwd_kern, set_group]⟩

theorem is_drop_of_steering {f : fanout_t} (h : is_steering f = true) : is_drop f = false := by
  unfold is_steering at h
  unfold is_drop
  rcases ht : f.type <;> simp_all

theorem fanout_packet_groups (e : batch_env) (gid n : Nat) (monad : pfq_lang_monad)
    (s : batch_state) : (fanout_packet e gid n monad s).groups = s.groups := by
  unfold fanout_packet
  split <;> rfl

theorem fanout_packet_sock_queue (e : batch_env) (gid n : Nat) (monad : pfq_lang_monad)
    (s : batch_state) :
    ∃ m, (fanout_packet e gid n monad s).sock_queue = mask_to_sock_queue n m s.sock_queue := by
  unfold fanout_packet
  split <;> exact ⟨_, rfl⟩

/-- Whatever the path taken, the packet step changes `sock_queue` only through one call of
`mask_to_sock_queue` for the position `n` (with mask 0 on the paths that skip it). -/
theorem process_packet_sock_queue (e : batch_env) (gid n : Nat) (s : batch_state) :
    ∃ m, (process_packet e gid n s).sock_queue = mask_to_sock_queue n m s.sock_queue := by
  have z : ∀ q : Nat → Nat, q = mask_to_sock_queue n 0 q :=
    fun q => (mask_to_sock_queue_zero n q).symm
  unfold process_packet
  split
  · exact ⟨0, z _⟩
  · split
    · exact ⟨0, z _⟩
    · dsimp only
      split
      · exact ⟨0, z _⟩
      · split
        · exact ⟨0, z _⟩
        · split
          · split
            · exact ⟨0, z _⟩
            · split
              · exact ⟨0, z _⟩
              · exact fanout_packet_sock_queue _ _ _ _ _
          · exact ⟨_, rfl⟩

theorem mask_to_sock_queue_lt (L n mask : Nat) (q : Nat → Nat) (hn : n < L)
    (hq : ∀ sid, q sid < 2 ^ L) : ∀ sid, mask_to_sock_queue n mask q sid < 2 ^ L := by
  have hbit : u64 (1 <<< n) < 2 ^ L := by
    unfold u64
    rw [Nat.one_shiftLeft]
    exact lt_of_le_of_lt (Nat.mod_le _ _) (Nat.pow_lt_pow_right (by norm_num) hn)
  unfold mask_to_sock_queue
  generalize pfq_bitwise_foreach mask = l
  induction l generalizing q with
  | nil => exact hq
  | cons index rest ih =>
    rw [List.foldl_cons]
    apply ih
    intro sid
    by_cases h : sid = index
    · simp only [h, if_true]
      exact Nat.or_lt_two_pow (hq _) hbit
    · simp only [h, if_false]
      exact hq sid

theorem run_packets_succ (e : batch_env) (gid k : Nat) (s : batch_state) :
    run_packets e gid (k + 1) s = process_packet e gid k (run_packets e gid k s) := by
  simp [run_packets, List.range_succ, List.foldl_append]

theorem process_packet_lt (L : Nat) (e : batch_env) (gid n : Nat) (s : batch_state) (hn : n < L)
    (hq : ∀ sid, s.sock_queue sid < 2 ^ L) :
    ∀ sid, (process_packet e gid n s).sock_queue sid < 2 ^ L := by
  obtain ⟨m, hm⟩ := process_packet_sock_queue e gid n s
  rw [hm]
  exact mask_to_sock_queue_lt L n m s.sock_queue hn hq

theorem run_packets_lt (L : Nat) (e : batch_env) (gid : Nat) (s : batch_state)
    (hq : ∀ sid, s.sock_queue sid < 2 ^ L) :
    ∀ k, k ≤ L → ∀ sid, (run_packets e gid k s).sock_queue sid < 2 ^ L := by
  intro k
  induction k with
  | zero => intro _; exact hq
  | succ k ih =>
    intro hk
    rw [run_packets_succ]
    exact process_packet_lt L e gid k _ (by omega) (ih (by omega))

theorem process_group_lt (L : Nat) (e : batch_env) (s : batch_state) (gid : Nat)
    (hq : ∀ sid, s.sock_queue sid < 2 ^ L) :
    ∀ sid, (process_group e L s gid).sock_queue sid < 2 ^ L :=
  run_packets_lt L e gid (begin_group s) hq L (le_refl L)

theorem foldl_process_group_lt (L : Nat) (e : batch_env) (gs : List Nat) (s : batch_state)
    (hq : ∀ sid, s.sock_queue sid < 2 ^ L) :
    ∀ sid, (gs.foldl (process_group e L) s).sock_queue sid < 2 ^ L := by
  induction gs generalizing s with
  | nil => exact hq
  | cons g rest ih =>
    rw [List.foldl_cons]
    exact ih _ (process_group_lt L e s g hq)

theorem testBit_of_lt_two_pow {x L i : Nat} (hx : x < 2 ^ L) (hi : L ≤ i) :
    x.testBit i = false :=
  Nat.testBit_lt_two_pow (lt_of_lt_of_le hx (Nat.pow_le_pow_right (by norm_num) hi))

/-- C10: for every batch of length `L ≤ Q_BUFF_BATCH_LEN ≤ 64`, at every point of phase 2 of
`pfq_process_batch` (after any number `j` of groups, inside the inner loop of any group after
any number `k ≤ L` of packets) and at its end, no entry `sock_queue[sid]` has a bit set at a
position `≥ L`. -/
theorem sock_queue_within_batch (e : batch_env) (data : pfq_percpu_data)
    (groups : Nat → pfq_group) (monad : pfq_lang_monad) (global_recv : Nat) (pool : List qbuff)
    (Q_BUFF_BATCH_LEN : Nat) (hL : pool.length ≤ Q_BUFF_BATCH_LEN) (hQ : Q_BUFF_BATCH_LEN ≤ 64) :
    (∀ j gid k, k ≤ pool.length → ∀ sid i, pool.length ≤ i →
      ((batch_point e data groups monad global_recv pool j gid k).sock_queue sid).testBit i
        = false) ∧
    (∀ sid i, pool.length ≤ i →
      ((pfq_process_batch e data groups monad global_recv pool).sock_queue sid).testBit i
        = false) := by
  have _ := hL
  have _ := hQ
  have h0 : ∀ sid, (batch_begin e data groups monad global_recv pool).sock_queue sid
      < 2 ^ pool.length := fun _ => Nat.two_pow_pos _
  refine ⟨fun j gid k hk sid i hi => ?_, fun sid i hi => ?_⟩
  · have h1 := foldl_process_group_lt pool.length e ((batch_groups e data pool).take j) _ h0
    exact testBit_of_lt_two_pow
      (run_packets_lt pool.length e gid (begin_group _) h1 k hk sid) hi
  · exact testBit_of_lt_two_pow
      (foldl_process_group_lt pool.length e (batch_groups e data pool) _ h0 sid) hi

theorem sock_queue_within_batch_witness :
    two_group_pool.length ≤ 64 ∧ 64 ≤ 64 ∧
    ((batch_point two_group_env zero_data two_groups zero_monad 0 two_group_pool 1 1 1).sock_queue
        0).testBit 2 = false ∧
    ((pfq_process_batch two_group_env zero_data two_groups zero_monad 0
        two_group_pool).sock_queue 0).testBit 2 = false :=
  ⟨by decide, by decide,
   (sock_queue_within_batch two_group_env zero_data two_groups zero_monad 0 two_group_pool 64
      (by decide) (by decide)).1 1 1 1 (by decide) 0 2 (by decide),
   (sock_queue_within_batch two_group_env zero_data two_groups zero_monad 0 two_group_pool 64
      (by decide) (by decide)).2 0 2 (by decide)⟩

theorem eligible_mask_of_empty (sock_id : Nat → Nat) (class_mask : Nat)
    (h : ∀ c, c ∈ pfq_bitwise_foreach class_mask → u64 (sock_id c) = 0) :
    eligible_mask_of sock_id class_mask = 0 := by
  unfold eligible_mask_of
  generalize pfq_bitwise_foreach class_mask = l at h
  induction l with
  | nil => rfl
  | cons c rest ih =>
    rw [List.foldl_cons, h c (List.mem_cons_self _ _), Nat.or_zero]
    exact ih (fun c hc => h c (List.mem_cons_of_mem _ hc))

theorem steering_sock_mask_empty (data : pfq_percpu_data) (fanout : fanout_t)
    (h : data.sock_cnt = 0) : steering_sock_mask data fanout = 0 := by
  simp [steering_sock_mask, h]

theorem steering_cache_zero (weight : Nat → Nat) (data : pfq_percpu_data)
    (hinv : data.sock_eligible_mask = 0 → data.sock_cnt = 0) :
    (steering_cache weight 0 data).sock_cnt = 0 := by
  unfold steering_cache
  split
  · have : pfq_bitwise_foreach 0 = [] := by decide
    simp [rebuild_sock_mask, this]
  · rename_i h
    exact hinv (by simpa using Eq.symm (not_not.mp h))

/-- The fan-out with an empty `sock_mask` leaves `sock_queue`, `socket_mask`, the groups and
the recorded copies as they are. -/
theorem fanout_packet_silent (e : batch_env) (gid n : Nat) (monad : pfq_lang_monad)
    (s : batch_state)
    (h : if is_steering monad.fanout then
        (steering_cache e.weight
          (eligible_mask_of (s.groups gid).sock_id monad.fanout.class_mask) s.data).sock_cnt = 0
      else eligible_mask_of (s.groups gid).sock_id monad.fanout.class_mask = 0) :
    (fanout_packet e gid n monad s).sock_queue = s.sock_queue ∧
    (fanout_packet e gid n monad s).socket_mask = s.socket_mask ∧
    (fanout_packet e gid n monad s).groups = s.groups ∧
    (fanout_packet e gid n monad s).copies = s.copies := by
  unfold fanout_packet
  by_cases hs : is_steering monad.fanout = true
  · simp only [hs, if_true] at h ⊢
    simp [fan_out, steering_sock_mask_empty _ _ h, mask_to_sock_queue_zero]
  · simp only [hs, Bool.false_eq_true, if_false] at h ⊢
    simp [fan_out, h, mask_to_sock_queue_zero]

/-- C9: for a steering or double-steering fanout evaluated while the weighted array is empty
(`sock_cnt == 0` after the cache check) the packet's `sock_mask` is 0: the packet step sets
no bit in any `sock_queue` entry, does not extend `socket_mask` and does not increment the
group's drop counter. -/
theorem steering_empty_no_delivery (e : batch_env) (gid n : Nat) (s : batch_state)
    (buff buff1 : qbuff) (prg : computation) (monad : pfq_lang_monad)
    (hpool : s.pool[n]? = some buff)
    (hin : buff.group_mask &&& (1 <<< gid) ≠ 0)
    (hbp : (s.groups gid).bp_filter.any (fun run => !run buff) = false)
    (hvlan : ((s.groups gid).vlan_filt_enabled && !(s.groups gid).vlan_filter buff) = false)
    (hcomp : (s.groups gid).comp = some prg)
    (hrun : prg { buff with state := 0 } (setup_monad e gid s.monad) = (some buff1, monad))
    (hst : is_steering monad.fanout = true)
    (hempty : (steering_cache e.weight
      (eligible_mask_of (s.groups gid).sock_id monad.fanout.class_mask) s.data).sock_cnt = 0) :
    steering_sock_mask (steering_cache e.weight
      (eligible_mask_of (s.groups gid).sock_id monad.fanout.class_mask) s.data) monad.fanout = 0 ∧
    (process_packet e gid n s).sock_queue = s.sock_queue ∧
    (process_packet e gid n s).socket_mask = s.socket_mask ∧
    ((process_packet e gid n s).groups gid).stats.drop = (s.groups gid).stats.drop := by
  obtain ⟨s1, hs1, hdata, hq, hm, -, -, hid, hdrop, -⟩ :=
    process_packet_classified e gid n s buff buff1 prg monad hpool hin hbp hvlan hcomp hrun
      (is_drop_of_steering hst)
  have hsil := fanout_packet_silent e gid n monad s1 (by
    rw [if_pos hst, hid, hdata]; exact hempty)
  rw [hs1]
  refine ⟨steering_sock_mask_empty _ _ hempty, hsil.1.trans hq, hsil.2.1.trans hm, ?_⟩
  rw [hsil.2.2.1]
  exact hdrop

theorem steering_empty_no_delivery_witness :
    (steering_cache env_1_3.weight
      (eligible_mask_of (steering_group 0).sock_id (steer_on 7).class_mask) zero_data).sock_cnt
        = 0 ∧
    (process_packet env_1_3 0 0 (flat_state (steering_group 0) [member_qbuff 100])).sock_queue =
      (flat_state (steering_group 0) [member_qbuff 100]).sock_queue ∧
    (process_packet env_1_3 0 0 (flat_state (steering_group 0) [member_qbuff 100])).socket_mask =
      0 ∧
    ((process_packet env_1_3 0 0
      (flat_state (steering_group 0) [member_qbuff 100])).groups 0).stats.drop = 0 :=
  ⟨by decide,
   (steering_empty_no_delivery env_1_3 0 0 (flat_state (steering_group 0) [member_qbuff 100])
      (member_qbuff 100) { member_qbuff 100 with state := 0 } (steer_computation 7)
      { setup_monad env_1_3 0 zero_monad with fanout := steer_on 7 }
      rfl (by decide) rfl rfl rfl rfl rfl (by decide)).2⟩

/-- The packet step for a packet whose computation selects only classes without a joined
socket (and is not a drop): no bit is set in `sock_queue`, `socket_mask` is not extended, no
copy is recorded and the drop counter keeps its value.  For a steering fanout this needs
the cache to be consistent (`sock_cnt = 0` when the cached mask is 0). -/
theorem empty_class_step (e : batch_env) (gid n : Nat) (s : batch_state)
    (buff buff1 : qbuff) (prg : computation) (monad : pfq_lang_monad)
    (hpool : s.pool[n]? = some buff)
    (hin : buff.group_mask &&& (1 <<< gid) ≠ 0)
    (hbp : (s.groups gid).bp_filter.any (fun run => !run buff) = false)
    (hvlan : ((s.groups gid).vlan_filt_enabled && !(s.groups gid).vlan_filter buff) = false)
    (hcomp : (s.groups gid).comp = some prg)
    (hrun : prg { buff with state := 0 } (setup_monad e gid s.monad) = (some buff1, monad))
    (hnd : is_drop monad.fanout = false)
    (hclass : ∀ c, c ∈ pfq_bitwise_foreach monad.fanout.class_mask →
      u64 ((s.groups gid).sock_id c) = 0)
    (hcache : s.data.sock_eligible_mask = 0 → s.data.sock_cnt = 0) :
    (process_packet e gid n s).sock_queue = s.sock_queue ∧
    (process_packet e gid n s).socket_mask = s.socket_mask ∧
    (process_packet e gid n s).copies = s.copies ∧
    ((process_packet e gid n s).groups gid).stats.drop = (s.groups gid).stats.drop := by
  obtain ⟨s1, hs1, hdata, hq, hm, hcp, -, hid, hdrop, -⟩ :=
    process_packet_classified e gid n s buff buff1 prg monad hpool hin hbp hvlan hcomp hrun hnd
  have hel := eligible_mask_of_empty (s.groups gid).sock_id monad.fanout.class_mask hclass
  have hsil := fanout_packet_silent e gid n monad s1 (by
    rw [hid, hdata, hel]
    split
    · exact steering_cache_zero e.weight s.data hcache
    · rfl)
  rw [hs1]
  refine ⟨hsil.1.trans hq, hsil.2.1.trans hm, hsil.2.2.2.trans hcp, ?_⟩
  rw [hsil.2.2.1]
  exact hdrop

/-- C8 (evaluation of the code on the two-group batch): group 1 classifies packet 0
exclusively to class 1, which no socket has joined (eligible mask 0), and no drop is counted;
yet, because `sock_queue[0]` still holds bit 0 from group 0 and packet 1 puts socket 0 into
group 1's `socket_mask`, the second `pfq_copy_to_endpoint_qbuffs` call hands socket 0 the
mask `0b11` with `refs[0]` non-null under gid 1: packet 0 is enqueued again. -/
theorem empty_class_packet_enqueued :
    eligible_mask_of (two_groups 1).sock_id 2 = 0 ∧
    (pfq_process_batch two_group_env zero_data two_groups zero_monad 0 two_group_pool).copies =
      [{ id := 0, gid := 0, refs := [some 100, none], mask := 1 },
       { id := 0, gid := 1, refs := [some 100, some 101], mask := 3 }] ∧
    ((pfq_process_batch two_group_env zero_data two_groups zero_monad 0 two_group_pool).groups
      1).stats.drop = 0 := by
  decide

end Core

namespace Core

/-! ## Frame of the packet step -/

theorem fanout_packet_frame (e : batch_env) (gid n : Nat) (monad : pfq_lang_monad)
    (s : batch_state) :
    (fanout_packet e gid n monad s).pool = s.pool ∧
    (fanout_packet e gid n monad s).refs = s.refs ∧
    (fanout_packet e gid n monad s).copies = s.copies ∧
    (fanout_packet e gid n monad s).groups = s.groups := by
  unfold fanout_packet
  split <;> exact ⟨rfl, rfl, rfl, rfl⟩

theorem fanout_packet_fan (e : batch_env) (gid n : Nat) (monad : pfq_lang_monad)
    (s : batch_state) :
    ∃ m, (fanout_packet e gid n monad s).sock_queue = mask_to_sock_queue n m s.sock_queue ∧
      (fanout_packet e gid n monad s).socket_mask = s.socket_mask ||| m := by
  unfold fanout_packet
  split <;> exact ⟨_, rfl, rfl⟩

/-- The pool after the packet step: same length, and only position `n` may differ. -/
theorem process_packet_pool (e : batch_env) (gid n : Nat) (s : batch_state) :
    (process_packet e gid n s).pool.length = s.pool.length ∧
    ∀ i, i ≠ n → (process_packet e gid n s).pool[i]? = s.pool[i]? := by
  unfold process_packet
  split
  · exact ⟨rfl, fun _ _ => rfl⟩
  · split
    · exact ⟨rfl, fun _ _ => rfl⟩
    · dsimp only
      split
      · exact ⟨rfl, fun _ _ => rfl⟩
      · split
        · exact ⟨rfl, fun _ _ => rfl⟩
        · split
          · split
            · refine ⟨?_, fun i hi => ?_⟩
              · simp [drop_packet, set_group, inc_recv]
              · simp [drop_packet, set_group, inc_recv, List.getElem?_set_ne (Ne.symm hi)]
            · split
              · refine ⟨?_, fun i hi => ?_⟩
                · simp [drop_packet, set_group, inc_recv, add_frwd_kern]
                · simp [drop_packet, set_group, inc_recv, add_frwd_kern,
                    List.getElem?_set_ne (Ne.symm hi)]
              · rw [(fanout_packet_frame _ _ _ _ _).1]
                refine ⟨?_, fun i hi => ?_⟩
                · simp [set_group, inc_recv, add_frwd_kern]
                · simp [set_group, inc_recv, add_frwd_kern, List.getElem?_set_ne (Ne.symm hi)]
          · refine ⟨?_, fun i hi => ?_⟩
            · simp [fan_out, set_group, inc_recv]
            · simp [fan_out, set_group, inc_recv, List.getElem?_set_ne (Ne.symm hi)]

/-- The packet step changes nothing in the group table but counters of the group `gid`. -/
theorem process_packet_groups (e : batch_env) (gid n : Nat) (s : batch_state) (g : Nat) :
    group_config_eq ((process_packet e gid n s).groups g) (s.groups g) := by
  have r : ∀ x : pfq_group, group_config_eq x x := fun _ => ⟨rfl, rfl, rfl, rfl, rfl⟩
  unfold process_packet
  split
  · exact r _
  · split
    · exact r _
    · dsimp only
      split
      · by_cases hg : g = gid <;> simp [drop_packet, set_group, inc_recv, group_config_eq, hg]
      · split
        · by_cases hg : g = gid <;> simp [drop_packet, set_group, inc_recv, group_config_eq, hg]
        · split
          · split
            · by_cases hg : g = gid <;>
                simp [drop_packet, set_group, inc_recv, group_config_eq, hg]
            · split
              · by_cases hg : g = gid <;>
                  simp [drop_packet, set_group, inc_recv, add_frwd_kern, group_config_eq, hg]
              · rw [(fanout_packet_frame _ _ _ _ _).2.2.2]
                by_cases hg : g = gid <;>
                  simp [set_group, inc_recv, add_frwd_kern, group_config_eq, hg]
          · by_cases hg : g = gid <;> simp [fan_out, set_group, inc_recv, group_config_eq, hg]

/-- Accounting of the packet step: one reference is appended, one mask `m` is fanned out,
`recv` counts the packets of the group and `drop` the rejected ones, whose reference is
null. -/
theorem process_packet_account (e : batch_env) (gid n : Nat) (s : batch_state) (buff : qbuff)
    (hpool : s.pool[n]? = some buff) :
    ∃ (r : Option Nat) (m : Nat),
      (process_packet e gid n s).refs = s.refs ++ [r] ∧
      (process_packet e gid n s).sock_queue = mask_to_sock_queue n m s.sock_queue ∧
      (process_packet e gid n s).socket_mask = s.socket_mask ||| m ∧
      (process_packet e gid n s).copies = s.copies ∧
      ((process_packet e gid n s).groups gid).stats.recv =
        (s.groups gid).stats.recv + (if packet_belongs gid n s then 1 else 0) ∧
      ((process_packet e gid n s).groups gid).stats.drop =
        (s.groups gid).stats.drop + (if packet_rejected e gid n s then 1 else 0) ∧
      (packet_belongs gid n s = false → r = none ∧ m = 0) ∧
      (packet_rejected e gid n s = true → r = none ∧ m = 0) ∧
      (r = none ∨ r = some buff.addr ∨
        ∃ prg b1 m1, (s.groups gid).comp = some prg ∧
          prg { buff with state := 0 } (setup_monad e gid s.monad) = (some b1, m1) ∧
          r = some b1.addr) := by
  have z : ∀ q : Nat → Nat, mask_to_sock_queue n 0 q = q := mask_to_sock_queue_zero n
  by_cases hin : buff.group_mask &&& (1 <<< gid) = 0
  · refine ⟨none, 0, ?_⟩
    simp [process_packet, packet_belongs, packet_rejected, hpool, hin, z]
  by_cases hbp : (s.groups gid).bp_filter.any (fun run => !run buff) = true
  · refine ⟨none, 0, ?_⟩
    simp [process_packet, packet_belongs, packet_rejected, hpool, hin, hbp, z, inc_recv,
      set_group, drop_packet]
  by_cases hvlan : ((s.groups gid).vlan_filt_enabled && !(s.groups gid).vlan_filter buff) = true
  · refine ⟨none, 0, ?_⟩
    simp [process_packet, packet_belongs, packet_rejected, hpool, hin, hbp, hvlan, z, inc_recv,
      set_group, drop_packet]
  rcases hcomp : (s.groups gid).comp with _ | prg
  · refine ⟨some buff.addr, 0 ||| u64 ((s.groups gid).sock_id 0), ?_⟩
    simp [process_packet, packet_belongs, packet_rejected, hpool, hin, hbp, hvlan, hcomp,
      inc_recv, set_group, fan_out]
  rcases hrun : prg { buff with state := 0 } (setup_monad e gid s.monad) with ⟨ob, m1⟩
  rcases ob with _ | b1
  · refine ⟨none, 0, ?_⟩
    simp [process_packet, packet_belongs, packet_rejected, hpool, hin, hbp, hvlan, hcomp, hrun,
      z, inc_recv, set_group, drop_packet]
  by_cases hnd : is_drop m1.fanout = true
  · refine ⟨none, 0, ?_⟩
    simp [process_packet, packet_belongs, packet_rejected, hpool, hin, hbp, hvlan, hcomp, hrun,
      hnd, z, inc_recv, set_group, drop_packet, add_frwd_kern]
  · simp only [Bool.not_eq_true] at hbp hvlan hnd
    obtain ⟨s1, hs1, -, hq, hm, hcp, hrefs, -, hdrop, hrecv⟩ :=
      process_packet_classified e gid n s buff b1 prg m1 hpool hin hbp hvlan hcomp hrun hnd
    obtain ⟨m, hfq, hfm⟩ := fanout_packet_fan e gid n m1 s1
    obtain ⟨-, hfr, hfc, hfg⟩ := fanout_packet_frame e gid n m1 s1
    refine ⟨some b1.addr, m, ?_⟩
    rw [hs1, hfr, hfq, hfm, hfc, hfg, hq, hm, hcp, hrefs, hdrop, hrecv]
    simp [packet_belongs, packet_rejected, hpool, hin, hbp, hvlan, hcomp, hrun, hnd]

theorem group_config_eq_trans {a b c : pfq_group} (h1 : group_config_eq a b)
    (h2 : group_config_eq b c) : group_config_eq a c :=
  ⟨h1.1.trans h2.1, h1.2.1.trans h2.2.1, h1.2.2.1.trans h2.2.2.1, h1.2.2.2.1.trans h2.2.2.2.1,
    h1.2.2.2.2.trans h2.2.2.2.2⟩

/-- What the first `k` packet steps of a group leave untouched: the length of the pool, the
buffers not yet visited, the configuration of the groups and the recorded copies; `refs`
has grown by `k`. -/
theorem run_packets_frame (e : batch_env) (gid : Nat) (s0 : batch_state) :
    ∀ k, k ≤ s0.pool.length →
      (run_packets e gid k s0).pool.length = s0.pool.length ∧
      (∀ i, k ≤ i → (run_packets e gid k s0).pool[i]? = s0.pool[i]?) ∧
      (∀ g, group_config_eq ((run_packets e gid k s0).groups g) (s0.groups g)) ∧
      (run_packets e gid k s0).copies = s0.copies ∧
      (run_packets e gid k s0).refs.length = s0.refs.length + k := by
  intro k
  induction k with
  | zero =>
    intro _
    exact ⟨rfl, fun _ _ => rfl, fun _ => ⟨rfl, rfl, rfl, rfl, rfl⟩, rfl, rfl⟩
  | succ k ih =>
    intro hk
    obtain ⟨hlen, hpool, hgrp, hcp, hrefs⟩ := ih (by omega)
    rw [run_packets_succ]
    have hk' : k < (run_packets e gid k s0).pool.length := by omega
    obtain ⟨r, m, ar, -, -, ac, -⟩ :=
      process_packet_account e gid k (run_packets e gid k s0) _ (List.getElem?_eq_getElem hk')
    obtain ⟨pl, po⟩ := process_packet_pool e gid k (run_packets e gid k s0)
    refine ⟨pl.trans hlen, fun i hi => ?_, fun g => ?_, ac.trans hcp, ?_⟩
    · rw [po i (by omega)]
      exact hpool i (by omega)
    · exact group_config_eq_trans (process_packet_groups e gid k _ g) (hgrp g)
    · rw [ar, List.length_append, hrefs]
      rfl

theorem run_packets_pool_at (e : batch_env) (gid : Nat) (s0 : batch_state) (n : Nat)
    (hn : n < s0.pool.length) :
    (run_packets e gid n s0).pool[n]? = s0.pool[n]? :=
  (run_packets_frame e gid s0 n (by omega)).2.1 n (le_refl n)

/-! ## The fan-out bits -/

theorem foldl_or_at (b : Nat) (l : List Nat) (q : Nat → Nat) (sid : Nat) :
    l.foldl (fun q index => fun i => if i = index then q i ||| b else q i) q sid =
      if sid ∈ l then q sid ||| b else q sid := by
  induction l generalizing q with
  | nil => simp
  | cons a t ih =>
    rw [List.foldl_cons, ih]
    by_cases h1 : sid = a
    · subst h1
      by_cases h2 : sid ∈ t
      · simp [h2, Nat.or_assoc]
      · simp [h2]
    · by_cases h2 : sid ∈ t
      · simp [h1, h2]
      · simp [h1, h2]

theorem mem_pfq_bitwise_foreach (mask i : Nat) :
    i ∈ pfq_bitwise_foreach mask ↔ i < 64 ∧ mask.testBit i = true := by
  simp [pfq_bitwise_foreach]

/-- The entry `sock_queue[sid]` after `mask_to_sock_queue(n, mask, sock_queue)`. -/
theorem mask_to_sock_queue_at (n mask : Nat) (q : Nat → Nat) (sid : Nat) :
    mask_to_sock_queue n mask q sid =
      if sid < 64 ∧ mask.testBit sid = true then q sid ||| u64 (1 <<< n) else q sid := by
  unfold mask_to_sock_queue
  rw [foldl_or_at]
  by_cases h : sid ∈ pfq_bitwise_foreach mask
  · rw [if_pos h, if_pos ((mem_pfq_bitwise_foreach mask sid).mp h)]
  · rw [if_neg h, if_neg (fun hc => h ((mem_pfq_bitwise_foreach mask sid).mpr hc))]

theorem mask_to_sock_queue_mono (n mask : Nat) (q : Nat → Nat) (sid i : Nat)
    (h : (q sid).testBit i = true) : (mask_to_sock_queue n mask q sid).testBit i = true := by
  rw [mask_to_sock_queue_at]
  split
  · rw [Nat.testBit_or, h]; rfl
  · exact h

theorem u64_one_shiftLeft_testBit (n : Nat) (hn : n < 64) :
    (u64 (1 <<< n)).testBit n = true := by
  unfold u64
  rw [Nat.testBit_mod_two_pow, Nat.one_shiftLeft, Nat.testBit_two_pow_self]
  simp [hn]

theorem mask_to_sock_queue_sets (n mask : Nat) (q : Nat → Nat) (sid : Nat) (hn : n < 64)
    (hsid : sid < 64) (hbit : mask.testBit sid = true) :
    (mask_to_sock_queue n mask q sid).testBit n = true := by
  rw [mask_to_sock_queue_at, if_pos ⟨hsid, hbit⟩, Nat.testBit_or,
    u64_one_shiftLeft_testBit n hn]
  simp

theorem state_le_refl (a : batch_state) : state_le a a :=
  ⟨⟨[], by simp⟩, fun _ _ h => h, fun _ h => h⟩

theorem state_le_trans {a b c : batch_state} (h1 : state_le a b) (h2 : state_le b c) :
    state_le a c := by
  obtain ⟨⟨t1, r1⟩, q1, m1⟩ := h1
  obtain ⟨⟨t2, r2⟩, q2, m2⟩ := h2
  exact ⟨⟨t1 ++ t2, by rw [r2, r1, List.append_assoc]⟩, fun sid i h => q2 sid i (q1 sid i h),
    fun i h => m2 i (m1 i h)⟩

theorem process_packet_le (e : batch_env) (gid n : Nat) (s : batch_state) :
    state_le s (process_packet e gid n s) := by
  rcases hp : s.pool[n]? with _ | buff
  · have : process_packet e gid n s = s := by
      unfold process_packet
      simp [hp]
    rw [this]
    exact state_le_refl s
  · obtain ⟨r, m, ar, aq, am, -⟩ := process_packet_account e gid n s buff hp
    refine ⟨⟨[r], ar⟩, fun sid i h => ?_, fun i h => ?_⟩
    · rw [aq]
      exact mask_to_sock_queue_mono n m _ sid i h
    · rw [am, Nat.testBit_or, h]
      rfl

theorem run_packets_le (e : batch_env) (gid : Nat) (s0 : batch_state) (j : Nat) :
    ∀ k, j ≤ k → state_le (run_packets e gid j s0) (run_packets e gid k s0) := by
  intro k
  induction k with
  | zero =>
    intro h
    have : j = 0 := by omega
    subst this
    exact state_le_refl _
  | succ k ih =>
    intro h
    by_cases hj : j = k + 1
    · subst hj
      exact state_le_refl _
    · rw [run_packets_succ]
      exact state_le_trans (ih (by omega)) (process_packet_le e gid k _)

theorem state_le_refs {a b : batch_state} (h : state_le a b) (i : Nat) (r : Option Nat)
    (hr : a.refs[i]? = some r) : b.refs[i]? = some r := by
  obtain ⟨⟨t, ht⟩, -, -⟩ := h
  rw [ht]
  have hi : i < a.refs.length := by
    by_contra hc
    rw [List.getElem?_eq_none (by omega)] at hr
    exact Option.noConfusion hr
  rw [List.getElem?_append_left hi]
  exact hr

/-! ## Counters and references of a group -/

theorem length_filter_range_succ (p : Nat → Bool) (k : Nat) :
    ((List.range (k + 1)).filter p).length =
      ((List.range k).filter p).length + (if p k then 1 else 0) := by
  rw [List.range_succ, List.filter_append, List.length_append]
  by_cases h : p k = true <;> simp [h]

theorem packet_belongs_run (e : batch_env) (gid : Nat) (s0 : batch_state) (n : Nat)
    (hn : n < s0.pool.length) :
    packet_belongs gid n (run_packets e gid n s0) = packet_belongs gid n s0 := by
  unfold packet_belongs
  rw [run_packets_pool_at e gid s0 n hn]

/-- The counters of the group after the first `k` packet steps. -/
theorem run_packets_stats (e : batch_env) (gid : Nat) (s0 : batch_state) :
    ∀ k, k ≤ s0.pool.length →
      ((run_packets e gid k s0).groups gid).stats.recv =
        (s0.groups gid).stats.recv +
          ((List.range k).filter (fun n => packet_belongs gid n s0)).length ∧
      ((run_packets e gid k s0).groups gid).stats.drop =
        (s0.groups gid).stats.drop +
          ((List.range k).filter
            (fun n => packet_rejected e gid n (run_packets e gid n s0))).length := by
  intro k
  induction k with
  | zero => intro _; exact ⟨rfl, rfl⟩
  | succ k ih =>
    intro hk
    obtain ⟨h1, h2⟩ := ih (by omega)
    have hlen := (run_packets_frame e gid s0 k (by omega)).1
    have hk' : k < (run_packets e gid k s0).pool.length := by omega
    obtain ⟨r, m, -, -, -, -, arecv, adrop, -⟩ :=
      process_packet_account e gid k (run_packets e gid k s0) _ (List.getElem?_eq_getElem hk')
    rw [run_packets_succ, length_filter_range_succ, length_filter_range_succ, arecv, adrop, h1,
      h2, packet_belongs_run e gid s0 k (by omega)]
    exact ⟨by ring, by ring⟩

/-- The reference stored for position `n` by the packet step of position `n`. -/
theorem run_packets_ref (e : batch_env) (gid : Nat) (s0 : batch_state) (hrefs : s0.refs = [])
    (n k : Nat) (hn : n < k) (hk : k ≤ s0.pool.length) (buff : qbuff)
    (hb : s0.pool[n]? = some buff) :
    ∃ (r : Option Nat) (m : Nat),
      (run_packets e gid k s0).refs[n]? = some r ∧
      (process_packet e gid n (run_packets e gid n s0)).sock_queue =
        mask_to_sock_queue n m (run_packets e gid n s0).sock_queue ∧
      (process_packet e gid n (run_packets e gid n s0)).socket_mask =
        (run_packets e gid n s0).socket_mask ||| m ∧
      (packet_belongs gid n s0 = false → r = none ∧ m = 0) ∧
      (packet_rejected e gid n (run_packets e gid n s0) = true → r = none ∧ m = 0) ∧
      (r = none ∨ r = some buff.addr ∨
        ∃ prg b1 m1, (s0.groups gid).comp = some prg ∧
          prg { buff with state := 0 } (setup_monad e gid (run_packets e gid n s0).monad) =
            (some b1, m1) ∧ r = some b1.addr) := by
  have hfr := run_packets_frame e gid s0 n (by omega)
  have hpn : (run_packets e gid n s0).pool[n]? = some buff := by
    rw [run_packets_pool_at e gid s0 n (by omega)]; exact hb
  obtain ⟨r, m, ar, aq, am, -, -, -, ab, aj, ac⟩ :=
    process_packet_account e gid n (run_packets e gid n s0) buff hpn
  refine ⟨r, m, ?_, aq, am, ?_, aj, ?_⟩
  · have hle := run_packets_le e gid s0 (n + 1) k (by omega)
    apply state_le_refs hle
    rw [run_packets_succ, ar]
    have hl : (run_packets e gid n s0).refs.length = n := by
      rw [hfr.2.2.2.2, hrefs]; simp
    rw [List.getElem?_append_right (by omega), hl]
    simp
  · rw [← packet_belongs_run e gid s0 n (by omega)]
    exact ab
  · rw [← (hfr.2.2.1 gid).2.2.2.1]
    exact ac

end Core

namespace Core

/-! ## Claims on a whole group iteration -/

theorem process_group_fields (e : batch_env) (L : Nat) (s : batch_state) (gid : Nat) :
    (process_group e L s gid).groups = (run_packets e gid L (begin_group s)).groups ∧
    (process_group e L s gid).refs = (run_packets e gid L (begin_group s)).refs ∧
    (process_group e L s gid).sock_queue = (run_packets e gid L (begin_group s)).sock_queue ∧
    (process_group e L s gid).copies =
      (run_packets e gid L (begin_group s)).copies ++
        (pfq_bitwise_foreach (run_packets e gid L (begin_group s)).socket_mask).map
          (fun id =>
            { id := id, gid := gid, refs := (run_packets e gid L (begin_group s)).refs
              mask := (run_packets e gid L (begin_group s)).sock_queue id }) :=
  ⟨rfl, rfl, rfl, rfl⟩

/-- C12: processing a group increases `stats.recv` by exactly the number of batch packets
whose `group_mask` contains the gid, and `stats.drop` by exactly the number of those packets
that are rejected by the byte-code filter, or else by the VLAN filter, or else by the
computation (null result or drop fanout); every packet step adds 1 to `drop` for a rejected
packet and 0 for any other, and a rejected packet gets `refs[n] = null`. -/
theorem group_recv_drop_counters (e : batch_env) (s : batch_state) (gid : Nat) :
    ((process_group e s.pool.length s gid).groups gid).stats.recv =
      (s.groups gid).stats.recv +
        ((List.range s.pool.length).filter (fun n => packet_belongs gid n s)).length ∧
    ((process_group e s.pool.length s gid).groups gid).stats.drop =
      (s.groups gid).stats.drop +
        ((List.range s.pool.length).filter
          (fun n => packet_rejected e gid n (run_packets e gid n (begin_group s)))).length ∧
    (∀ n, n < s.pool.length →
      ((process_packet e gid n (run_packets e gid n (begin_group s))).groups gid).stats.drop =
        ((run_packets e gid n (begin_group s)).groups gid).stats.drop +
          (if packet_rejected e gid n (run_packets e gid n (begin_group s)) then 1 else 0)) ∧
    (∀ n, n < s.pool.length →
      packet_rejected e gid n (run_packets e gid n (begin_group s)) = true →
      (process_group e s.pool.length s gid).refs[n]? = some none) := by
  have hst := run_packets_stats e gid (begin_group s) s.pool.length (le_refl _)
  refine ⟨hst.1, hst.2, fun n hn => ?_, fun n hn hrej => ?_⟩
  · have hlen := (run_packets_frame e gid (begin_group s) n (Nat.le_of_lt hn)).1
    have hn' : n < (run_packets e gid n (begin_group s)).pool.length := by
      rw [hlen]; exact hn
    obtain ⟨r, m, -, -, -, -, -, adrop, -⟩ :=
      process_packet_account e gid n (run_packets e gid n (begin_group s)) _
        (List.getElem?_eq_getElem hn')
    exact adrop
  · have hb : (begin_group s).pool[n]? = some (s.pool[n]) := List.getElem?_eq_getElem hn
    obtain ⟨r, m, hr, -, -, -, hj, -⟩ :=
      run_packets_ref e gid (begin_group s) rfl n s.pool.length hn (le_refl _) _ hb
    rw [(process_group_fields e s.pool.length s gid).2.1, hr, (hj hrej).1]

/-- C14: when the inner loop of a group ends, `refs.len` is the batch length `L` and, provided
the computation returns its argument or null, `refs.ref[n]` is either null or the buffer at
batch position `n`; the calls of `pfq_copy_to_endpoint_qbuffs` made for the group carry these
`refs` together with `sock_queue[id]`, so bit `n` of the mask designates the packet at
arrival position `n`. -/
theorem refs_follow_batch_order (e : batch_env) (s : batch_state) (gid : Nat)
    (hcls : ∀ prg, (s.groups gid).comp = some prg →
      ∀ b m b1 m1, prg b m = (some b1, m1) → b1.addr = b.addr) :
    (run_packets e gid s.pool.length (begin_group s)).refs.length = s.pool.length ∧
    (∀ (n : Nat) (buff : qbuff), s.pool[n]? = some buff →
      (run_packets e gid s.pool.length (begin_group s)).refs[n]? = some none ∨
      (run_packets e gid s.pool.length (begin_group s)).refs[n]? = some (some buff.addr)) ∧
    (∀ c, c ∈ (process_group e s.pool.length s gid).copies → c ∈ s.copies ∨
      (c.gid = gid ∧ c.refs = (run_packets e gid s.pool.length (begin_group s)).refs ∧
        c.mask = (run_packets e gid s.pool.length (begin_group s)).sock_queue c.id)) := by
  have hfr := run_packets_frame e gid (begin_group s) s.pool.length (le_refl _)
  refine ⟨?_, fun n buff hb => ?_, fun c hc => ?_⟩
  · rw [hfr.2.2.2.2]
    simp [begin_group]
  · have hn : n < s.pool.length := by
      by_contra hcon
      rw [List.getElem?_eq_none (by omega)] at hb
      exact Option.noConfusion hb
    obtain ⟨r, m, hr, -, -, -, -, hcases⟩ :=
      run_packets_ref e gid (begin_group s) rfl n s.pool.length hn (le_refl _) buff hb
    rw [hr]
    rcases hcases with h | h | ⟨prg, b1, m1, hcomp, hrun, h⟩
    · left; rw [h]
    · right; rw [h]
    · right
      rw [h, hcls prg hcomp _ _ _ _ hrun]
  · rw [(process_group_fields e s.pool.length s gid).2.2.2, List.mem_append] at hc
    rcases hc with h | h
    · left
      rw [hfr.2.2.2.1] at h
      exact h
    · right
      obtain ⟨id, -, rfl⟩ := List.mem_map.mp h
      exact ⟨rfl, rfl, rfl⟩

theorem eligible_mask_of_class_zero (sock_id : Nat → Nat) :
    eligible_mask_of sock_id 1 = u64 (sock_id 0) := by
  have h : pfq_bitwise_foreach 1 = [0] := by decide
  simp [eligible_mask_of, h]

theorem u64_testBit (x i : Nat) (hi : i < 64) : (u64 x).testBit i = x.testBit i := by
  unfold u64
  rw [Nat.testBit_mod_two_pow]
  simp [hi]

/-- The packet step of a packet that the computation answers with a copy fanout on
class 0: the reference is stored and `sock_id[0]` is fanned out. -/
theorem process_packet_broadcast (e : batch_env) (gid n : Nat) (s : batch_state)
    (buff buff1 : qbuff) (prg : computation) (monad : pfq_lang_monad)
    (hpool : s.pool[n]? = some buff)
    (hin : buff.group_mask &&& (1 <<< gid) ≠ 0)
    (hbp : (s.groups gid).bp_filter.any (fun run => !run buff) = false)
    (hvlan : ((s.groups gid).vlan_filt_enabled && !(s.groups gid).vlan_filter buff) = false)
    (hcomp : (s.groups gid).comp = some prg)
    (hrun : prg { buff with state := 0 } (setup_monad e gid s.monad) = (some buff1, monad))
    (htype : monad.fanout.type = fanout_type.copy) (hclass : monad.fanout.class_mask = 1) :
    (process_packet e gid n s).sock_queue =
      mask_to_sock_queue n (u64 ((s.groups gid).sock_id 0)) s.sock_queue ∧
    (process_packet e gid n s).socket_mask = s.socket_mask ||| u64 ((s.groups gid).sock_id 0) ∧
    (process_packet e gid n s).refs = s.refs ++ [some buff1.addr] := by
  have hnd : is_drop monad.fanout = false := by simp [is_drop, htype]
  have hns : is_steering monad.fanout = false := by simp [is_steering, htype]
  obtain ⟨s1, hs1, -, hq, hm, -, hrefs, hid, -, -⟩ :=
    process_packet_classified e gid n s buff buff1 prg monad hpool hin hbp hvlan hcomp hrun hnd
  rw [hs1]
  unfold fanout_packet
  simp [hns, fan_out, hid, hclass, eligible_mask_of_class_zero, hq, hm, hrefs]

/-- C11 (broadcast): in a group whose computation answers every packet with a copy fanout on
`class_mask = 0b1` (never null, never a drop), every batch packet `n` that belongs to the
group and passes its filters gets `sock_mask = sock_id[0]`; so after the group iteration bit
`n` is set in `sock_queue[sid]` for every socket `sid` joined under class 0, and the
`pfq_copy_to_endpoint_qbuffs` call made for `sid` hands it that packet (bit `n` set in the
mask, `refs[n]` non-null). -/
theorem broadcast_class_zero (e : batch_env) (s : batch_state) (gid : Nat) (prg : computation)
    (hL : s.pool.length ≤ 64)
    (hcomp : (s.groups gid).comp = some prg)
    (hprg : ∀ b m, ∃ b1 m1, prg b m = (some b1, m1) ∧ m1.fanout.type = fanout_type.copy ∧
      m1.fanout.class_mask = 1)
    (n : Nat) (buff : qbuff) (hpool : s.pool[n]? = some buff)
    (hin : buff.group_mask &&& (1 <<< gid) ≠ 0)
    (hbp : (s.groups gid).bp_filter.any (fun run => !run buff) = false)
    (hvlan : ((s.groups gid).vlan_filt_enabled && !(s.groups gid).vlan_filter buff) = false) :
    (process_packet e gid n (run_packets e gid n (begin_group s))).sock_queue =
      mask_to_sock_queue n (u64 ((s.groups gid).sock_id 0))
        (run_packets e gid n (begin_group s)).sock_queue ∧
    ∀ sid, sid < 64 → ((s.groups gid).sock_id 0).testBit sid = true →
      ((process_group e s.pool.length s gid).sock_queue sid).testBit n = true ∧
      ∃ c, c ∈ (process_group e s.pool.length s gid).copies ∧ c.id = sid ∧ c.gid = gid ∧
        handed c n = true := by
  have hn : n < s.pool.length := by
    by_contra hcon
    rw [List.getElem?_eq_none (by omega)] at hpool
    exact Option.noConfusion hpool
  have hfr := run_packets_frame e gid (begin_group s) n (Nat.le_of_lt hn)
  have hcfg := hfr.2.2.1 gid
  have hpn : (run_packets e gid n (begin_group s)).pool[n]? = some buff := by
    rw [run_packets_pool_at e gid (begin_group s) n hn]; exact hpool
  obtain ⟨b1, m1, hrun, htype, hclass⟩ :=
    hprg { buff with state := 0 } (setup_monad e gid (run_packets e gid n (begin_group s)).monad)
  have hstep := process_packet_broadcast e gid n (run_packets e gid n (begin_group s)) buff b1
    prg m1 hpn hin (by rw [hcfg.1]; exact hbp) (by rw [hcfg.2.1, hcfg.2.2.1]; exact hvlan)
    (by rw [hcfg.2.2.2.1]; exact hcomp) hrun htype hclass
  rw [hcfg.2.2.2.2] at hstep
  have hsid0 : (begin_group s).groups gid = s.groups gid := rfl
  rw [hsid0] at hstep
  refine ⟨hstep.1, fun sid hsid hbit => ?_⟩
  have hle := run_packets_le e gid (begin_group s) (n + 1) s.pool.length (by omega)
  rw [run_packets_succ] at hle
  have hub : (u64 ((s.groups gid).sock_id 0)).testBit sid = true := by
    rw [u64_testBit _ _ hsid]; exact hbit
  have hq : ((run_packets e gid s.pool.length (begin_group s)).sock_queue sid).testBit n
      = true := by
    apply hle.2.1
    rw [hstep.1]
    exact mask_to_sock_queue_sets n _ _ sid (by omega) hsid hub
  have hm : (run_packets e gid s.pool.length (begin_group s)).socket_mask.testBit sid
      = true := by
    apply hle.2.2
    rw [hstep.2.1, Nat.testBit_or, hub]
    simp
  have hr : (run_packets e gid s.pool.length (begin_group s)).refs[n]? = some (some b1.addr) := by
    apply state_le_refs hle
    rw [hstep.2.2]
    have hl : (run_packets e gid n (begin_group s)).refs.length = n := by
      rw [hfr.2.2.2.2]; simp [begin_group]
    rw [List.getElem?_append_right (by omega), hl]
    simp
  refine ⟨hq, ⟨endpoint_copy.mk sid gid (run_packets e gid s.pool.length (begin_group s)).refs
    ((run_packets e gid s.pool.length (begin_group s)).sock_queue sid), ?_, rfl, rfl, ?_⟩⟩
  · rw [(process_group_fields e s.pool.length s gid).2.2.2]
    apply List.mem_append_right
    exact List.mem_map.mpr ⟨sid, (mem_pfq_bitwise_foreach _ _).mpr ⟨hsid, hm⟩, rfl⟩
  · simp [handed, hq, List.getD, hr]

/-! ## Release of the buffers (phase 4) -/

theorem release_fold (peeked : Nat → Bool) (pool : List qbuff) (log : release_log) :
    (pool.foldl (release_qbuff peeked) log).freed =
      log.freed ++
        (pool.filter (fun b => !fwd_to_kernel b || peeked b.addr)).map (fun b => b.addr) ∧
    (pool.foldl (release_qbuff peeked) log).to_kernel =
      log.to_kernel ++ (pool.filter fwd_to_kernel).map (fun b => b.addr) ∧
    (pool.foldl (release_qbuff peeked) log).kern =
      log.kern + (pool.filter fwd_to_kernel).length := by
  induction pool generalizing log with
  | nil => simp
  | cons b rest ih =>
    rw [List.foldl_cons]
    obtain ⟨h1, h2, h3⟩ := ih (release_qbuff peeked log b)
    rw [h1, h2, h3]
    by_cases hf : fwd_to_kernel b = true
    · by_cases hp : peeked b.addr = true
      · simp [release_qbuff, hf, hp, List.filter_cons]
        omega
      · simp [release_qbuff, hf, hp, List.filter_cons]
        omega
    · simp [release_qbuff, hf, List.filter_cons]

theorem count_map_filter_of_nodup (p : qbuff → Bool) (pool : List qbuff)
    (hnd : (pool.map (fun b => b.addr)).Nodup) (b : qbuff) (hb : b ∈ pool) :
    ((pool.filter p).map (fun b => b.addr)).count b.addr = if p b then 1 else 0 := by
  induction pool with
  | nil => simp at hb
  | cons a rest ih =>
    rw [List.map_cons, List.nodup_cons] at hnd
    obtain ⟨hna, hrest⟩ := hnd
    have hnotin : ∀ x ∈ rest, x.addr ≠ a.addr := by
      intro x hx hc
      exact hna (List.mem_map.mpr ⟨x, hx, hc⟩)
    have hcount0 : ((rest.filter p).map (fun b => b.addr)).count a.addr = 0 := by
      rw [List.count_eq_zero]
      intro hmem
      obtain ⟨x, hx, hxa⟩ := List.mem_map.mp hmem
      exact hnotin x (List.mem_filter.mp hx).1 hxa
    rcases List.mem_cons.mp hb with h | h
    · subst h
      by_cases hp : p b = true
      · simp [List.filter_cons, hp, hcount0]
      · simp [List.filter_cons, hp, hcount0]
    · have hne : a.addr ≠ b.addr := fun hc => hnotin b h hc.symm
      by_cases hp : p a = true
      · simp only [List.filter_cons, hp, if_true, List.map_cons]
        rw [List.count_cons_of_ne hne.symm]
        exact ih hrest h
      · simp only [List.filter_cons, hp, Bool.false_eq_true, if_false]
        exact ih hrest h

/-- C13 (as stated, refuted): a packet that the computation passes to the kernel and whose skb
is not peeked is moved to the kernel and never passed to `qbuff_free`. -/
theorem kernel_packet_not_freed :
    ¬ (∀ (peeked : Nat → Bool) (s : batch_state) (b : qbuff), b ∈ s.pool →
        (pfq_process_batch_end peeked s).1.freed.count b.addr = 1) := by
  intro h
  have hfreed : (pfq_process_batch_end (fun _ => false) kernel_batch).1.freed = [] := by decide
  have hlen : kernel_batch.pool.length = 1 := by decide
  obtain ⟨b, hb⟩ : ∃ b, b ∈ kernel_batch.pool :=
    List.exists_mem_of_length_pos (by rw [hlen]; exact Nat.one_pos)
  have h1 := h (fun _ => false) kernel_batch b hb
  rw [hfreed] at h1
  simp at h1

/-- C13 (amended): phase 4 passes every Qbuff of the GC pool to `qbuff_free(buff, &pool->rx)`
exactly once, except the buffers that are forwarded to the kernel and whose skb is not
peeked: those are handed to `qbuff_move_or_copy_to_kernel` and not freed; no buffer is freed
twice; then the GC is reset and 0 is returned. -/
theorem release_exactly_once_unless_moved (peeked : Nat → Bool) (s : batch_state)
    (hnd : (s.pool.map (fun b => b.addr)).Nodup) :
    (∀ b, b ∈ s.pool →
      (pfq_process_batch_end peeked s).1.freed.count b.addr =
        (if fwd_to_kernel b && !peeked b.addr then 0 else 1) ∧
      (pfq_process_batch_end peeked s).1.to_kernel.count b.addr =
        (if fwd_to_kernel b then 1 else 0)) ∧
    (pfq_process_batch_end peeked s).1.kern = (s.pool.filter fwd_to_kernel).length ∧
    (pfq_process_batch_end peeked s).2.1.pool = [] ∧
    (pfq_process_batch_end peeked s).2.2 = 0 := by
  obtain ⟨h1, h2, h3⟩ := release_fold peeked s.pool { freed := [], to_kernel := [], kern := 0 }
  refine ⟨fun b hb => ⟨?_, ?_⟩, ?_, rfl, rfl⟩
  · show (release_qbuffs peeked s.pool).freed.count b.addr = _
    unfold release_qbuffs
    rw [h1, List.nil_append, count_map_filter_of_nodup _ s.pool hnd b hb]
    by_cases hf : fwd_to_kernel b = true <;> by_cases hp : peeked b.addr = true <;> simp [hf, hp]
  · show (release_qbuffs peeked s.pool).to_kernel.count b.addr = _
    unfold release_qbuffs
    rw [h2, List.nil_append, count_map_filter_of_nodup _ s.pool hnd b hb]
  · show (release_qbuffs peeked s.pool).kern = _
    unfold release_qbuffs
    rw [h3]
    simp

end Core

namespace Core

theorem broadcast_class_zero_witness :
    broadcast_pair.pool.length ≤ 64 ∧
    (process_packet env_1_3 0 1 (run_packets env_1_3 0 1 (begin_group broadcast_pair))).sock_queue =
      mask_to_sock_queue 1 (u64 ((broadcast_pair.groups 0).sock_id 0))
        (run_packets env_1_3 0 1 (begin_group broadcast_pair)).sock_queue ∧
    ((process_group env_1_3 broadcast_pair.pool.length broadcast_pair 0).sock_queue 2).testBit 1
      = true ∧
    (∃ c, c ∈ (process_group env_1_3 broadcast_pair.pool.length broadcast_pair 0).copies ∧
      c.id = 2 ∧ c.gid = 0 ∧ handed c 1 = true) ∧
    broadcast_batch_1.copies.map (fun c => (c.id, c.gid, handed_count c)) =
      [(0, 0, 64), (1, 0, 64), (2, 0, 64)] ∧
    broadcast_batch_2.copies.map (fun c => (c.id, c.gid, handed_count c)) =
      [(0, 0, 36), (1, 0, 36), (2, 0, 36)] :=
  ⟨by decide,
   (broadcast_class_zero env_1_3 broadcast_pair 0 broadcast_computation (by decide) rfl
      (fun b m => ⟨b, _, rfl, rfl, rfl⟩) 1 (member_qbuff 101) rfl (by decide) rfl rfl).1,
   ((broadcast_class_zero env_1_3 broadcast_pair 0 broadcast_computation (by decide) rfl
      (fun b m => ⟨b, _, rfl, rfl, rfl⟩) 1 (member_qbuff 101) rfl (by decide) rfl rfl).2
        2 (by decide) (by decide)).1,
   ((broadcast_class_zero env_1_3 broadcast_pair 0 broadcast_computation (by decide) rfl
      (fun b m => ⟨b, _, rfl, rfl, rfl⟩) 1 (member_qbuff 101) rfl (by decide) rfl rfl).2
        2 (by decide) (by decide)).2,
   by decide!, by decide!⟩

/-- The byte-code filter scenario of C12: 10 rejected and 10 accepted packets give
`drop = 10` and `recv = 20`, and each of the three sockets is handed the 10 accepted ones. -/
theorem group_recv_drop_counters_witness :
    ((process_group env_1_3 filtered_start.pool.length filtered_start 0).groups 0).stats.recv
      = 20 ∧
    ((process_group env_1_3 filtered_start.pool.length filtered_start 0).groups 0).stats.drop
      = 10 ∧
    (process_group env_1_3 filtered_start.pool.length filtered_start 0).copies.map
      (fun c => (c.id, c.gid, handed_count c)) = [(0, 0, 10), (1, 0, 10), (2, 0, 10)] :=
  ⟨(group_recv_drop_counters env_1_3 filtered_start 0).1.trans (by decide!),
   (group_recv_drop_counters env_1_3 filtered_start 0).2.1.trans (by decide!),
   by decide!⟩

theorem release_exactly_once_unless_moved_witness :
    (release_pair.pool.map (fun b => b.addr)).Nodup ∧
    (pfq_process_batch_end (fun _ => false) release_pair).1.freed = [101] ∧
    (pfq_process_batch_end (fun _ => false) release_pair).1.to_kernel = [100] ∧
    (pfq_process_batch_end (fun _ => false) release_pair).1.kern =
      (release_pair.pool.filter fwd_to_kernel).length ∧
    (pfq_process_batch_end (fun _ => false) release_pair).2.1.pool = [] ∧
    (pfq_process_batch_end (fun _ => false) release_pair).2.2 = 0 :=
  ⟨by decide, by decide, by decide,
   (release_exactly_once_unless_moved (fun _ => false) release_pair (by decide)).2⟩

theorem refs_follow_batch_order_witness :
    (run_packets env_1_3 0 broadcast_pair.pool.length (begin_group broadcast_pair)).refs.length
      = broadcast_pair.pool.length ∧
    (run_packets env_1_3 0 broadcast_pair.pool.length (begin_group broadcast_pair)).refs
      = [some 100, some 101] ∧
    (∀ c, c ∈ (process_group env_1_3 broadcast_pair.pool.length broadcast_pair 0).copies →
      c ∈ broadcast_pair.copies ∨
      (c.gid = 0 ∧
        c.refs =
          (run_packets env_1_3 0 broadcast_pair.pool.length (begin_group broadcast_pair)).refs ∧
        c.mask =
          (run_packets env_1_3 0 broadcast_pair.pool.length (begin_group broadcast_pair)).sock_queue
            c.id)) :=
  ⟨(refs_follow_batch_order env_1_3 broadcast_pair 0
      (fun prg hprg b m b1 m1 h => by
        have hp : prg = broadcast_computation := (Option.some.inj hprg).symm
        subst hp
        exact (congrArg qbuff.addr (Option.some.inj (congrArg Prod.fst h))).symm)).1,
   by decide,
   (refs_follow_batch_order env_1_3 broadcast_pair 0
      (fun prg hprg b m b1 m1 h => by
        have hp : prg = broadcast_computation := (Option.some.inj hprg).symm
        subst hp
        exact (congrArg qbuff.addr (Option.some.inj (congrArg Prod.fst h))).symm)).2.2⟩

end Core

namespace PfQ

/-! ## Socket ids -/

theorem get_free_id_from_found (pq : Nat) (v : Nat → Nat) :
    ∀ fuel n m, n ≤ m → m < n + fuel → v m = 0 → (∀ i, n ≤ i → i < m → v i ≠ 0) →
      get_free_id_from pq v fuel n = ((m : Int), Function.update v m pq) := by
  intro fuel
  induction fuel with
  | zero => intro n m h1 h2; omega
  | succ fuel ih =>
    intro n m h1 h2 hz hnz
    by_cases hnm : n = m
    · subst hnm
      simp [get_free_id_from, atomic_long_cmpxchg, hz]
    · have hn : v n ≠ 0 := hnz n (le_refl _) (by omega)
      simp only [get_free_id_from, atomic_long_cmpxchg, hn, if_false]
      exact ih (n + 1) m (by omega) (by omega) hz (fun i hi him => hnz i (by omega) him)

theorem get_free_id_from_full (pq : Nat) (v : Nat → Nat) :
    ∀ fuel n, (∀ i, n ≤ i → i < n + fuel → v i ≠ 0) →
      get_free_id_from pq v fuel n = (-1, v) := by
  intro fuel
  induction fuel with
  | zero => intro n _; rfl
  | succ fuel ih =>
    intro n hnz
    have hn : v n ≠ 0 := hnz n (le_refl _) (by omega)
    simp only [get_free_id_from, atomic_long_cmpxchg, hn, if_false]
    exact ih (n + 1) (fun i hi hlt => hnz i (by omega) (by omega))

theorem get_free_id_from_neg (pq : Nat) (v : Nat → Nat) :
    ∀ fuel n, (get_free_id_from pq v fuel n).1 = -1 →
      ∀ i, n ≤ i → i < n + fuel → v i ≠ 0 := by
  intro fuel
  induction fuel with
  | zero => intro n _ i h1 h2; omega
  | succ fuel ih =>
    intro n hres i h1 h2
    by_cases hn : v n = 0
    · simp [get_free_id_from, atomic_long_cmpxchg, hn] at hres
    · simp only [get_free_id_from, atomic_long_cmpxchg, hn, if_false] at hres
      by_cases hin : i = n
      · rw [hin]; exact hn
      · exact ih (n + 1) hres i (by omega) (by omega)

theorem exists_lowest_free (Q : Nat) (v : Nat → Nat) (h : ∃ n, n < Q ∧ v n = 0) :
    ∃ n, n < Q ∧ v n = 0 ∧ ∀ i, i < n → v i ≠ 0 := by
  classical
  refine ⟨Nat.find h, (Nat.find_spec h).1, (Nat.find_spec h).2, fun i hi hv => ?_⟩
  exact Nat.find_min h hi ⟨lt_trans hi (Nat.find_spec h).1, hv⟩

/-- C15: when a slot of `pfq_vector` is 0, `pfq_get_free_id(pq)` returns the lowest index `n`
with `pfq_vector[n] = 0`, stores `pq` there and leaves every other slot unchanged; it returns
-1 if and only if all `Q_MAX_ID` slots are occupied, and then `pfq_vector` is unchanged and
`pfq_ctor` returns `-EBUSY` without having changed `pfq_vector`. -/
theorem pfq_get_free_id_lowest (e : pfq_env) (pq : Nat) (pfq_vector : Nat → Nat) :
    ((∃ n, n < e.Q_MAX_ID ∧ pfq_vector n = 0) →
      ∃ n, n < e.Q_MAX_ID ∧ pfq_vector n = 0 ∧ (∀ i, i < n → pfq_vector i ≠ 0) ∧
        (pfq_get_free_id e.Q_MAX_ID pq pfq_vector).1 = (n : Int) ∧
        (pfq_get_free_id e.Q_MAX_ID pq pfq_vector).2 n = pq ∧
        ∀ j, j ≠ n → (pfq_get_free_id e.Q_MAX_ID pq pfq_vector).2 j = pfq_vector j) ∧
    ((pfq_get_free_id e.Q_MAX_ID pq pfq_vector).1 = -1 ↔
      ∀ i, i < e.Q_MAX_ID → pfq_vector i ≠ 0) ∧
    ((pfq_get_free_id e.Q_MAX_ID pq pfq_vector).1 = -1 →
      (pfq_get_free_id e.Q_MAX_ID pq pfq_vector).2 = pfq_vector ∧
      (pfq_ctor e pq pfq_vector).1 = -EBUSY ∧
      (pfq_ctor e pq pfq_vector).2.2 = pfq_vector) := by
  refine ⟨fun h => ?_, ⟨fun h i hi => ?_, fun h => ?_⟩, fun h => ?_⟩
  · obtain ⟨n, hn, hz, hlow⟩ := exists_lowest_free e.Q_MAX_ID pfq_vector h
    have hres := get_free_id_from_found pq pfq_vector e.Q_MAX_ID 0 n (Nat.zero_le _)
      (by omega) hz (fun i _ hi => hlow i hi)
    refine ⟨n, hn, hz, hlow, ?_, ?_, fun j hj => ?_⟩
    · simp [pfq_get_free_id, hres]
    · simp [pfq_get_free_id, hres]
    · simp [pfq_get_free_id, hres, Function.update, hj]
  · exact get_free_id_from_neg pq pfq_vector e.Q_MAX_ID 0 h i (Nat.zero_le _) (by omega)
  · simp [pfq_get_free_id,
      get_free_id_from_full pq pfq_vector e.Q_MAX_ID 0 (fun i _ hi => h i (by omega))]
  · have hall := get_free_id_from_neg pq pfq_vector e.Q_MAX_ID 0 h
    have hres := get_free_id_from_full pq pfq_vector e.Q_MAX_ID 0
      (fun i h1 h2 => hall i h1 h2)
    refine ⟨?_, ?_, ?_⟩
    · simp [pfq_get_free_id, hres]
    · simp [pfq_ctor, pfq_get_free_id, hres]
    · simp [pfq_ctor, pfq_get_free_id, hres]

/-- The vector whose first three slots are occupied. -/
theorem pfq_get_free_id_lowest_witness :
    (∃ n, n < plain_env.Q_MAX_ID ∧ (fun i => if i < 3 then 7 else 0) n = 0) ∧
    (∃ n, n < plain_env.Q_MAX_ID ∧ (fun i => if i < 3 then 7 else 0) n = 0 ∧
      (∀ i, i < n → (fun i => if i < 3 then 7 else 0) i ≠ 0) ∧
      (pfq_get_free_id plain_env.Q_MAX_ID 9 (fun i => if i < 3 then 7 else 0)).1 = (n : Int) ∧
      (pfq_get_free_id plain_env.Q_MAX_ID 9 (fun i => if i < 3 then 7 else 0)).2 n = 9 ∧
      ∀ j, j ≠ n →
        (pfq_get_free_id plain_env.Q_MAX_ID 9 (fun i => if i < 3 then 7 else 0)).2 j =
          (fun i => if i < 3 then 7 else 0) j) ∧
    (pfq_get_free_id plain_env.Q_MAX_ID 9 (fun i => if i < 3 then 7 else 0)).1 = 3 ∧
    (pfq_get_free_id plain_env.Q_MAX_ID 9 (fun _ => 7)).1 = -1 ∧
    (pfq_ctor plain_env 9 (fun _ => 7)).1 = -EBUSY :=
  ⟨⟨3, by decide, by decide⟩,
   (pfq_get_free_id_lowest plain_env 9 (fun i => if i < 3 then 7 else 0)).1
     ⟨3, by decide, by decide⟩,
   by decide, by decide,
   ((pfq_get_free_id_lowest plain_env 9 (fun _ => 7)).2.2 (by decide)).2.1⟩

/-! ## The user queue -/

theorem hweight64_le (x : Nat) : hweight64 x ≤ 64 := by
  unfold hweight64
  exact (List.length_filter_le _ _).trans (by simp)

theorem int32_of_small (n : Nat) (h : n ≤ 64) : int32 (n : Int) = (n : Int) := by
  unfold int32
  omega

/-- C16: on an active socket, when the queue accepts `sent <= popcount(m)` packets of the
batch mask `m`, `pfq_copy_to_user_skbs` adds `sent` to the socket's `recv`, adds
`popcount(m) - sent` to its `lost`, leaves everything else alone and returns true iff
`sent = popcount(m)`; on an inactive socket nothing changes and it returns true. -/
theorem copy_to_user_skbs_counters (mpdb_enqueue_batch : pfq_opt → Nat → Int → Nat)
    (pq : pfq_opt) (m : Nat) :
    (pq.q_active = true →
      mpdb_enqueue_batch pq m (hweight64 m : Int) ≤ hweight64 m →
      (pfq_copy_to_user_skbs mpdb_enqueue_batch pq m).2 =
        { pq with
          q_stat :=
            { recv := pq.q_stat.recv + mpdb_enqueue_batch pq m (hweight64 m : Int)
              lost := pq.q_stat.lost +
                (hweight64 m - mpdb_enqueue_batch pq m (hweight64 m : Int))
              drop := pq.q_stat.drop } } ∧
      ((pfq_copy_to_user_skbs mpdb_enqueue_batch pq m).1 = true ↔
        mpdb_enqueue_batch pq m (hweight64 m : Int) = hweight64 m)) ∧
    (pq.q_active = false → pfq_copy_to_user_skbs mpdb_enqueue_batch pq m = (true, pq)) := by
  have h64 := hweight64_le m
  have hlen := int32_of_small (hweight64 m) h64
  refine ⟨fun hact hsent => ?_, fun hin => ?_⟩
  · have hsz : ((hweight64 m : Int) % 2 ^ 64).toNat = hweight64 m := by omega
    by_cases hlt : mpdb_enqueue_batch pq m (hweight64 m : Int) < hweight64 m
    · have hu : Core.u64 (hweight64 m + 2 ^ 64 - mpdb_enqueue_batch pq m (hweight64 m : Int)) =
          hweight64 m - mpdb_enqueue_batch pq m (hweight64 m : Int) := by
        unfold Core.u64
        omega
      simp only [pfq_copy_to_user_skbs, hact, if_true, hlen, hsz, gt_iff_lt, hlt, hu]
      refine ⟨trivial, ?_⟩
      simp only [Bool.false_eq_true, false_iff]
      omega
    · have heq : mpdb_enqueue_batch pq m (hweight64 m : Int) = hweight64 m := by omega
      simp only [pfq_copy_to_user_skbs, hact, if_true, hlen, hsz, gt_iff_lt, hlt, if_false]
      refine ⟨?_, by simp [heq]⟩
      rw [heq]
      simp
  · simp [pfq_copy_to_user_skbs, hin]

/-- The overflow scenario: a queue that accepts 8 packets of a batch of 16. -/
theorem copy_to_user_skbs_counters_witness :
    ({ fresh_opt with q_active := true } : pfq_opt).q_active = true ∧
    (8 : Nat) ≤ hweight64 0xFFFF ∧
    hweight64 0xFFFF = 16 ∧
    (pfq_copy_to_user_skbs (fun _ _ _ => 8) { fresh_opt with q_active := true } 0xFFFF).2 =
      { fresh_opt with q_active := true, q_stat := { recv := 8, lost := 8, drop := 0 } } ∧
    (pfq_copy_to_user_skbs (fun _ _ _ => 8) { fresh_opt with q_active := true } 0xFFFF).1 =
      false ∧
    pfq_copy_to_user_skbs (fun _ _ _ => 8) fresh_opt 0xFFFF = (true, fresh_opt) :=
  ⟨rfl, by decide, by decide,
   ((copy_to_user_skbs_counters (fun _ _ _ => 8) { fresh_opt with q_active := true } 0xFFFF).1
      rfl (by decide)).1.trans (by decide),
   by decide,
   (copy_to_user_skbs_counters (fun _ _ _ => 8) fresh_opt 0xFFFF).2 rfl⟩

/-! ## Scalar options -/

/-- C17: for each of the scalar options caplen, slots, offset and tstamp, a `pfq_setsockopt`
that returns 0 for the value `x`, followed by the matching `pfq_getsockopt` with the length of
the field (and no fault, in any global state), returns 0 and yields exactly `x`, and the set leaves the other
three scalars unchanged; with the length of the field and no fault the set does return 0 (for
tstamp when `x` is 0 or 1). -/
theorem sockopt_round_trip (e : pfq_env) (pq : pfq_opt) (st : pfq_state) (optlen x : Nat)
    (t : Int) (fault : Bool) :
    ((pfq_setsockopt e (some pq) optlen (.SET_CAPLEN ⟨fault, x⟩) st).1 = 0 →
      ∃ pq1, (pfq_setsockopt e (some pq) optlen (.SET_CAPLEN ⟨fault, x⟩) st).2.1 = some pq1 ∧
        (∀ st1, pfq_getsockopt e (some pq1) ⟨false, (e.sizeof sized.q_caplen : Int)⟩ false
          .GET_CAPLEN st1 = (0, some (optval.size x), st1)) ∧
        pq1.q_slots = pq.q_slots ∧ pq1.q_offset = pq.q_offset ∧ pq1.q_tstamp = pq.q_tstamp) ∧
    ((pfq_setsockopt e (some pq) optlen (.SET_SLOTS ⟨fault, x⟩) st).1 = 0 →
      ∃ pq1, (pfq_setsockopt e (some pq) optlen (.SET_SLOTS ⟨fault, x⟩) st).2.1 = some pq1 ∧
        (∀ st1, pfq_getsockopt e (some pq1) ⟨false, (e.sizeof sized.q_slots : Int)⟩ false
          .GET_SLOTS st1 = (0, some (optval.size x), st1)) ∧
        pq1.q_caplen = pq.q_caplen ∧ pq1.q_offset = pq.q_offset ∧ pq1.q_tstamp = pq.q_tstamp) ∧
    ((pfq_setsockopt e (some pq) optlen (.SET_OFFSET ⟨fault, x⟩) st).1 = 0 →
      ∃ pq1, (pfq_setsockopt e (some pq) optlen (.SET_OFFSET ⟨fault, x⟩) st).2.1 = some pq1 ∧
        (∀ st1, pfq_getsockopt e (some pq1) ⟨false, (e.sizeof sized.q_offset : Int)⟩ false
          .GET_OFFSET st1 = (0, some (optval.size x), st1)) ∧
        pq1.q_caplen = pq.q_caplen ∧ pq1.q_slots = pq.q_slots ∧ pq1.q_tstamp = pq.q_tstamp) ∧
    ((pfq_setsockopt e (some pq) optlen (.SET_TSTAMP ⟨fault, t⟩) st).1 = 0 →
      ∃ pq1, (pfq_setsockopt e (some pq) optlen (.SET_TSTAMP ⟨fault, t⟩) st).2.1 = some pq1 ∧
        (∀ st1, pfq_getsockopt e (some pq1) ⟨false, (e.sizeof sized.q_tstamp : Int)⟩ false
          .GET_TSTAMP st1 = (0, some (optval.int t), st1)) ∧
        pq1.q_caplen = pq.q_caplen ∧ pq1.q_slots = pq.q_slots ∧ pq1.q_offset = pq.q_offset) ∧
    (pfq_setsockopt e (some pq) (e.sizeof sized.q_caplen) (.SET_CAPLEN ⟨false, x⟩) st).1 = 0 ∧
    (pfq_setsockopt e (some pq) (e.sizeof sized.q_slots) (.SET_SLOTS ⟨false, x⟩) st).1 = 0 ∧
    (pfq_setsockopt e (some pq) (e.sizeof sized.q_offset) (.SET_OFFSET ⟨false, x⟩) st).1 = 0 ∧
    (t = 0 ∨ t = 1 →
      (pfq_setsockopt e (some pq) (e.sizeof sized.q_tstamp) (.SET_TSTAMP ⟨false, t⟩) st).1 = 0) := by
  have hE : ¬ (-EINVAL = 0) := by decide
  have hF : ¬ (-EFAULT = 0) := by decide
  refine ⟨fun h => ?_, fun h => ?_, fun h => ?_, fun h => ?_, ?_, ?_, ?_, fun ht => ?_⟩
  · by_cases hl : optlen = e.sizeof sized.q_caplen
    · by_cases hf : fault = true
      · simp [pfq_setsockopt, hl, hf, hF] at h
      · simp [pfq_setsockopt, pfq_getsockopt, copy_to_user, hl, hf]
    · simp [pfq_setsockopt, hl, hE] at h
  · by_cases hl : optlen = e.sizeof sized.q_slots
    · by_cases hf : fault = true
      · simp [pfq_setsockopt, hl, hf, hF] at h
      · simp [pfq_setsockopt, pfq_getsockopt, copy_to_user, hl, hf]
    · simp [pfq_setsockopt, hl, hE] at h
  · by_cases hl : optlen = e.sizeof sized.q_offset
    · by_cases hf : fault = true
      · simp [pfq_setsockopt, hl, hf, hF] at h
      · simp [pfq_setsockopt, pfq_getsockopt, copy_to_user, hl, hf]
    · simp [pfq_setsockopt, hl, hE] at h
  · by_cases hl : optlen = e.sizeof sized.q_tstamp
    · by_cases hf : fault = true
      · simp [pfq_setsockopt, hl, hf, hF] at h
      · by_cases hv : t ≠ 0 ∧ t ≠ 1
        · simp [pfq_setsockopt, hl, hf, hv, hE] at h
        · simp [pfq_setsockopt, pfq_getsockopt, copy_to_user, hl, hf, hv]
    · simp [pfq_setsockopt, hl, hE] at h
  · simp [pfq_setsockopt]
  · simp [pfq_setsockopt]
  · simp [pfq_setsockopt]
  · have hv : ¬ (t ≠ 0 ∧ t ≠ 1) := by
      rcases ht with h | h <;> simp [h]
    simp [pfq_setsockopt, hv]

theorem sockopt_round_trip_witness :
    (pfq_setsockopt plain_env (some fresh_opt) 8 (.SET_CAPLEN ⟨false, 9000⟩) fresh_state).1 = 0 ∧
    (∃ pq1,
      (pfq_setsockopt plain_env (some fresh_opt) 8 (.SET_CAPLEN ⟨false, 9000⟩) fresh_state).2.1
        = some pq1 ∧
      (∀ st1, pfq_getsockopt plain_env (some pq1) ⟨false, (plain_env.sizeof sized.q_caplen : Int)⟩
        false .GET_CAPLEN st1 = (0, some (optval.size 9000), st1)) ∧
      pq1.q_slots = fresh_opt.q_slots ∧ pq1.q_offset = fresh_opt.q_offset ∧
      pq1.q_tstamp = fresh_opt.q_tstamp) ∧
    (pfq_setsockopt plain_env (some fresh_opt) 4 (.SET_TSTAMP ⟨false, 1⟩) fresh_state).1 = 0 ∧
    (∃ pq1,
      (pfq_setsockopt plain_env (some fresh_opt) 4 (.SET_TSTAMP ⟨false, 1⟩) fresh_state).2.1
        = some pq1 ∧
      (∀ st1, pfq_getsockopt plain_env (some pq1) ⟨false, (plain_env.sizeof sized.q_tstamp : Int)⟩
        false .GET_TSTAMP st1 = (0, some (optval.int 1), st1)) ∧
      pq1.q_caplen = fresh_opt.q_caplen ∧ pq1.q_slots = fresh_opt.q_slots ∧
      pq1.q_offset = fresh_opt.q_offset) :=
  ⟨by decide,
   (sockopt_round_trip plain_env fresh_opt fresh_state 8 9000 1 false).1 (by decide),
   by decide,
   (sockopt_round_trip plain_env fresh_opt fresh_state 4 9000 1 false).2.2.2.1 (by decide)⟩

/-! ## Group-addressed options -/

/-- The six group-addressed options that check the gid first: with the right option length
and no fault, a gid outside `[0, Q_MAX_GROUP)` gives `-EINVAL` and changes nothing. -/
theorem setsockopt_bad_gid_einval (e : pfq_env) (pq : pfq_opt) (st : pfq_state) (gid : Int)
    (hgid : gid < 0 ∨ gid ≥ e.Q_MAX_GROUP) (a b : Int) (n p : Nat) :
    pfq_setsockopt e (some pq) (e.sizeof sized.pfq_binding)
      (.ADD_BINDING ⟨false, ⟨gid, a, b⟩⟩) st = (-EINVAL, some pq, st) ∧
    pfq_setsockopt e (some pq) (e.sizeof sized.pfq_binding)
      (.REMOVE_BINDING ⟨false, ⟨gid, a, b⟩⟩) st = (-EINVAL, some pq, st) ∧
    pfq_setsockopt e (some pq) (e.sizeof sized.pfq_group_state)
      (.GROUP_STATE ⟨false, ⟨gid, n, p⟩⟩) st = (-EINVAL, some pq, st) ∧
    pfq_setsockopt e (some pq) (e.sizeof sized.pfq_steering)
      (.GROUP_STEER_FUN ⟨false, ⟨gid, p⟩⟩) st = (-EINVAL, some pq, st) ∧
    pfq_setsockopt e (some pq) (e.sizeof sized.pfq_fprog)
      (.GROUP_FPROG ⟨false, ⟨gid, a, p⟩⟩) st = (-EINVAL, some pq, st) ∧
    pfq_setsockopt e (some pq) (e.sizeof sized.pfq_vlan_toggle)
      (.GROUP_VLAN_FILT_TOGGLE ⟨false, ⟨gid, a, b⟩⟩) st = (-EINVAL, some pq, st) := by
  simp [pfq_setsockopt, hgid]

/-- The option `Q_SO_GROUP_VLAN_FILT` with a gid outside `[0, Q_MAX_GROUP)`: the call asks
`__pfq_has_joined_group` first, so it gives `-EPERM` when that answers false and `-EINVAL`
when it answers true; nothing is changed in either case. -/
theorem vlan_filt_bad_gid (e : pfq_env) (pq : pfq_opt) (st : pfq_state) (gid vid toggle : Int)
    (hgid : gid < 0 ∨ gid ≥ e.Q_MAX_GROUP) :
    pfq_setsockopt e (some pq) (e.sizeof sized.pfq_vlan_toggle)
      (.GROUP_VLAN_FILT ⟨false, ⟨gid, vid, toggle⟩⟩) st =
      (if e.has_joined_group gid pq.q_id then -EINVAL else -EPERM, some pq, st) := by
  by_cases hj : e.has_joined_group gid pq.q_id = true <;> simp [pfq_setsockopt, hgid, hj]

/-- C19 (refuted for the VLAN filter set): on a socket that has joined no group,
`Q_SO_GROUP_VLAN_FILT` with the gid `Q_MAX_GROUP` (or -1), the right option length and a
valid vid returns `-EPERM`, not `-EINVAL`; the sibling `Q_SO_GROUP_VLAN_FILT_TOGGLE` returns
`-EINVAL` on the same gid. No state is changed. -/
theorem vlan_filt_bad_gid_eperm :
    pfq_setsockopt plain_env (some fresh_opt) (plain_env.sizeof sized.pfq_vlan_toggle)
      (.GROUP_VLAN_FILT ⟨false, ⟨plain_env.Q_MAX_GROUP, 5, 1⟩⟩) fresh_state =
      (-EPERM, some fresh_opt, fresh_state) ∧
    pfq_setsockopt plain_env (some fresh_opt) (plain_env.sizeof sized.pfq_vlan_toggle)
      (.GROUP_VLAN_FILT ⟨false, ⟨-1, 5, 1⟩⟩) fresh_state =
      (-EPERM, some fresh_opt, fresh_state) ∧
    -EPERM ≠ -EINVAL ∧
    pfq_setsockopt plain_env (some fresh_opt) (plain_env.sizeof sized.pfq_vlan_toggle)
      (.GROUP_VLAN_FILT_TOGGLE ⟨false, ⟨plain_env.Q_MAX_GROUP, 5, 1⟩⟩) fresh_state =
      (-EINVAL, some fresh_opt, fresh_state) := by
  decide

theorem foldl_call (f : Nat → effect) (l : List Nat) (st : pfq_state) :
    l.foldl (fun st i => st.call (f i)) st = { st with effects := st.effects ++ l.map f } := by
  induction l generalizing st with
  | nil => simp
  | cons a rest ih =>
    rw [List.foldl_cons, ih]
    simp [pfq_state.call]

theorem count_vlan_filter (gid toggle v : Int) (l : List Nat) (hnd : l.Nodup) :
    (l.map (fun i : Nat => effect.set_group_vlan_filter gid toggle (i : Int))).count
      (effect.set_group_vlan_filter gid toggle v) = if v.toNat ∈ l ∧ 0 ≤ v then 1 else 0 := by
  by_cases hv : 0 ≤ v
  · have hinj : Function.Injective
        (fun i : Nat => effect.set_group_vlan_filter gid toggle (i : Int)) := by
      intro a b hab
      simp only [effect.set_group_vlan_filter.injEq, true_and] at hab
      exact_mod_cast hab
    have hvv : effect.set_group_vlan_filter gid toggle v =
        (fun i : Nat => effect.set_group_vlan_filter gid toggle (i : Int)) v.toNat := by
      simp only [effect.set_group_vlan_filter.injEq, true_and]
      omega
    rw [hvv, List.count_map_of_injective l _ hinj, List.count_eq_of_nodup hnd]
    simp [hv]
  · rw [if_neg (fun h => hv h.2), List.count_eq_zero]
    intro hmem
    obtain ⟨i, -, hi⟩ := List.mem_map.mp hmem
    simp only [effect.set_group_vlan_filter.injEq, true_and] at hi
    omega

/-- C20: on a joined group with VLAN filters enabled, `Q_SO_GROUP_VLAN_FILT` with `vid = -1`
calls `__pfq_set_group_vlan_filter(gid, toggle, i)` for every `i` from 1 to 4094 exactly once
(in ascending order) and for no other id, and with a vid in `[0, 4094]` it makes the single
call for that vid; both return 0 and leave the socket unchanged. -/
theorem vlan_filt_any_expands (e : pfq_env) (pq : pfq_opt) (st : pfq_state)
    (gid toggle vid : Int)
    (hgid : 0 ≤ gid ∧ gid < e.Q_MAX_GROUP)
    (hj : e.has_joined_group gid pq.q_id = true)
    (hen : e.vlan_filters_enabled gid = true) :
    pfq_setsockopt e (some pq) (e.sizeof sized.pfq_vlan_toggle)
      (.GROUP_VLAN_FILT ⟨false, ⟨gid, -1, toggle⟩⟩) st =
      (0, some pq,
        { st with
          effects := st.effects ++
            (List.range' 1 4094).map
              (fun i : Nat => effect.set_group_vlan_filter gid toggle (i : Int)) }) ∧
    (∀ v : Int,
      ((List.range' 1 4094).map
          (fun i : Nat => effect.set_group_vlan_filter gid toggle (i : Int))).count
        (effect.set_group_vlan_filter gid toggle v) = if 1 ≤ v ∧ v ≤ 4094 then 1 else 0) ∧
    (0 ≤ vid → vid ≤ 4094 →
      pfq_setsockopt e (some pq) (e.sizeof sized.pfq_vlan_toggle)
        (.GROUP_VLAN_FILT ⟨false, ⟨gid, vid, toggle⟩⟩) st =
        (0, some pq,
          { st with effects := st.effects ++ [effect.set_group_vlan_filter gid toggle vid] })) := by
  have hg : ¬ (gid < 0 ∨ gid ≥ e.Q_MAX_GROUP) := by omega
  refine ⟨?_, fun v => ?_, fun h0 h1 => ?_⟩
  · have hv : ¬ ((-1 : Int) < -1 ∨ (-1 : Int) > 4094) := by omega
    simp only [pfq_setsockopt, ne_eq, not_true_eq_false, if_false, Bool.false_eq_true, hj,
      Bool.not_true, hg, hv, hen, if_true, vlan_filter_all]
    rw [foldl_call (fun i : Nat => effect.set_group_vlan_filter gid toggle (i : Int))]
  · rw [count_vlan_filter gid toggle v _ (List.nodup_range' 1 4094)]
    by_cases hv : 1 ≤ v ∧ v ≤ 4094
    · rw [if_pos hv, if_pos]
      refine ⟨List.mem_range'_1.mpr ?_, by omega⟩
      omega
    · rw [if_neg hv, if_neg]
      rintro ⟨hm, h0⟩
      have := List.mem_range'_1.mp hm
      omega
  · have hv : ¬ (vid < -1 ∨ vid > 4094) := by omega
    have hne : ¬ (vid = -1) := by omega
    simp [pfq_setsockopt, hj, hg, hv, hen, hne, pfq_state.call]

theorem vlan_filt_any_expands_witness :
    ((0 : Int) ≤ 3 ∧ (3 : Int) < joined_env.Q_MAX_GROUP) ∧
    joined_env.has_joined_group 3 fresh_opt.q_id = true ∧
    joined_env.vlan_filters_enabled 3 = true ∧
    pfq_setsockopt joined_env (some fresh_opt) (joined_env.sizeof sized.pfq_vlan_toggle)
      (.GROUP_VLAN_FILT ⟨false, ⟨3, -1, 1⟩⟩) fresh_state =
      (0, some fresh_opt,
        { fresh_state with
          effects := fresh_state.effects ++
            (List.range' 1 4094).map
              (fun i : Nat => effect.set_group_vlan_filter 3 1 (i : Int)) }) ∧
    pfq_setsockopt joined_env (some fresh_opt) (joined_env.sizeof sized.pfq_vlan_toggle)
      (.GROUP_VLAN_FILT ⟨false, ⟨3, 7, 1⟩⟩) fresh_state =
      (0, some fresh_opt,
        { fresh_state with
          effects := fresh_state.effects ++ [effect.set_group_vlan_filter 3 1 7] }) :=
  ⟨by decide, by decide, by decide,
   (vlan_filt_any_expands joined_env fresh_opt fresh_state 3 1 7 (by decide) (by decide)
      (by decide)).1,
   (vlan_filt_any_expands joined_env fresh_opt fresh_state 3 1 7 (by decide) (by decide)
      (by decide)).2.2 (by decide) (by decide)⟩

end PfQ

namespace PfQ

/-! ## The timestamp counter -/

theorem setsockopt_tstamp (e : pfq_env) (pq : pfq_opt) (optlen : Nat) (call : setsockopt_call)
    (st : pfq_state) :
    ∃ pq1, (pfq_setsockopt e (some pq) optlen call st).2.1 = some pq1 ∧ pq1.q_id = pq.q_id ∧
      ((pq1.q_tstamp = pq.q_tstamp ∧
          (pfq_setsockopt e (some pq) optlen call st).2.2.timestamp_toggle =
            st.timestamp_toggle) ∨
        ((pq1.q_tstamp = 0 ∨ pq1.q_tstamp = 1) ∧
          (pfq_setsockopt e (some pq) optlen call st).2.2.timestamp_toggle =
            int32 (st.timestamp_toggle + (pq1.q_tstamp - pq.q_tstamp)))) := by
  cases call with
  | SET_TSTAMP tstamp =>
    by_cases hl : optlen = e.sizeof sized.q_tstamp
    · by_cases hf : tstamp.fault = true
      · exact ⟨pq, by simp [pfq_setsockopt, hl, hf]⟩
      · by_cases hv : tstamp.value ≠ 0 ∧ tstamp.value ≠ 1
        · exact ⟨pq, by simp [pfq_setsockopt, hl, hf, hv]⟩
        · refine ⟨{ pq with q_tstamp := tstamp.value }, ?_⟩
          have hv2 : tstamp.value = 0 ∨ tstamp.value = 1 := by omega
          simp [pfq_setsockopt, hl, hf, hv, atomic_add, hv2]
    · exact ⟨pq, by simp [pfq_setsockopt, hl]⟩
  | other optname => exact ⟨pq, by simp [pfq_setsockopt, pfq_state.call]⟩
  | GROUP_VLAN_FILT filt =>
    have hall : (vlan_filter_all filt.value.gid filt.value.toggle st).timestamp_toggle =
        st.timestamp_toggle := by
      unfold vlan_filter_all
      rw [foldl_call
        (fun i : Nat => effect.set_group_vlan_filter filt.value.gid filt.value.toggle (i : Int))]
    simp only [pfq_setsockopt]
    split_ifs <;> simp [pfq_state.call, hall]
  | _ =>
    simp only [pfq_setsockopt]
    split_ifs <;> simp [pfq_state.call]

theorem sum_map_set (f : pfq_opt → Int) :
    ∀ (l : List pfq_opt) (i : Nat) (x y : pfq_opt), l[i]? = some y →
      ((l.set i x).map f).sum = (l.map f).sum - f y + f x := by
  intro l
  induction l with
  | nil => intro i x y h; simp at h
  | cons a rest ih =>
    intro i x y h
    cases i with
    | zero =>
      simp only [List.getElem?_cons_zero, Option.some.injEq] at h
      subst h
      simp only [List.set_cons_zero, List.map_cons, List.sum_cons]
      omega
    | succ i =>
      simp only [List.getElem?_cons_succ] at h
      simp only [List.set_cons_succ, List.map_cons, List.sum_cons, ih i x y h]
      omega

theorem sum_map_eraseIdx (f : pfq_opt → Int) :
    ∀ (l : List pfq_opt) (i : Nat) (y : pfq_opt), l[i]? = some y →
      ((l.eraseIdx i).map f).sum = (l.map f).sum - f y := by
  intro l
  induction l with
  | nil => intro i y h; simp at h
  | cons a rest ih =>
    intro i y h
    cases i with
    | zero =>
      simp only [List.getElem?_cons_zero, Option.some.injEq] at h
      subst h
      simp only [List.eraseIdx_cons_zero, List.map_cons, List.sum_cons]
      omega
    | succ i =>
      simp only [List.getElem?_cons_succ] at h
      simp only [List.eraseIdx_cons_succ, List.map_cons, List.sum_cons, ih i y h]
      omega

theorem map_set_same (f : pfq_opt → Int) :
    ∀ (l : List pfq_opt) (i : Nat) (x y : pfq_opt), l[i]? = some y → f x = f y →
      (l.set i x).map f = l.map f := by
  intro l
  induction l with
  | nil => intro i x y h; simp at h
  | cons a rest ih =>
    intro i x y h hf
    cases i with
    | zero =>
      simp only [List.getElem?_cons_zero, Option.some.injEq] at h
      subst h
      simp [hf]
    | succ i =>
      simp only [List.getElem?_cons_succ] at h
      simp [ih i x y h hf]

theorem eraseIdx_ne_of_nodup (f : pfq_opt → Int) :
    ∀ (l : List pfq_opt) (i : Nat) (y : pfq_opt), (l.map f).Nodup → l[i]? = some y →
      ∀ x, x ∈ l.eraseIdx i → f x ≠ f y := by
  intro l
  induction l with
  | nil => intro i y _ h; simp at h
  | cons a rest ih =>
    intro i y hnd h x hx
    rw [List.map_cons, List.nodup_cons] at hnd
    cases i with
    | zero =>
      simp only [List.getElem?_cons_zero, Option.some.injEq] at h
      subst h
      simp only [List.eraseIdx_cons_zero] at hx
      intro hc
      exact hnd.1 (List.mem_map.mpr ⟨x, hx, hc⟩)
    | succ i =>
      simp only [List.getElem?_cons_succ] at h
      simp only [List.eraseIdx_cons_succ, List.mem_cons] at hx
      rcases hx with hx | hx
      · subst hx
        intro hc
        exact hnd.1 (List.mem_map.mpr ⟨y, List.getElem?_mem h, hc.symm⟩)
      · exact ih i y hnd.2 h x hx

theorem sum_tstamp_bounds (l : List pfq_opt)
    (h : ∀ pq, pq ∈ l → pq.q_tstamp = 0 ∨ pq.q_tstamp = 1) :
    0 ≤ (l.map (fun pq => pq.q_tstamp)).sum ∧
    (l.map (fun pq => pq.q_tstamp)).sum ≤ (l.length : Int) ∧
    (l.map (fun pq => pq.q_tstamp)).sum =
      ((l.filter (fun pq => decide (pq.q_tstamp = 1))).length : Int) := by
  induction l with
  | nil => simp
  | cons a rest ih =>
    obtain ⟨h1, h2, h3⟩ := ih (fun pq hpq => h pq (List.mem_cons_of_mem _ hpq))
    rcases h a (List.mem_cons_self _ _) with ha | ha
    · simp only [List.map_cons, List.sum_cons, List.length_cons, List.filter_cons, ha]
      refine ⟨by omega, by push_cast; omega, ?_⟩
      simp [h3]
    · simp only [List.map_cons, List.sum_cons, List.length_cons, List.filter_cons, ha]
      refine ⟨by omega, by push_cast; omega, ?_⟩
      simp [h3]
      omega

theorem length_le_of_ids (Q : Nat) (l : List pfq_opt)
    (hnd : (l.map (fun pq => pq.q_id)).Nodup)
    (hid : ∀ pq, pq ∈ l → ∃ n : Nat, pq.q_id = (n : Int) ∧ n < Q) :
    l.length ≤ Q := by
  have hnd2 : ((l.map (fun pq => pq.q_id)).map Int.toNat).Nodup := by
    apply List.Nodup.map_on _ hnd
    intro x hx y hy hxy
    obtain ⟨p, hp, rfl⟩ := List.mem_map.mp hx
    obtain ⟨q, hq, rfl⟩ := List.mem_map.mp hy
    obtain ⟨n, hn, -⟩ := hid p hp
    obtain ⟨m, hm, -⟩ := hid q hq
    simp only at hxy ⊢
    omega
  have hsub : (l.map (fun pq => pq.q_id)).map Int.toNat ⊆ List.range Q := by
    intro x hx
    obtain ⟨y, hy, rfl⟩ := List.mem_map.mp hx
    obtain ⟨p, hp, rfl⟩ := List.mem_map.mp hy
    obtain ⟨n, hn, hlt⟩ := hid p hp
    simp only [List.mem_range]
    omega
  have hle := (List.subperm_of_subset hnd2 hsub).length_le
  simpa using hle

theorem pfq_create_cases (e : pfq_env) (a : create_args) (v : Nat → Nat) :
    (∃ r, pfq_create e a v = (r, none, v)) ∨
    (∃ n opt, n < e.Q_MAX_ID ∧ v n = 0 ∧ a.pq ≠ 0 ∧
      pfq_create e a v = (0, some opt, Function.update v n a.pq) ∧
      opt.q_id = (n : Int) ∧ opt.q_tstamp = 0) := by
  unfold pfq_create
  by_cases h1 : a.capable = true
  swap
  · exact Or.inl ⟨-EPERM, by simp [h1]⟩
  by_cases h2 : a.sock_raw = true
  swap
  · exact Or.inl ⟨-ESOCKTNOSUPPORT, by simp [h1, h2]⟩
  by_cases h3 : a.eth_p_all = true
  swap
  · exact Or.inl ⟨-EPROTONOSUPPORT, by simp [h1, h2, h3]⟩
  by_cases h4 : a.sk = 0
  · exact Or.inl ⟨-ENOMEM, by simp [h1, h2, h3, h4]⟩
  by_cases h5 : a.pq = 0
  · exact Or.inl ⟨-ENOMEM, by simp [h1, h2, h3, h4, h5]⟩
  by_cases hfree : ∃ n, n < e.Q_MAX_ID ∧ v n = 0
  · obtain ⟨n, hn, hz, hlow⟩ := exists_lowest_free e.Q_MAX_ID v hfree
    have hres := get_free_id_from_found a.pq v e.Q_MAX_ID 0 n (Nat.zero_le _)
      (by omega) hz (fun i _ hi => hlow i hi)
    have hne : ¬ ((n : Int) = -1) := by omega
    have hc1 : (pfq_ctor e a.pq v).1 = 0 := by
      simp [pfq_ctor, pfq_get_free_id, hres, hne]
    have hc3 : (pfq_ctor e a.pq v).2.2 = Function.update v n a.pq := by
      simp [pfq_ctor, pfq_get_free_id, hres, hne]
    have hid : (pfq_ctor e a.pq v).2.1.q_id = (n : Int) := by
      simp [pfq_ctor, pfq_get_free_id, hres, hne]
    have hts : (pfq_ctor e a.pq v).2.1.q_tstamp = 0 := by
      simp [pfq_ctor, pfq_get_free_id, hres, hne]
    refine Or.inr ⟨n, (pfq_ctor e a.pq v).2.1, hn, hz, h5, ?_, hid, hts⟩
    simp [h1, h2, h3, h4, h5, hc1, hc3]
  · have hall : ∀ i, 0 ≤ i → i < 0 + e.Q_MAX_ID → v i ≠ 0 := by
      intro i _ hi hz
      exact hfree ⟨i, by omega, hz⟩
    have hres := get_free_id_from_full a.pq v e.Q_MAX_ID 0 hall
    refine Or.inl ⟨-ENOMEM, ?_⟩
    simp only [h1, h2, h3, h4, h5, pfq_ctor, pfq_get_free_id, hres]
    simp
    decide

theorem int32_of_bounded (x : Int) (h0 : 0 ≤ x) (h1 : x < 2 ^ 31) : int32 x = x := by
  unfold int32
  omega

theorem pfq_release_fields (e : pfq_env) (pq : pfq_opt) (st : pfq_state) (v : Nat → Nat) :
    (pfq_release e (some (some pq)) st v).2.1.timestamp_toggle =
      (if pq.q_tstamp ≠ 0 then int32 (st.timestamp_toggle - 1) else st.timestamp_toggle) ∧
    (pfq_release e (some (some pq)) st v).2.2 = pfq_release_id e.Q_MAX_ID pq.q_id v := by
  by_cases h : pq.q_tstamp = 0 <;> simp [pfq_release, pfq_dtor, pfq_state.call, atomic_dec, h]

theorem sys_inv_bounds (e : pfq_env) (s : pfq_system)
    (hb : ∀ pq, pq ∈ s.socks → pq.q_tstamp = 0 ∨ pq.q_tstamp = 1)
    (hnd : (s.socks.map (fun pq => pq.q_id)).Nodup)
    (hid : ∀ pq, pq ∈ s.socks → ∃ n : Nat, pq.q_id = (n : Int) ∧ n < e.Q_MAX_ID ∧
      s.pfq_vector n ≠ 0) :
    0 ≤ (s.socks.map (fun pq => pq.q_tstamp)).sum ∧
    (s.socks.map (fun pq => pq.q_tstamp)).sum ≤ (e.Q_MAX_ID : Int) := by
  obtain ⟨h0, h1, -⟩ := sum_tstamp_bounds s.socks hb
  have hlen := length_le_of_ids e.Q_MAX_ID s.socks hnd
    (fun pq hpq => by
      obtain ⟨n, h1, h2, -⟩ := hid pq hpq
      exact ⟨n, h1, h2⟩)
  exact ⟨h0, by omega⟩

theorem sys_inv_create (e : pfq_env) (s : pfq_system) (a : create_args) (h : sys_inv e s) :
    sys_inv e (sys_step e s (sys_op.create a)) := by
  obtain ⟨ha, hb, hc, hd⟩ := h
  rcases pfq_create_cases e a s.pfq_vector with ⟨r, hr⟩ | ⟨n, opt, hn, hz, hpq, hcr, hid, hts⟩
  · simp only [sys_step, hr]
    exact ⟨ha, hb, hc, hd⟩
  · simp only [sys_step, hcr]
    refine ⟨?_, ?_, ?_, ?_⟩
    · simp [ha, hts]
    · intro pq hmem
      rcases List.mem_append.mp hmem with hm | hm
      · exact hb pq hm
      · rw [List.mem_singleton.mp hm]; exact Or.inl hts
    · show ((s.socks ++ [opt]).map (fun pq => pq.q_id)).Nodup
      rw [List.map_append, List.nodup_append]
      refine ⟨hc, by simp, ?_⟩
      intro x hx1 hx2
      simp only [List.map_cons, List.map_nil, List.mem_singleton] at hx2
      obtain ⟨pq, hpq1, hpq2⟩ := List.mem_map.mp hx1
      obtain ⟨m, hm1, -, hm3⟩ := hd pq hpq1
      have hmn : m = n := by
        have : (m : Int) = (n : Int) := by rw [← hm1, ← hid, ← hx2]; exact hpq2
        exact_mod_cast this
      rw [hmn] at hm3
      exact hm3 hz
    · intro pq hmem
      rcases List.mem_append.mp hmem with hm | hm
      · obtain ⟨m, hm1, hm2, hm3⟩ := hd pq hm
        refine ⟨m, hm1, hm2, ?_⟩
        have hmn : m ≠ n := fun hc2 => hm3 (hc2 ▸ hz)
        simpa [Function.update, hmn] using hm3
      · rw [List.mem_singleton.mp hm]
        exact ⟨n, hid, hn, by simpa [Function.update] using hpq⟩

theorem sys_inv_setsockopt (e : pfq_env) (hQ : e.Q_MAX_ID < 2 ^ 31) (s : pfq_system)
    (i optlen : Nat) (call : setsockopt_call) (h : sys_inv e s) :
    sys_inv e (sys_step e s (sys_op.setsockopt i optlen call)) := by
  obtain ⟨ha, hb, hc, hd⟩ := h
  cases hs : s.socks[i]? with
  | none =>
    simp only [sys_step, hs]
    exact ⟨ha, hb, hc, hd⟩
  | some pq =>
    have hpq : pq ∈ s.socks := List.getElem?_mem hs
    obtain ⟨pq1, h1, hid, hts⟩ := setsockopt_tstamp e pq optlen call s.st
    have hR : pfq_setsockopt e (some pq) optlen call s.st =
        ((pfq_setsockopt e (some pq) optlen call s.st).1, some pq1,
          (pfq_setsockopt e (some pq) optlen call s.st).2.2) := by
      rw [← h1]
    have hstep : sys_step e s (sys_op.setsockopt i optlen call) =
        { s with st := (pfq_setsockopt e (some pq) optlen call s.st).2.2
                 socks := s.socks.set i pq1 } := by
      simp only [sys_step, hs]
      rw [hR]
    rw [hstep]
    have hb1 : pq1.q_tstamp = 0 ∨ pq1.q_tstamp = 1 := by
      rcases hts with ⟨h2, -⟩ | ⟨h2, -⟩
      · rw [h2]; exact hb pq hpq
      · exact h2
    have hb2 : ∀ x, x ∈ s.socks.set i pq1 → x.q_tstamp = 0 ∨ x.q_tstamp = 1 := by
      intro x hx
      rcases List.mem_or_eq_of_mem_set hx with hx | hx
      · exact hb x hx
      · rw [hx]; exact hb1
    have hc2 : ((s.socks.set i pq1).map (fun pq => pq.q_id)).Nodup := by
      rw [map_set_same (fun pq => pq.q_id) s.socks i pq1 pq hs hid]
      exact hc
    have hd2 : ∀ x, x ∈ s.socks.set i pq1 → ∃ n : Nat, x.q_id = (n : Int) ∧ n < e.Q_MAX_ID ∧
        s.pfq_vector n ≠ 0 := by
      intro x hx
      rcases List.mem_or_eq_of_mem_set hx with hx | hx
      · exact hd x hx
      · rw [hx, hid]; exact hd pq hpq
    have hsum := sum_map_set (fun pq => pq.q_tstamp) s.socks i pq1 pq hs
    refine ⟨?_, hb2, hc2, hd2⟩
    show (pfq_setsockopt e (some pq) optlen call s.st).2.2.timestamp_toggle =
      ((s.socks.set i pq1).map (fun pq => pq.q_tstamp)).sum
    have hbnd := sys_inv_bounds e
      { s with st := (pfq_setsockopt e (some pq) optlen call s.st).2.2
               socks := s.socks.set i pq1 } hb2 hc2 hd2
    simp only at hbnd hsum
    rcases hts with ⟨h2, h3⟩ | ⟨-, h3⟩
    · rw [h3, hsum, ha, h2]
      omega
    · rw [h3, hsum, ha]
      rw [int32_of_bounded _ (by omega) (by omega)]
      omega

theorem sys_inv_release (e : pfq_env) (hQ : e.Q_MAX_ID < 2 ^ 31) (s : pfq_system) (i : Nat)
    (h : sys_inv e s) : sys_inv e (sys_step e s (sys_op.release i)) := by
  obtain ⟨ha, hb, hc, hd⟩ := h
  cases hs : s.socks[i]? with
  | none =>
    simp only [sys_step, hs]
    exact ⟨ha, hb, hc, hd⟩
  | some pq =>
    have hpq : pq ∈ s.socks := List.getElem?_mem hs
    obtain ⟨hr1, hr2⟩ := pfq_release_fields e pq s.st s.pfq_vector
    have hmem : ∀ x, x ∈ s.socks.eraseIdx i → x ∈ s.socks :=
      fun x hx => (List.eraseIdx_sublist s.socks i).subset hx
    have hb2 : ∀ x, x ∈ s.socks.eraseIdx i → x.q_tstamp = 0 ∨ x.q_tstamp = 1 :=
      fun x hx => hb x (hmem x hx)
    have hc2 : ((s.socks.eraseIdx i).map (fun pq => pq.q_id)).Nodup :=
      List.Nodup.sublist ((List.eraseIdx_sublist s.socks i).map _) hc
    have hd2 : ∀ x, x ∈ s.socks.eraseIdx i → ∃ n : Nat, x.q_id = (n : Int) ∧ n < e.Q_MAX_ID ∧
        (pfq_release e (some (some pq)) s.st s.pfq_vector).2.2 n ≠ 0 := by
      intro x hx
      obtain ⟨n, hn1, hn2, hn3⟩ := hd x (hmem x hx)
      obtain ⟨m, hm1, hm2, -⟩ := hd pq hpq
      have hne := eraseIdx_ne_of_nodup (fun pq => pq.q_id) s.socks i pq hc hs x hx
      simp only at hne
      have hnm : n ≠ m := by
        intro hc3
        apply hne
        rw [hn1, hm1, hc3]
      refine ⟨n, hn1, hn2, ?_⟩
      rw [hr2]
      have hrange : ¬ (pq.q_id ≥ (e.Q_MAX_ID : Int) ∨ pq.q_id < 0) := by omega
      have htn : pq.q_id.toNat = m := by omega
      simpa [pfq_release_id, hrange, htn, Function.update, hnm] using hn3
    have hsum := sum_map_eraseIdx (fun pq => pq.q_tstamp) s.socks i pq hs
    have hstep : sys_step e s (sys_op.release i) =
        { st := (pfq_release e (some (some pq)) s.st s.pfq_vector).2.1
          pfq_vector := (pfq_release e (some (some pq)) s.st s.pfq_vector).2.2
          socks := s.socks.eraseIdx i } := by
      simp only [sys_step, hs]
    rw [hstep]
    refine ⟨?_, hb2, hc2, hd2⟩
    show (pfq_release e (some (some pq)) s.st s.pfq_vector).2.1.timestamp_toggle =
      ((s.socks.eraseIdx i).map (fun pq => pq.q_tstamp)).sum
    have hbnd := sys_inv_bounds e
      { st := (pfq_release e (some (some pq)) s.st s.pfq_vector).2.1
        pfq_vector := (pfq_release e (some (some pq)) s.st s.pfq_vector).2.2
        socks := s.socks.eraseIdx i } hb2 hc2 hd2
    simp only at hbnd hsum
    rw [hr1, hsum, ha]
    rcases hb pq hpq with h0 | h1
    · simp [h0]
    · have hne : pq.q_tstamp ≠ 0 := by omega
      rw [if_pos hne, int32_of_bounded _ (by omega) (by omega), h1]

theorem sys_inv_step (e : pfq_env) (hQ : e.Q_MAX_ID < 2 ^ 31) (s : pfq_system) (op : sys_op)
    (h : sys_inv e s) : sys_inv e (sys_step e s op) := by
  cases op with
  | create a => exact sys_inv_create e s a h
  | setsockopt i optlen call => exact sys_inv_setsockopt e hQ s i optlen call h
  | release i => exact sys_inv_release e hQ s i h

theorem sys_inv_run (e : pfq_env) (hQ : e.Q_MAX_ID < 2 ^ 31) (ops : List sys_op) :
    ∀ s, sys_inv e s → sys_inv e (sys_run e s ops) := by
  induction ops with
  | nil => intro s h; exact h
  | cons op rest ih =>
    intro s h
    exact ih (sys_step e s op) (sys_inv_step e hQ s op h)

theorem sys_inv_init (e : pfq_env) : sys_inv e sys_init := by
  refine ⟨rfl, ?_, ?_, ?_⟩
  · intro pq h; simp [sys_init] at h
  · simp [sys_init]
  · intro pq h; simp [sys_init] at h

/-- C18: after any sequence of socket constructions, `pfq_setsockopt` calls and releases on
a freshly loaded module, `timestamp_toggle` equals the number of open sockets whose
`q_tstamp` is 1; each such operation preserves this from any state in which the open
sockets have flags 0 or 1 and distinct valid ids; and a `Q_SO_SET_TSTAMP` value other than
0 or 1 returns `-EINVAL` and changes neither `q_tstamp` nor the counter. -/
theorem timestamp_toggle_counts (e : pfq_env) (hQ : e.Q_MAX_ID < 2 ^ 31) (ops : List sys_op) :
    (sys_run e sys_init ops).st.timestamp_toggle =
      (tstamp_count (sys_run e sys_init ops) : Int) ∧
    (∀ s op, sys_inv e s →
      (sys_step e s op).st.timestamp_toggle = (tstamp_count (sys_step e s op) : Int)) ∧
    (∀ pq st t, t ≠ 0 → t ≠ 1 →
      pfq_setsockopt e (some pq) (e.sizeof sized.q_tstamp) (.SET_TSTAMP ⟨false, t⟩) st =
        (-EINVAL, some pq, st)) := by
  refine ⟨?_, fun s op h => ?_, fun pq st t h0 h1 => ?_⟩
  · obtain ⟨ha, hb, -, -⟩ := sys_inv_run e hQ ops sys_init (sys_inv_init e)
    rw [ha]
    exact (sum_tstamp_bounds _ hb).2.2
  · obtain ⟨ha, hb, -, -⟩ := sys_inv_step e hQ s op h
    rw [ha]
    exact (sum_tstamp_bounds _ hb).2.2
  · simp [pfq_setsockopt, h0, h1]

theorem timestamp_toggle_counts_witness :
    plain_env.Q_MAX_ID < 2 ^ 31 ∧
    (sys_run plain_env sys_init tstamp_ops).st.timestamp_toggle =
      (tstamp_count (sys_run plain_env sys_init tstamp_ops) : Int) ∧
    (sys_run plain_env sys_init tstamp_ops).st.timestamp_toggle = 1 ∧
    (sys_run plain_env sys_init (tstamp_ops.take 5)).st.timestamp_toggle = 2 ∧
    (sys_run plain_env sys_init (tstamp_ops.take 6)).st.timestamp_toggle = 2 ∧
    pfq_setsockopt plain_env (some fresh_opt) (plain_env.sizeof sized.q_tstamp)
      (.SET_TSTAMP ⟨false, 2⟩) fresh_state = (-EINVAL, some fresh_opt, fresh_state) :=
  ⟨by decide, (timestamp_toggle_counts plain_env (by decide) tstamp_ops).1,
   by decide, by decide, by decide,
   (timestamp_toggle_counts plain_env (by decide) tstamp_ops).2.2 fresh_opt fresh_state 2
     (by decide) (by decide)⟩

end PfQ

namespace Core

/-! ## Phase 1: the packet counters -/

theorem setup_qbuffs_counters (e : batch_env) :
    ∀ (pool : List qbuff) (c m : Nat), c < 2 ^ 32 →
      pool_counters (setup_qbuffs e pool c m).1 =
        (List.range pool.length).map (fun i => u32 (c + i)) ∧
      (setup_qbuffs e pool c m).2.1 = u32 (c + pool.length) := by
  intro pool
  induction pool with
  | nil =>
    intro c m hc
    have hcm : c % 4294967296 = c := Nat.mod_eq_of_lt hc
    simp [setup_qbuffs, pool_counters, u32, hcm]
  | cons b rest ih =>
    intro c m hc
    have hlt : u32 (c + 1) < 2 ^ 32 := Nat.mod_lt _ (by norm_num)
    obtain ⟨h1, h2⟩ := ih (u32 (c + 1)) (m ||| (setup_qbuff e c b).1.group_mask) hlt
    have hu : ∀ i, u32 (u32 (c + 1) + i) = u32 (c + (i + 1)) := by
      intro i
      unfold u32
      omega
    refine ⟨?_, ?_⟩
    · simp only [setup_qbuffs, pool_counters, List.map_cons, List.length_cons,
        List.range_succ_eq_map, List.map_map]
      unfold pool_counters at h1
      simp only [setup_qbuff] at h1 ⊢
      rw [h1]
      refine congrArg₂ _ ?_ ?_
      · have hcm : c % 4294967296 = c := Nat.mod_eq_of_lt hc
        simp [u32, hcm]
      · apply List.map_congr_left
        intro i _
        simp only [Function.comp]
        exact hu i
    · simp only [setup_qbuffs, List.length_cons]
      simp only [setup_qbuff] at h2 ⊢
      rw [h2, hu]

/-- C21 (as stated, refuted): with the 32-bit per-CPU counter at `2^32 - 1`, the first packet
of a batch gets `2^32 - 1` and the second gets 0, and the counter ends at 1. -/
theorem counter_wraps :
    ¬ (∀ (e : batch_env) (data : pfq_percpu_data) (groups : Nat → pfq_group)
        (monad : pfq_lang_monad) (pool : List qbuff), data.counter < 2 ^ 32 →
        (pool_counters (batch_begin e data groups monad 0 pool).pool).Pairwise (· < ·) ∧
        ∀ c, c ∈ pool_counters (batch_begin e data groups monad 0 pool).pool →
          c < (batch_begin e data groups monad 0 pool).data.counter) := by
  intro h
  have h1 := (h env_1_3 last_count_data (fun _ => plain_group 1) zero_monad
    [fresh_qbuff 100 1, fresh_qbuff 101 1] (by decide)).1
  have hc : pool_counters (batch_begin env_1_3 last_count_data (fun _ => plain_group 1)
      zero_monad 0 [fresh_qbuff 100 1, fresh_qbuff 101 1]).pool = [4294967295, 0] := by
    decide
  rw [hc] at h1
  revert h1
  decide

/-- C21 (amended): phase 1 gives the `i`-th packet of the batch the counter
`(c + i) mod 2^32`, where `c` is the starting value of the 32-bit per-CPU counter, and leaves
the per-CPU counter at `(c + L) mod 2^32`; when `c + L < 2^32` (no wrap-around during the
batch) the packets get strictly increasing counters in arrival order and the per-CPU counter
ends above every one of them. -/
theorem phase1_counters (e : batch_env) (data : pfq_percpu_data) (groups : Nat → pfq_group)
    (monad : pfq_lang_monad) (global_recv : Nat) (pool : List qbuff)
    (hc : data.counter < 2 ^ 32) :
    pool_counters (batch_begin e data groups monad global_recv pool).pool =
      (List.range pool.length).map (fun i => (data.counter + i) % 2 ^ 32) ∧
    (batch_begin e data groups monad global_recv pool).data.counter =
      (data.counter + pool.length) % 2 ^ 32 ∧
    (data.counter + pool.length < 2 ^ 32 →
      (pool_counters (batch_begin e data groups monad global_recv pool).pool).Pairwise
        (· < ·) ∧
      ∀ c, c ∈ pool_counters (batch_begin e data groups monad global_recv pool).pool →
        c < (batch_begin e data groups monad global_recv pool).data.counter) := by
  obtain ⟨h1, h2⟩ := setup_qbuffs_counters e pool data.counter 0 hc
  have hp : pool_counters (batch_begin e data groups monad global_recv pool).pool =
      (List.range pool.length).map (fun i => (data.counter + i) % 2 ^ 32) := h1
  have hd : (batch_begin e data groups monad global_recv pool).data.counter =
      (data.counter + pool.length) % 2 ^ 32 := h2
  refine ⟨hp, hd, fun hL => ?_⟩
  rw [hp, hd]
  refine ⟨?_, ?_⟩
  · rw [List.pairwise_map]
    refine List.Pairwise.imp_of_mem ?_ (List.pairwise_lt_range pool.length)
    intro a b ha hb hab
    have := List.mem_range.mp ha
    have := List.mem_range.mp hb
    rw [Nat.mod_eq_of_lt (by omega), Nat.mod_eq_of_lt (by omega)]
    omega
  · intro c hcm
    obtain ⟨i, hi, rfl⟩ := List.mem_map.mp hcm
    have := List.mem_range.mp hi
    rw [Nat.mod_eq_of_lt (by omega), Nat.mod_eq_of_lt hL]
    omega

theorem phase1_counters_witness :
    ({ zero_data with counter := 5 } : pfq_percpu_data).counter < 2 ^ 32 ∧
    pool_counters (batch_begin env_1_3 { zero_data with counter := 5 } (fun _ => plain_group 1)
      zero_monad 0 (qbuff_run 100 3)).pool = [5, 6, 7] ∧
    (batch_begin env_1_3 { zero_data with counter := 5 } (fun _ => plain_group 1)
      zero_monad 0 (qbuff_run 100 3)).data.counter = 8 ∧
    (pool_counters (batch_begin env_1_3 { zero_data with counter := 5 }
      (fun _ => plain_group 1) zero_monad 0 (qbuff_run 100 3)).pool).Pairwise (· < ·) :=
  ⟨by decide,
   (phase1_counters env_1_3 { zero_data with counter := 5 } (fun _ => plain_group 1)
      zero_monad 0 (qbuff_run 100 3) (by decide)).1.trans (by decide),
   (phase1_counters env_1_3 { zero_data with counter := 5 } (fun _ => plain_group 1)
      zero_monad 0 (qbuff_run 100 3) (by decide)).2.1.trans (by decide),
   ((phase1_counters env_1_3 { zero_data with counter := 5 } (fun _ => plain_group 1)
      zero_monad 0 (qbuff_run 100 3) (by decide)).2.2 (by decide)).1⟩

end Core

namespace Core

/-! ## `prefold` is a bijection -/

theorem xor_shift_cancel (a b c d e : Bool) :
    Bool.xor (Bool.xor (Bool.xor (Bool.xor a b) c) d)
      (Bool.xor (Bool.xor (Bool.xor b c) d) e) = Bool.xor a e := by
  cases a <;> cases b <;> cases c <;> cases d <;> cases e <;> rfl

theorem shiftRight_lt_of_lt {x n : Nat} (k : Nat) (h : x < 2 ^ n) : x >>> k < 2 ^ n := by
  rw [Nat.shiftRight_eq_div_pow]
  exact lt_of_le_of_lt (Nat.div_le_self _ _) h

theorem prefold_lt (h : Nat) (hh : h < 2 ^ 32) : prefold h < 2 ^ 32 := by
  unfold prefold
  have h1 : h >>> 8 < 2 ^ 32 := shiftRight_lt_of_lt 8 hh
  have h2 : h >>> 16 < 2 ^ 32 := shiftRight_lt_of_lt 16 hh
  have h3 : h >>> 24 < 2 ^ 32 := shiftRight_lt_of_lt 24 hh
  exact Nat.xor_lt_two_pow (Nat.xor_lt_two_pow (Nat.xor_lt_two_pow hh h1) h2) h3

theorem prefold_left_inv (h : Nat) (hh : h < 2 ^ 32) :
    prefold h ^^^ (prefold h >>> 8) = h := by
  apply Nat.eq_of_testBit_eq
  intro i
  have htop : h.testBit (32 + i) = false :=
    Nat.testBit_lt_two_pow (lt_of_lt_of_le hh (Nat.pow_le_pow_right (by norm_num) (by omega)))
  simp only [prefold, Nat.testBit_xor, Nat.testBit_shiftRight]
  have e1 : 8 + (8 + i) = 16 + i := by omega
  have e2 : 16 + (8 + i) = 24 + i := by omega
  have e3 : 24 + (8 + i) = 32 + i := by omega
  rw [e1, e2, e3, xor_shift_cancel, htop]
  simp

theorem prefold_right_inv (y : Nat) (hy : y < 2 ^ 32) :
    prefold (y ^^^ (y >>> 8)) = y := by
  apply Nat.eq_of_testBit_eq
  intro i
  have htop : y.testBit (32 + i) = false :=
    Nat.testBit_lt_two_pow (lt_of_lt_of_le hy (Nat.pow_le_pow_right (by norm_num) (by omega)))
  simp only [prefold, Nat.testBit_xor, Nat.testBit_shiftRight]
  have e1 : 8 + (8 + i) = 16 + i := by omega
  have e2 : 16 + (8 + i) = 24 + i := by omega
  have e3 : 24 + (8 + i) = 32 + i := by omega
  have e4 : 8 + (16 + i) = 24 + i := by omega
  have e5 : 8 + (24 + i) = 32 + i := by omega
  simp only [e1, e2, e3, e4, e5, htop]
  cases y.testBit i <;> cases y.testBit (8 + i) <;> cases y.testBit (16 + i) <;>
    cases y.testBit (24 + i) <;> rfl

/-- C27: `prefold` is a bijection on the 32-bit words with inverse `y ↦ y ^ (y >> 8)`: for
every 32-bit `h`, `prefold(h) ^ (prefold(h) >> 8) = h`; `prefold` maps 32-bit words to 32-bit
words, and every 32-bit `y` is the image of `y ^ (y >> 8)`. -/
theorem prefold_bijective :
    (∀ h, h < 2 ^ 32 → prefold h < 2 ^ 32 ∧ prefold h ^^^ (prefold h >>> 8) = h) ∧
    (∀ y, y < 2 ^ 32 → y ^^^ (y >>> 8) < 2 ^ 32 ∧ prefold (y ^^^ (y >>> 8)) = y) ∧
    Set.BijOn prefold {h | h < 2 ^ 32} {h | h < 2 ^ 32} := by
  have hinv : ∀ y, y < 2 ^ 32 → y ^^^ (y >>> 8) < 2 ^ 32 := fun y hy =>
    Nat.xor_lt_two_pow hy (shiftRight_lt_of_lt 8 hy)
  refine ⟨fun h hh => ⟨prefold_lt h hh, prefold_left_inv h hh⟩,
    fun y hy => ⟨hinv y hy, prefold_right_inv y hy⟩, ?_, ?_, ?_⟩
  · intro h hh
    exact prefold_lt h hh
  · intro a ha b hb hab
    have h1 := prefold_left_inv a ha
    have h2 := prefold_left_inv b hb
    rw [hab] at h1
    exact h1.symm.trans h2
  · intro y hy
    exact ⟨y ^^^ (y >>> 8), hinv y hy, prefold_right_inv y hy⟩

theorem prefold_bijective_witness :
    (0x12345678 : Nat) < 2 ^ 32 ∧
    prefold 0x12345678 < 2 ^ 32 ∧
    prefold 0x12345678 ^^^ (prefold 0x12345678 >>> 8) = 0x12345678 :=
  ⟨by decide, prefold_bijective.1 0x12345678 (by decide)⟩

end Core

namespace PfQ

/-! ## The two copies of `pfq_fold` -/

theorem clp2_eq_core (x : Nat) : clp2 x = Core.clp2 x := rfl

/-- C28: the two copies of `pfq_fold` (pf_q.c and core.c) return the same value for every
`a` and every `b` outside `{7, 9, 10, 11, 12, 13, 17, 18, 19, 20}`, `b = 0` and `b = 1`
included; for each `b` of that set they differ at `a = clp2(b)` (8 for 7, 16 for 9 to 13,
32 for 17 to 20). -/
theorem pfq_fold_copies (a b : Nat) :
    (b ∉ fold_differs → pfq_fold a b = Core.pfq_fold a b) ∧
    (∀ d, d ∈ fold_differs → pfq_fold (clp2 d) d ≠ Core.pfq_fold (clp2 d) d) ∧
    pfq_fold 8 7 ≠ Core.pfq_fold 8 7 ∧ pfq_fold 16 9 ≠ Core.pfq_fold 16 9 := by
  refine ⟨fun hb => ?_, by decide, by decide, by decide⟩
  simp only [fold_differs, List.mem_cons, List.mem_singleton, List.not_mem_nil, or_false,
    not_or] at hb
  obtain ⟨h7, h9, h10, h11, h12, h13, h17, h18, h19, h20⟩ := hb
  by_cases h1 : b = 1
  · subst h1
    simp [pfq_fold, Core.pfq_fold, Core.u32]
  by_cases hc : b &&& Core.u32 (b + 2 ^ 32 - 1) = 0
  · simp only [pfq_fold, Core.pfq_fold, h1, hc, if_false, if_true, ne_eq, not_true_eq_false]
  · simp only [pfq_fold, Core.pfq_fold, h1, hc, h7, h9, h10, h11, h12, h13, h17, h18, h19, h20,
      if_false, if_true, ne_eq, not_false_eq_true, clp2_eq_core]

theorem pfq_fold_copies_witness :
    (6 : Nat) ∉ fold_differs ∧ pfq_fold 100 6 = Core.pfq_fold 100 6 ∧
    (0 : Nat) ∉ fold_differs ∧ pfq_fold 100 0 = Core.pfq_fold 100 0 ∧
    (7 : Nat) ∈ fold_differs ∧ pfq_fold (clp2 7) 7 ≠ Core.pfq_fold (clp2 7) 7 :=
  ⟨by decide, (pfq_fold_copies 100 6).1 (by decide),
   by decide, (pfq_fold_copies 100 0).1 (by decide),
   by decide, (pfq_fold_copies 0 0).2.1 7 (by decide)⟩

end PfQ

namespace Core

/-! ## The mask fanned out by a packet step -/

theorem process_packet_mask (e : batch_env) (gid n : Nat) (s : batch_state) :
    (process_packet e gid n s).sock_queue =
      mask_to_sock_queue n (packet_sock_mask e gid n s) s.sock_queue ∧
    (process_packet e gid n s).socket_mask = s.socket_mask ||| packet_sock_mask e gid n s := by
  have z : ∀ q : Nat → Nat, mask_to_sock_queue n 0 q = q := mask_to_sock_queue_zero n
  rcases hpool : s.pool[n]? with _ | buff
  · simp [process_packet, packet_sock_mask, hpool, z]
  by_cases hin : buff.group_mask &&& (1 <<< gid) = 0
  · simp [process_packet, packet_sock_mask, hpool, hin, z]
  by_cases hbp : (s.groups gid).bp_filter.any (fun run => !run buff) = true
  · simp [process_packet, packet_sock_mask, hpool, hin, hbp, z, inc_recv, set_group,
      drop_packet]
  by_cases hvlan : ((s.groups gid).vlan_filt_enabled && !(s.groups gid).vlan_filter buff) = true
  · simp [process_packet, packet_sock_mask, hpool, hin, hbp, hvlan, z, inc_recv, set_group,
      drop_packet]
  rcases hcomp : (s.groups gid).comp with _ | prg
  · simp [process_packet, packet_sock_mask, hpool, hin, hbp, hvlan, hcomp, inc_recv,
      set_group, fan_out]
  rcases hrun : prg { buff with state := 0 } (setup_monad e gid s.monad) with ⟨ob, m1⟩
  rcases ob with _ | b1
  · simp [process_packet, packet_sock_mask, hpool, hin, hbp, hvlan, hcomp, hrun, z, inc_recv,
      set_group, drop_packet]
  by_cases hnd : is_drop m1.fanout = true
  · simp [process_packet, packet_sock_mask, hpool, hin, hbp, hvlan, hcomp, hrun, hnd, z,
      inc_recv, set_group, drop_packet, add_frwd_kern]
  · simp only [Bool.not_eq_true] at hbp hvlan hnd
    obtain ⟨s1, hs1, hdata, hq, hm, -, -, hid, -, -⟩ :=
      process_packet_classified e gid n s buff b1 prg m1 hpool hin hbp hvlan hcomp hrun hnd
    rw [hs1]
    by_cases hst : is_steering m1.fanout = true
    · simp [fanout_packet, fan_out, packet_sock_mask, hpool, hin, hbp, hvlan, hcomp, hrun,
        hnd, hst, hdata, hq, hm, hid]
    · simp [fanout_packet, fan_out, packet_sock_mask, hpool, hin, hbp, hvlan, hcomp, hrun,
        hnd, hst, hdata, hq, hm, hid]

theorem foldl_or_testBit (f : Nat → Nat) (l : List Nat) (m i : Nat) :
    (l.foldl (fun m c => m ||| f c) m).testBit i = true ↔
      m.testBit i = true ∨ ∃ c, c ∈ l ∧ (f c).testBit i = true := by
  induction l generalizing m with
  | nil => simp
  | cons a rest ih =>
    rw [List.foldl_cons, ih, Nat.testBit_or, Bool.or_eq_true]
    constructor
    · rintro ((h | h) | ⟨c, hc, h⟩)
      · exact Or.inl h
      · exact Or.inr ⟨a, List.mem_cons_self _ _, h⟩
      · exact Or.inr ⟨c, List.mem_cons_of_mem _ hc, h⟩
    · rintro (h | ⟨c, hc, h⟩)
      · exact Or.inl (Or.inl h)
      · rcases List.mem_cons.mp hc with rfl | hc
        · exact Or.inl (Or.inr h)
        · exact Or.inr ⟨c, hc, h⟩

theorem eligible_mask_of_testBit (sock_id : Nat → Nat) (class_mask i : Nat) :
    (eligible_mask_of sock_id class_mask).testBit i = true ↔
      ∃ c, c ∈ pfq_bitwise_foreach class_mask ∧ (u64 (sock_id c)).testBit i = true := by
  unfold eligible_mask_of
  rw [foldl_or_testBit (fun c => u64 (sock_id c))]
  simp

/-- How a packet step changes the cache and where its mask comes from: either the cache is
untouched and every bit of the mask is a bit of some `sock_id[class]` of the group, or the
fanout is a steering one, the cache is the result of the cache check for the packet's
eligible mask, and the mask is the steering selection in that cache. -/
theorem process_packet_data (e : batch_env) (gid n : Nat) (s : batch_state) :
    ((process_packet e gid n s).data = s.data ∧
      ∀ i, (packet_sock_mask e gid n s).testBit i = true →
        ∃ c, (u64 ((s.groups gid).sock_id c)).testBit i = true) ∨
    ∃ f : fanout_t, is_steering f = true ∧
      (process_packet e gid n s).data =
        steering_cache e.weight (eligible_mask_of (s.groups gid).sock_id f.class_mask) s.data ∧
      packet_sock_mask e gid n s = steering_sock_mask (process_packet e gid n s).data f := by
  rcases hpool : s.pool[n]? with _ | buff
  · left; simp [process_packet, packet_sock_mask, hpool]
  by_cases hin : buff.group_mask &&& (1 <<< gid) = 0
  · left; simp [process_packet, packet_sock_mask, hpool, hin]
  by_cases hbp : (s.groups gid).bp_filter.any (fun run => !run buff) = true
  · left
    simp [process_packet, packet_sock_mask, hpool, hin, hbp, inc_recv, set_group, drop_packet]
  by_cases hvlan : ((s.groups gid).vlan_filt_enabled && !(s.groups gid).vlan_filter buff) = true
  · left
    simp [process_packet, packet_sock_mask, hpool, hin, hbp, hvlan, inc_recv, set_group,
      drop_packet]
  rcases hcomp : (s.groups gid).comp with _ | prg
  · left
    refine ⟨?_, fun i hi => ⟨0, ?_⟩⟩
    · simp [process_packet, hpool, hin, hbp, hvlan, hcomp, inc_recv, set_group, fan_out]
    · simpa [packet_sock_mask, hpool, hin, hbp, hvlan, hcomp] using hi
  rcases hrun : prg { buff with state := 0 } (setup_monad e gid s.monad) with ⟨ob, m1⟩
  rcases ob with _ | b1
  · left
    simp [process_packet, packet_sock_mask, hpool, hin, hbp, hvlan, hcomp, hrun, inc_recv,
      set_group, drop_packet]
  by_cases hnd : is_drop m1.fanout = true
  · left
    simp [process_packet, packet_sock_mask, hpool, hin, hbp, hvlan, hcomp, hrun, hnd,
      inc_recv, set_group, drop_packet, add_frwd_kern]
  · simp only [Bool.not_eq_true] at hbp hvlan hnd
    obtain ⟨s1, hs1, hdata, hq, hm, -, -, hid, -, -⟩ :=
      process_packet_classified e gid n s buff b1 prg m1 hpool hin hbp hvlan hcomp hrun hnd
    rw [hs1]
    by_cases hst : is_steering m1.fanout = true
    · right
      refine ⟨m1.fanout, hst, ?_, ?_⟩
      · simp [fanout_packet, fan_out, hst, hdata, hid]
      · simp [fanout_packet, fan_out, packet_sock_mask, hpool, hin, hbp, hvlan, hcomp, hrun,
          hnd, hst, hdata, hid]
    · left
      refine ⟨by simp [fanout_packet, fan_out, hst, hdata], fun i hi => ?_⟩
      have hm : packet_sock_mask e gid n s =
          eligible_mask_of (s.groups gid).sock_id m1.fanout.class_mask := by
        simp [packet_sock_mask, hpool, hin, hbp, hvlan, hcomp, hrun, hnd, hst]
      rw [hm, eligible_mask_of_testBit] at hi
      obtain ⟨c, -, hc⟩ := hi
      exact ⟨c, hc⟩

end Core
namespace Core

/-! ## The steering cache invariant -/

theorem steering_index_lt (data : pfq_percpu_data) (hash : Nat) (h : data.sock_cnt ≠ 0) :
    pfq_fold (prefold (u32 hash)) (u32 data.sock_cnt) < data.sock_cnt := by
  by_cases h0 : u32 data.sock_cnt = 0
  · have hc : u32 (0 + 2 ^ 32 - 1) = 2 ^ 32 - 1 := by decide
    have hb : (0 : Nat) &&& (2 ^ 32 - 1) = 0 := by decide
    have hfold : pfq_fold (prefold (u32 hash)) 0 = prefold (u32 hash) &&& (2 ^ 32 - 1) := by
      simp only [pfq_fold, hc, hb]
      simp
    rw [h0, hfold]
    have hle : prefold (u32 hash) &&& (2 ^ 32 - 1) ≤ 2 ^ 32 - 1 := Nat.and_le_right
    unfold u32 at h0
    omega
  · have hlt : u32 data.sock_cnt < 2 ^ 32 := Nat.mod_lt _ (by norm_num)
    have := pfq_fold_lt_aux (prefold (u32 hash)) (u32 data.sock_cnt) (by omega) hlt
    have hle : u32 data.sock_cnt ≤ data.sock_cnt := Nat.mod_le _ _
    omega

theorem steering_cache_eligible (weight : Nat → Nat) (el : Nat) (data : pfq_percpu_data) :
    (steering_cache weight el data).sock_eligible_mask = el := by
  unfold steering_cache
  split
  · exact (rebuild_sock_mask_spec weight el data).1
  · rename_i h
    simp only [ne_eq, not_not] at h
    exact h.symm

theorem cache_inv_rebuild (weight : Nat → Nat) (el : Nat) (data : pfq_percpu_data) :
    cache_inv (rebuild_sock_mask weight el data) := by
  obtain ⟨h1, h2, h3⟩ := rebuild_sock_mask_spec weight el data
  refine ⟨fun i hi => ?_, fun h0 => ?_⟩
  · have hget := sock_mask_of_live h3 i hi
    have hmem : (rebuild_sock_mask weight el data).sock_mask i ∈
        (pfq_bitwise_foreach el).flatMap (fun id => List.replicate (weight id) (1 <<< id)) :=
      List.getElem?_mem hget
    obtain ⟨id, hid, hrep⟩ := List.mem_flatMap.mp hmem
    refine ⟨id, (List.mem_replicate.mp hrep).2, ?_⟩
    rw [h1]
    exact ((mem_pfq_bitwise_foreach el id).mp hid).2
  · rw [h1] at h0
    rw [h2, h0]
    have : pfq_bitwise_foreach 0 = [] := by decide
    rw [this]
    rfl

theorem cache_inv_steering_cache (weight : Nat → Nat) (el : Nat) (data : pfq_percpu_data)
    (h : cache_inv data) : cache_inv (steering_cache weight el data) := by
  unfold steering_cache
  split
  · exact cache_inv_rebuild weight el data
  · exact h

theorem cache_inv_zero : cache_inv zero_data :=
  ⟨fun i hi => absurd hi (Nat.not_lt_zero i), fun _ => rfl⟩

/-- Every packet step preserves the invariant of the steering cache. -/
theorem process_packet_cache_inv (e : batch_env) (gid n : Nat) (s : batch_state)
    (h : cache_inv s.data) : cache_inv (process_packet e gid n s).data := by
  rcases process_packet_data e gid n s with ⟨hd, -⟩ | ⟨f, -, hd, -⟩
  · rw [hd]; exact h
  · rw [hd]; exact cache_inv_steering_cache _ _ _ h

theorem steering_slot_bit (data : pfq_percpu_data) (hash : Nat) (h : cache_inv data)
    (hcnt : data.sock_cnt ≠ 0) :
    ∃ sid, steering_slot data hash = 1 <<< sid ∧ data.sock_eligible_mask.testBit sid = true :=
  h.1 _ (steering_index_lt data hash hcnt)

theorem one_shiftLeft_testBit (a i : Nat) : (1 <<< a).testBit i = decide (a = i) := by
  rw [Nat.one_shiftLeft, Nat.testBit_two_pow]

/-- The steering selection in a cache that satisfies the invariant: a subset of the cached
eligible mask; one bit for single steering and the union of two single bits for double
steering when `sock_cnt > 0`, and empty otherwise. -/
theorem steering_sock_mask_bits (data : pfq_percpu_data) (f : fanout_t) (h : cache_inv data) :
    (∀ i, (steering_sock_mask data f).testBit i = true →
      data.sock_eligible_mask.testBit i = true) ∧
    (data.sock_cnt = 0 → steering_sock_mask data f = 0) ∧
    (0 < data.sock_cnt →
      (is_double_steering f = false → ∃ a, steering_sock_mask data f = 1 <<< a) ∧
      (∃ a b, steering_sock_mask data f = 1 <<< a ||| 1 <<< b)) := by
  by_cases hcnt : data.sock_cnt = 0
  · have hz := steering_sock_mask_empty data f hcnt
    refine ⟨fun i hi => ?_, fun _ => hz, fun hpos => absurd hcnt (by omega)⟩
    rw [hz] at hi
    simp at hi
  · obtain ⟨a, ha, hab⟩ := steering_slot_bit data f.hash h hcnt
    obtain ⟨b, hb, hbb⟩ := steering_slot_bit data f.hash2 h hcnt
    by_cases hd : is_double_steering f = true
    · have hm : steering_sock_mask data f = 1 <<< a ||| 1 <<< b := by
        simp [steering_sock_mask, hcnt, hd, ha, hb]
      refine ⟨fun i hi => ?_, fun h0 => absurd h0 hcnt, fun _ => ⟨fun hf => ?_, a, b, hm⟩⟩
      · rw [hm, Nat.testBit_or, one_shiftLeft_testBit, one_shiftLeft_testBit] at hi
        simp only [Bool.or_eq_true, decide_eq_true_eq] at hi
        rcases hi with rfl | rfl
        · exact hab
        · exact hbb
      · rw [hf] at hd; exact absurd hd (by decide)
    · have hm : steering_sock_mask data f = 1 <<< a := by
        simp [steering_sock_mask, hcnt, hd, ha]
      refine ⟨fun i hi => ?_, fun h0 => absurd h0 hcnt,
        fun _ => ⟨fun _ => ⟨a, hm⟩, a, a, by rw [hm, Nat.or_self]⟩⟩
      rw [hm, one_shiftLeft_testBit] at hi
      simp only [decide_eq_true_eq] at hi
      rw [← hi]
      exact hab

/-- C25: the invariant of the steering cache (every entry of `sock_mask[0 .. sock_cnt)` is a
single-bit mask whose bit is set in `sock_eligible_mask`, and `sock_cnt = 0` when that mask is
0) is preserved by every packet step; under it, for a packet that reaches the fan-out with a
steering fanout, the `sock_mask` fanned out is a subset of the packet's eligible mask, with
exactly one bit when `sock_cnt > 0` (the union of two single bits for double steering) and no
bit when `sock_cnt = 0`. -/
theorem steering_cache_invariant (e : batch_env) (gid n : Nat) (s : batch_state)
    (hinv : cache_inv s.data) :
    cache_inv (process_packet e gid n s).data ∧
    ∀ (buff buff1 : qbuff) (prg : computation) (monad : pfq_lang_monad),
      s.pool[n]? = some buff →
      buff.group_mask &&& (1 <<< gid) ≠ 0 →
      (s.groups gid).bp_filter.any (fun run => !run buff) = false →
      ((s.groups gid).vlan_filt_enabled && !(s.groups gid).vlan_filter buff) = false →
      (s.groups gid).comp = some prg →
      prg { buff with state := 0 } (setup_monad e gid s.monad) = (some buff1, monad) →
      is_steering monad.fanout = true →
      (process_packet e gid n s).sock_queue =
        mask_to_sock_queue n (packet_sock_mask e gid n s) s.sock_queue ∧
      (∀ i, (packet_sock_mask e gid n s).testBit i = true →
        (eligible_mask_of (s.groups gid).sock_id monad.fanout.class_mask).testBit i = true) ∧
      ((process_packet e gid n s).data.sock_cnt = 0 → packet_sock_mask e gid n s = 0) ∧
      (0 < (process_packet e gid n s).data.sock_cnt →
        (is_double_steering monad.fanout = false →
          ∃ a, packet_sock_mask e gid n s = 1 <<< a) ∧
        (∃ a b, packet_sock_mask e gid n s = 1 <<< a ||| 1 <<< b)) := by
  refine ⟨process_packet_cache_inv e gid n s hinv, ?_⟩
  intro buff buff1 prg monad hpool hin hbp hvlan hcomp hrun hst
  have hnd := is_drop_of_steering hst
  obtain ⟨s1, hs1, hdata, -, -, -, -, hid, -, -⟩ :=
    process_packet_classified e gid n s buff buff1 prg monad hpool hin hbp hvlan hcomp hrun hnd
  have hd : (process_packet e gid n s).data =
      steering_cache e.weight
        (eligible_mask_of (s.groups gid).sock_id monad.fanout.class_mask) s.data := by
    rw [hs1]
    simp [fanout_packet, fan_out, hst, hdata, hid]
  have hm : packet_sock_mask e gid n s =
      steering_sock_mask (process_packet e gid n s).data monad.fanout := by
    rw [hd]
    simp [packet_sock_mask, hpool, hin, hbp, hvlan, hcomp, hrun, hnd, hst]
  have hci := process_packet_cache_inv e gid n s hinv
  obtain ⟨b1, b2, b3⟩ := steering_sock_mask_bits (process_packet e gid n s).data monad.fanout hci
  have hel : (process_packet e gid n s).data.sock_eligible_mask =
      eligible_mask_of (s.groups gid).sock_id monad.fanout.class_mask := by
    rw [hd]; exact steering_cache_eligible _ _ _
  rw [hel] at b1
  rw [hm]
  exact ⟨hm ▸ (process_packet_mask e gid n s).1, b1, b2, b3⟩

end Core
namespace Core

/-! ## Index bounds of the fan-out -/

theorem push_weight_cnt (ebit w : Nat) (d : pfq_percpu_data) :
    (push_weight ebit w d).sock_cnt = d.sock_cnt + w := by
  have h := congrArg List.length (push_weight_live ebit w d).1
  rw [sock_mask_live_length, List.length_append, sock_mask_live_length,
    List.length_replicate] at h
  exact h

theorem rebuild_fold_cnt (weight : Nat → Nat) (ids : List Nat) (d : pfq_percpu_data) :
    (ids.foldl (fun d id => push_weight (1 <<< id) (weight id) d) d).sock_cnt =
      d.sock_cnt + (ids.map weight).sum := by
  have h := congrArg List.length (rebuild_fold_live weight ids d).1
  rw [sock_mask_live_length, List.length_append, sock_mask_live_length,
    length_flatMap_replicate] at h
  exact h

theorem pfq_bitwise_foreach_nodup (mask : Nat) : (pfq_bitwise_foreach mask).Nodup :=
  List.Nodup.filter _ (List.nodup_range 64)

theorem length_bits_le (mask Q : Nat) (h : ∀ i, mask.testBit i = true → i < Q) :
    (pfq_bitwise_foreach mask).length ≤ Q := by
  have hsub : pfq_bitwise_foreach mask ⊆ List.range Q := by
    intro i hi
    exact List.mem_range.mpr (h i ((mem_pfq_bitwise_foreach mask i).mp hi).2)
  have hle := (List.subperm_of_subset (pfq_bitwise_foreach_nodup mask) hsub).length_le
  simpa using hle

theorem sum_weights_le (weight : Nat → Nat) (ids : List Nat) (Q M : Nat)
    (hlen : ids.length ≤ Q) (hw : ∀ id, weight id ≤ M / Q) : (ids.map weight).sum ≤ M := by
  have h1 : (ids.map weight).sum ≤ (ids.map weight).length • (M / Q) :=
    List.sum_le_card_nsmul _ _ (fun x hx => by
      obtain ⟨id, -, rfl⟩ := List.mem_map.mp hx
      exact hw id)
  rw [List.length_map, smul_eq_mul] at h1
  have h2 : ids.length * (M / Q) ≤ Q * (M / Q) := Nat.mul_le_mul_right _ hlen
  have h3 : Q * (M / Q) ≤ M := Nat.mul_div_le M Q
  omega

/-- The rebuild of the weighted array stays within `Q_MAX_SOCK_MASK`: before every write
`sock_mask[sock_cnt++] = ebit` the index `sock_cnt` is below the bound, and the final
`sock_cnt` is at most the bound. -/
theorem rebuild_in_bounds (weight : Nat → Nat) (el Q M : Nat) (d : pfq_percpu_data)
    (hbits : ∀ i, el.testBit i = true → i < Q) (hw : ∀ id, weight id ≤ M / Q) :
    (∀ pre id post w, pfq_bitwise_foreach el = pre ++ id :: post → w < weight id →
      (push_weight (1 <<< id) w
        (pre.foldl (fun d id => push_weight (1 <<< id) (weight id) d)
          { d with sock_eligible_mask := el, sock_cnt := 0 })).sock_cnt < M) ∧
    (rebuild_sock_mask weight el d).sock_cnt ≤ M := by
  have hsum := sum_weights_le weight (pfq_bitwise_foreach el) Q M (length_bits_le el Q hbits) hw
  refine ⟨fun pre id post w hsplit hlt => ?_, ?_⟩
  · rw [push_weight_cnt, rebuild_fold_cnt]
    rw [hsplit] at hsum
    simp only [List.map_append, List.map_cons, List.sum_append, List.sum_cons] at hsum
    simp only
    omega
  · rw [(rebuild_sock_mask_spec weight el d).2.1]
    exact hsum

theorem bits_of_eligible (sock_id : Nat → Nat) (class_mask bound : Nat)
    (h : ∀ c i, (u64 (sock_id c)).testBit i = true → i < bound) :
    ∀ i, (eligible_mask_of sock_id class_mask).testBit i = true → i < bound := by
  intro i hi
  obtain ⟨c, -, hc⟩ := (eligible_mask_of_testBit sock_id class_mask i).mp hi
  exact h c i hc

theorem process_packet_copies (e : batch_env) (gid n : Nat) (s : batch_state) :
    (process_packet e gid n s).copies = s.copies := by
  rcases hpool : s.pool[n]? with _ | buff
  · simp [process_packet, hpool]
  · obtain ⟨r, m, -, -, -, hc, -⟩ := process_packet_account e gid n s buff hpool
    exact hc

theorem process_packet_copies_run (e : batch_env) (gid : Nat) (s : batch_state) (k : Nat) :
    (run_packets e gid k (begin_group s)).copies = s.copies := by
  induction k with
  | zero => rfl
  | succ k ih => rw [run_packets_succ, process_packet_copies, ih]

/-- One packet step keeps `bound_inv`, and the mask it fans out has no bit at or above the
bound. -/
theorem process_packet_bound (B : Nat) (e : batch_env) (gid n : Nat) (s : batch_state)
    (h : bound_inv B s) :
    bound_inv B (process_packet e gid n s) ∧
    ∀ i, (packet_sock_mask e gid n s).testBit i = true → i < B := by
  obtain ⟨hc, hg, hm, hcp⟩ := h
  have hci := process_packet_cache_inv e gid n s hc
  have hmask : ∀ i, (packet_sock_mask e gid n s).testBit i = true → i < B := by
    intro i hi
    rcases process_packet_data e gid n s with ⟨-, hb⟩ | ⟨f, -, hd, hmf⟩
    · obtain ⟨c, hcb⟩ := hb i hi
      exact hg gid c i hcb
    · rw [hmf] at hi
      have hsub := (steering_sock_mask_bits (process_packet e gid n s).data f hci).1 i hi
      rw [hd, steering_cache_eligible] at hsub
      exact bits_of_eligible _ _ B (hg gid) i hsub
  refine ⟨⟨hci, fun g c i hi => ?_, fun i hi => ?_, fun c hcm => ?_⟩, hmask⟩
  · have hcfg := process_packet_groups e gid n s g
    rw [hcfg.2.2.2.2] at hi
    exact hg g c i hi
  · rw [(process_packet_mask e gid n s).2, Nat.testBit_or, Bool.or_eq_true] at hi
    rcases hi with hi | hi
    · exact hm i hi
    · exact hmask i hi
  · rw [process_packet_copies] at hcm
    exact hcp c hcm

theorem run_packets_bound (B : Nat) (e : batch_env) (gid : Nat) (s : batch_state)
    (h : bound_inv B s) : ∀ k, bound_inv B (run_packets e gid k s) := by
  intro k
  induction k with
  | zero => exact h
  | succ k ih =>
    rw [run_packets_succ]
    exact (process_packet_bound B e gid k _ ih).1

theorem begin_group_bound (B : Nat) (s : batch_state) (h : bound_inv B s) :
    bound_inv B (begin_group s) := by
  obtain ⟨hc, hg, -, hcp⟩ := h
  refine ⟨hc, hg, fun i hi => ?_, hcp⟩
  simp [begin_group] at hi

theorem process_group_bound (B : Nat) (e : batch_env) (L : Nat) (s : batch_state) (gid : Nat)
    (h : bound_inv B s) : bound_inv B (process_group e L s gid) := by
  obtain ⟨hc, hg, hm, hcp⟩ := run_packets_bound B e gid _ (begin_group_bound B s h) L
  refine ⟨hc, hg, hm, fun c hcm => ?_⟩
  rw [(process_group_fields e L s gid).2.2.2] at hcm
  rcases List.mem_append.mp hcm with hcm | hcm
  · exact hcp c hcm
  · obtain ⟨id, hid, rfl⟩ := List.mem_map.mp hcm
    exact hm id ((mem_pfq_bitwise_foreach _ id).mp hid).2

theorem foldl_process_group_bound (B : Nat) (e : batch_env) (L : Nat) (gs : List Nat) :
    ∀ s, bound_inv B s → bound_inv B (gs.foldl (process_group e L) s) := by
  induction gs with
  | nil => intro s h; exact h
  | cons g rest ih =>
    intro s h
    exact ih _ (process_group_bound B e L s g h)

theorem batch_begin_bound (B : Nat) (e : batch_env) (data : pfq_percpu_data)
    (groups : Nat → pfq_group) (monad : pfq_lang_monad) (global_recv : Nat) (pool : List qbuff)
    (hc : cache_inv data)
    (hg : ∀ gid c i, (u64 ((groups gid).sock_id c)).testBit i = true → i < B) :
    bound_inv B (batch_begin e data groups monad global_recv pool) := by
  refine ⟨hc, hg, fun i hi => ?_, fun c hcm => ?_⟩
  · simp [batch_begin] at hi
  · simp [batch_begin] at hcm

/-- C26: if every socket id set in a group's `sock_id[]` is below both `Q_MAX_ID` and
`Q_BUFF_BATCH_LEN` and every socket weight is at most `Q_MAX_SOCK_MASK / Q_MAX_ID`, then,
starting from a per-CPU cache that satisfies its invariant: during every rebuild the index of
each write `sock_mask[sock_cnt++]` is below `Q_MAX_SOCK_MASK` and `sock_cnt` ends at most
there; every read `sock_mask[pfq_fold(..)]` uses an index below `sock_cnt`; at every point of
the batch the mask passed to `mask_to_sock_queue` has only bits (the indices into
`sock_queue`) below `Q_BUFF_BATCH_LEN`, and so has every socket of the copy loop; and the
cache satisfies its invariant again after the batch. -/
theorem fanout_in_bounds (e : batch_env) (data : pfq_percpu_data) (groups : Nat → pfq_group)
    (monad : pfq_lang_monad) (global_recv : Nat) (pool : List qbuff)
    (Q_MAX_ID Q_MAX_SOCK_MASK Q_BUFF_BATCH_LEN : Nat)
    (hids : ∀ gid c i, (u64 ((groups gid).sock_id c)).testBit i = true →
      i < Q_MAX_ID ∧ i < Q_BUFF_BATCH_LEN)
    (hw : ∀ id, e.weight id ≤ Q_MAX_SOCK_MASK / Q_MAX_ID)
    (hcache : cache_inv data) :
    (∀ gid class_mask (d : pfq_percpu_data) pre id post w,
      pfq_bitwise_foreach (eligible_mask_of (groups gid).sock_id class_mask) =
        pre ++ id :: post →
      w < e.weight id →
      (push_weight (1 <<< id) w
        (pre.foldl (fun d id => push_weight (1 <<< id) (e.weight id) d)
          { d with
            sock_eligible_mask := eligible_mask_of (groups gid).sock_id class_mask
            sock_cnt := 0 })).sock_cnt < Q_MAX_SOCK_MASK) ∧
    (∀ gid class_mask (d : pfq_percpu_data),
      (rebuild_sock_mask e.weight (eligible_mask_of (groups gid).sock_id class_mask) d).sock_cnt
        ≤ Q_MAX_SOCK_MASK) ∧
    (∀ (d : pfq_percpu_data) (hash : Nat), d.sock_cnt ≠ 0 →
      pfq_fold (prefold (u32 hash)) (u32 d.sock_cnt) < d.sock_cnt) ∧
    (∀ j gid k i,
      i ∈ pfq_bitwise_foreach
        (packet_sock_mask e gid k (batch_point e data groups monad global_recv pool j gid k)) →
      i < Q_BUFF_BATCH_LEN) ∧
    (∀ c, c ∈ (pfq_process_batch e data groups monad global_recv pool).copies →
      c.id < Q_BUFF_BATCH_LEN) ∧
    cache_inv (pfq_process_batch e data groups monad global_recv pool).data := by
  have hel : ∀ gid class_mask i,
      (eligible_mask_of (groups gid).sock_id class_mask).testBit i = true → i < Q_MAX_ID :=
    fun gid class_mask => bits_of_eligible _ _ Q_MAX_ID (fun c i hi => (hids gid c i hi).1)
  have hb0 := batch_begin_bound Q_BUFF_BATCH_LEN e data groups monad global_recv pool hcache
    (fun gid c i hi => (hids gid c i hi).2)
  have hend := foldl_process_group_bound Q_BUFF_BATCH_LEN e pool.length
    (batch_groups e data pool) _ hb0
  refine ⟨fun gid class_mask d pre id post w hsplit hlt => ?_, fun gid class_mask d => ?_,
    fun d hash hd => steering_index_lt d hash hd, fun j gid k i hi => ?_, hend.2.2.2, hend.1⟩
  · exact (rebuild_in_bounds e.weight _ Q_MAX_ID Q_MAX_SOCK_MASK d (hel gid class_mask) hw).1
      pre id post w hsplit hlt
  · exact (rebuild_in_bounds e.weight _ Q_MAX_ID Q_MAX_SOCK_MASK d (hel gid class_mask) hw).2
  · have hj := foldl_process_group_bound Q_BUFF_BATCH_LEN e pool.length
      ((batch_groups e data pool).take j) _ hb0
    have hk := run_packets_bound Q_BUFF_BATCH_LEN e gid _
      (begin_group_bound Q_BUFF_BATCH_LEN _ hj) k
    exact (process_packet_bound Q_BUFF_BATCH_LEN e gid k _ hk).2 i
      ((mem_pfq_bitwise_foreach _ i).mp hi).2

end Core
namespace Core

/-! ## `sock_queue` accumulates over the groups of a batch -/

theorem u64_bit_testBit (k n : Nat) :
    (u64 (1 <<< k)).testBit n = (decide (n < 64) && decide (k = n)) := by
  unfold u64
  rw [Nat.testBit_mod_two_pow, one_shiftLeft_testBit]

theorem process_packet_bit (e : batch_env) (gid k : Nat) (s : batch_state) (sid n : Nat) :
    ((process_packet e gid k s).sock_queue sid).testBit n = true ↔
      (s.sock_queue sid).testBit n = true ∨
        (k = n ∧ n < 64 ∧ sid < 64 ∧ (packet_sock_mask e gid k s).testBit sid = true) := by
  rw [(process_packet_mask e gid k s).1, mask_to_sock_queue_at]
  by_cases h : sid < 64 ∧ (packet_sock_mask e gid k s).testBit sid = true
  · rw [if_pos h, Nat.testBit_or, u64_bit_testBit]
    simp only [Bool.or_eq_true, Bool.and_eq_true, decide_eq_true_eq]
    constructor
    · rintro (h1 | ⟨h1, h2⟩)
      · exact Or.inl h1
      · exact Or.inr ⟨h2, h1, h.1, h.2⟩
    · rintro (h1 | ⟨h1, h2, -, -⟩)
      · exact Or.inl h1
      · exact Or.inr ⟨h2, h1⟩
  · rw [if_neg h]
    constructor
    · exact Or.inl
    · rintro (h1 | ⟨-, -, h3, h4⟩)
      · exact h1
      · exact absurd ⟨h3, h4⟩ h

theorem run_packets_bit (e : batch_env) (gid : Nat) (s0 : batch_state) (sid n : Nat) :
    ∀ K, ((run_packets e gid K s0).sock_queue sid).testBit n = true ↔
      (s0.sock_queue sid).testBit n = true ∨
        (n < K ∧ n < 64 ∧ sid < 64 ∧
          (packet_sock_mask e gid n (run_packets e gid n s0)).testBit sid = true) := by
  intro K
  induction K with
  | zero =>
    constructor
    · exact Or.inl
    · rintro (h | ⟨h, -⟩)
      · exact h
      · exact absurd h (Nat.not_lt_zero n)
  | succ K ih =>
    rw [run_packets_succ, process_packet_bit, ih]
    constructor
    · rintro ((h | ⟨h1, h2⟩) | ⟨rfl, h2⟩)
      · exact Or.inl h
      · exact Or.inr ⟨by omega, h2⟩
      · exact Or.inr ⟨by omega, h2⟩
    · rintro (h | ⟨h1, h2⟩)
      · exact Or.inl (Or.inl h)
      · by_cases hk : n < K
        · exact Or.inl (Or.inr ⟨hk, h2⟩)
        · have : K = n := by omega
          subst this
          exact Or.inr ⟨rfl, h2⟩

theorem after_groups_succ (e : batch_env) (data : pfq_percpu_data) (groups : Nat → pfq_group)
    (monad : pfq_lang_monad) (global_recv : Nat) (pool : List qbuff) (j : Nat) :
    after_groups e data groups monad global_recv pool (j + 1) =
      match (batch_groups e data pool)[j]? with
      | some g =>
        process_group e pool.length (after_groups e data groups monad global_recv pool j) g
      | none => after_groups e data groups monad global_recv pool j := by
  unfold after_groups
  rw [List.take_succ, List.foldl_append]
  cases (batch_groups e data pool)[j]? <;> rfl

theorem batch_point_eq (e : batch_env) (data : pfq_percpu_data) (groups : Nat → pfq_group)
    (monad : pfq_lang_monad) (global_recv : Nat) (pool : List qbuff) (j gid k : Nat) :
    batch_point e data groups monad global_recv pool j gid k =
      run_packets e gid k (begin_group (after_groups e data groups monad global_recv pool j)) :=
  rfl

/-- C24: `sock_queue` is zeroed once per batch and never cleared between groups: after the
first `j` groups of `all_group_mask` have been processed, bit `n` of `sock_queue[sid]` is set
if and only if for one of these groups the `sock_mask` computed for packet `n` contained
`sid` (`n` a batch position, `n` and `sid` below the 64 bits of the words). Hence the mask
handed to `pfq_copy_to_endpoint_qbuffs` for a socket and a group is the `sock_queue` entry
accumulated over the groups up to it; in the two-group batch socket 0 is handed slot 0 under
group 1 although group 1 computed the empty mask for packet 0. -/
theorem sock_queue_accumulates (e : batch_env) (data : pfq_percpu_data)
    (groups : Nat → pfq_group) (monad : pfq_lang_monad) (global_recv : Nat) (pool : List qbuff) :
    (∀ sid n, (after_groups e data groups monad global_recv pool 0).sock_queue sid = 0 ∧
      ∀ j, (((after_groups e data groups monad global_recv pool j).sock_queue sid).testBit n
          = true ↔
        ∃ i g, i < j ∧ (batch_groups e data pool)[i]? = some g ∧
          n < pool.length ∧ n < 64 ∧ sid < 64 ∧
          (packet_sock_mask e g n
            (batch_point e data groups monad global_recv pool i g n)).testBit sid = true)) ∧
    (∀ (s : batch_state) (gid : Nat) (c : endpoint_copy),
      c ∈ (process_group e pool.length s gid).copies →
      c ∈ s.copies ∨
        (c.gid = gid ∧ c.mask = (process_group e pool.length s gid).sock_queue c.id)) ∧
    ((packet_sock_mask two_group_env 1 0
        (batch_point two_group_env zero_data two_groups zero_monad 0 two_group_pool 1 1 0)) = 0 ∧
      (pfq_process_batch two_group_env zero_data two_groups zero_monad 0
        two_group_pool).copies.map (fun c => (c.id, c.gid, c.mask)) = [(0, 0, 1), (0, 1, 3)]) := by
  refine ⟨fun sid n => ⟨rfl, fun j => ?_⟩, fun s gid c hc => ?_, by decide, by decide⟩
  · induction j with
    | zero =>
      constructor
      · intro h
        have h0 : (after_groups e data groups monad global_recv pool 0).sock_queue sid = 0 := rfl
        rw [h0] at h
        simp at h
      · rintro ⟨i, g, hi, -⟩
        exact absurd hi (Nat.not_lt_zero i)
    | succ j ih =>
      rw [after_groups_succ]
      rcases hg : (batch_groups e data pool)[j]? with _ | g
      · simp only
        rw [ih]
        constructor
        · rintro ⟨i, g, hi, h⟩
          exact ⟨i, g, by omega, h⟩
        · rintro ⟨i, g, hi, hgi, h⟩
          by_cases hij : i < j
          · exact ⟨i, g, hij, hgi, h⟩
          · have : i = j := by omega
            subst this
            rw [hg] at hgi
            exact absurd hgi (by simp)
      · simp only
        rw [(process_group_fields e pool.length _ g).2.2.1, run_packets_bit]
        have hb : (begin_group (after_groups e data groups monad global_recv pool j)).sock_queue
            = (after_groups e data groups monad global_recv pool j).sock_queue := rfl
        rw [hb, ih]
        constructor
        · rintro (⟨i, g', hi, h⟩ | h)
          · exact ⟨i, g', by omega, h⟩
          · exact ⟨j, g, by omega, hg, h⟩
        · rintro ⟨i, g', hi, hgi, h⟩
          by_cases hij : i < j
          · exact Or.inl ⟨i, g', hij, hgi, h⟩
          · have : i = j := by omega
            subst this
            rw [hg] at hgi
            cases hgi
            exact Or.inr h
  · rw [(process_group_fields e pool.length s gid).2.2.2] at hc
    rcases List.mem_append.mp hc with hc | hc
    · left
      rw [process_packet_copies_run] at hc
      exact hc
    · right
      obtain ⟨id, -, rfl⟩ := List.mem_map.mp hc
      exact ⟨rfl, by rw [(process_group_fields e pool.length s gid).2.2.1]⟩

end Core
namespace Core

theorem u64_testBit_lt (x i : Nat) (h : (u64 x).testBit i = true) : i < 64 := by
  by_contra hcon
  have hlt : u64 x < 2 ^ i :=
    lt_of_lt_of_le (Nat.mod_lt _ (by norm_num)) (Nat.pow_le_pow_right (by norm_num) (by omega))
  rw [Nat.testBit_lt_two_pow hlt] at h
  exact Bool.noConfusion h

theorem steering_cache_invariant_witness :
    cache_inv steer_start.data ∧
    cache_inv (process_packet env_1_3 0 0 steer_start).data ∧
    0 < (process_packet env_1_3 0 0 steer_start).data.sock_cnt ∧
    (∃ a, packet_sock_mask env_1_3 0 0 steer_start = 1 <<< a) ∧
    packet_sock_mask env_1_3 0 0 steer_start = 2 :=
  ⟨cache_inv_zero,
   (steering_cache_invariant env_1_3 0 0 steer_start cache_inv_zero).1,
   by decide,
   (((steering_cache_invariant env_1_3 0 0 steer_start cache_inv_zero).2
      (member_qbuff 100) { member_qbuff 100 with state := 0 } (steer_computation 7)
      { setup_monad env_1_3 0 zero_monad with fanout := steer_on 7 }
      rfl (by decide) rfl rfl rfl rfl rfl).2.2.2 (by decide)).1 rfl,
   by decide⟩

theorem fanout_in_bounds_witness :
    (∀ (c i : Nat), (u64 ((steering_group 3).sock_id c)).testBit i = true →
      i < 64 ∧ i < 64) ∧
    (∀ id, env_1_3.weight id ≤ 1024 / 64) ∧
    cache_inv zero_data ∧
    (∀ c, c ∈ (pfq_process_batch env_1_3 zero_data (fun _ => steering_group 3) zero_monad 0
        (qbuff_run 100 4)).copies → c.id < 64) ∧
    cache_inv (pfq_process_batch env_1_3 zero_data (fun _ => steering_group 3) zero_monad 0
        (qbuff_run 100 4)).data ∧
    (pfq_process_batch env_1_3 zero_data (fun _ => steering_group 3) zero_monad 0
        (qbuff_run 100 4)).data.sock_cnt = 4 :=
  ⟨fun c i h => ⟨u64_testBit_lt _ i h, u64_testBit_lt _ i h⟩,
   fun id => by
     show weight_1_3 id ≤ 1024 / 64
     unfold weight_1_3
     split
     · decide
     · split <;> decide,
   cache_inv_zero,
   (fanout_in_bounds env_1_3 zero_data (fun _ => steering_group 3) zero_monad 0
      (qbuff_run 100 4) 64 1024 64
      (fun _ c i h => ⟨u64_testBit_lt _ i h, u64_testBit_lt _ i h⟩)
      (fun id => by
        show weight_1_3 id ≤ 1024 / 64
        unfold weight_1_3
        split
        · decide
        · split <;> decide)
      cache_inv_zero).2.2.2.2.1,
   (fanout_in_bounds env_1_3 zero_data (fun _ => steering_group 3) zero_monad 0
      (qbuff_run 100 4) 64 1024 64
      (fun _ c i h => ⟨u64_testBit_lt _ i h, u64_testBit_lt _ i h⟩)
      (fun id => by
        show weight_1_3 id ≤ 1024 / 64
        unfold weight_1_3
        split
        · decide
        · split <;> decide)
      cache_inv_zero).2.2.2.2.2,
   by decide⟩

theorem sock_queue_accumulates_witness :
    ((after_groups two_group_env zero_data two_groups zero_monad 0 two_group_pool 2).sock_queue
      0).testBit 0 = true ∧
    ∃ i g, i < 2 ∧ (batch_groups two_group_env zero_data two_group_pool)[i]? = some g ∧
      0 < two_group_pool.length ∧ 0 < 64 ∧ 0 < 64 ∧
      (packet_sock_mask two_group_env g 0
        (batch_point two_group_env zero_data two_groups zero_monad 0 two_group_pool
          i g 0)).testBit 0 = true :=
  ⟨by decide,
   (((sock_queue_accumulates two_group_env zero_data two_groups zero_monad 0
      two_group_pool).1 0 0).2 2).mp (by decide)⟩

end Core

namespace PfQ

/-! ## The action flags in the steering engines -/

/-- The statements for one packet and one group when the steering function returns
`action_clone` without `action_steal` and `action_drop`: they end at the `continue` of the
clone branch, with the eligible sockets ORed into `sock_mask`, the cache untouched, and
`send_to_kernel` set when `action_pass` is set too. -/
theorem steer_packet_clone (e : receive_env) (skb : sk_buff) (gindex : Nat)
    (bpf : Option (sk_buff → Bool)) (vlan : Bool) (steer : sk_buff → Nat → steering_t)
    (st : step_state)
    (hbpf : bpf.any (fun run => !run skb) = false)
    (hvlan : (vlan && !(e.groups gindex).vlan_filter
      (skb.vlan_tci ^^^ (skb.vlan_tci &&& e.VLAN_TAG_PRESENT))) = false)
    (hsteal : (steer skb (e.groups gindex).state).type &&& e.action_steal = 0)
    (hdrop : (steer skb (e.groups gindex).state).type &&& e.action_drop = 0)
    (hclone : (steer skb (e.groups gindex).state).type &&& e.action_clone ≠ 0) :
    steer_packet e skb gindex bpf vlan (some steer) st =
      (step_exit.cloned,
        { local_cache := st.local_cache
          recv := fun g => if g = gindex then st.recv g + 1 else st.recv g
          cb :=
            if (steer skb (e.groups gindex).state).type &&& e.action_pass ≠ 0 then
              { st.cb with send_to_kernel := true }
            else st.cb
          sock_mask := st.sock_mask |||
            (bitwise_foreach (steer skb (e.groups gindex).state).cls).foldl
              (fun m cindex => m ||| Core.u64 ((e.groups gindex).sock_mask cindex)) 0 }) := by
  by_cases hpass : (steer skb (e.groups gindex).state).type &&& e.action_pass = 0
  · simp [steer_packet, hbpf, hvlan, hsteal, hdrop, hclone, hpass]
  · simp [steer_packet, hbpf, hvlan, hsteal, hdrop, hclone, hpass]

theorem steer_packet_or (e : receive_env) (skb : sk_buff) (gindex : Nat)
    (bpf : Option (sk_buff → Bool)) (vlan : Bool)
    (steer_fun : Option (sk_buff → Nat → steering_t)) (st : step_state) :
    ∃ m, (steer_packet e skb gindex bpf vlan steer_fun st).2.sock_mask = st.sock_mask ||| m := by
  by_cases hbpf : bpf.any (fun run => !run skb) = true
  · exact ⟨0, by simp [steer_packet, hbpf]⟩
  by_cases hvlan : (vlan && !(e.groups gindex).vlan_filter
      (skb.vlan_tci ^^^ (skb.vlan_tci &&& e.VLAN_TAG_PRESENT))) = true
  · exact ⟨0, by simp [steer_packet, hbpf, hvlan]⟩
  simp only [Bool.not_eq_true] at hbpf hvlan
  cases steer_fun with
  | none =>
    exact ⟨Core.u64 ((e.groups gindex).sock_mask 0), by simp [steer_packet, hbpf, hvlan]⟩
  | some steer =>
    by_cases hsteal : (steer skb (e.groups gindex).state).type &&& e.action_steal = 0
    swap
    · exact ⟨0, by simp [steer_packet, hbpf, hvlan, hsteal]⟩
    by_cases hpass : (steer skb (e.groups gindex).state).type &&& e.action_pass = 0
    · by_cases hdrop : (steer skb (e.groups gindex).state).type &&& e.action_drop = 0
      swap
      · exact ⟨0, by simp [steer_packet, hbpf, hvlan, hsteal, hdrop, hpass]⟩
      by_cases hclone : (steer skb (e.groups gindex).state).type &&& e.action_clone = 0
      swap
      · exact ⟨_, by rw [steer_packet_clone e skb gindex bpf vlan steer st hbpf hvlan hsteal
          hdrop hclone]⟩
      by_cases hc : (bitwise_foreach (steer skb (e.groups gindex).state).cls).foldl
          (fun m cindex => m ||| Core.u64 ((e.groups gindex).sock_mask cindex)) 0 =
            st.local_cache.eligible_mask
      · by_cases hn : st.local_cache.sock_cnt = 0
        · exact ⟨0, by simp [steer_packet, hbpf, hvlan, hsteal, hdrop, hpass, hclone, hc, hn]⟩
        · exact ⟨_, by simp [steer_packet, hbpf, hvlan, hsteal, hdrop, hpass, hclone, hc, hn]; rfl⟩
      · by_cases hn : (rebuild ((bitwise_foreach (steer skb (e.groups gindex).state).cls).foldl
            (fun m cindex => m ||| Core.u64 ((e.groups gindex).sock_mask cindex)) 0)
            st.local_cache).sock_cnt = 0
        · exact ⟨0, by simp [steer_packet, hbpf, hvlan, hsteal, hdrop, hpass, hclone, hc, hn]⟩
        · exact ⟨_, by simp [steer_packet, hbpf, hvlan, hsteal, hdrop, hpass, hclone, hc, hn]; rfl⟩
    · by_cases hdrop : (steer skb (e.groups gindex).state).type &&& e.action_drop = 0
      swap
      · exact ⟨0, by simp [steer_packet, hbpf, hvlan, hsteal, hdrop, hpass]⟩
      by_cases hclone : (steer skb (e.groups gindex).state).type &&& e.action_clone = 0
      swap
      · exact ⟨_, by rw [steer_packet_clone e skb gindex bpf vlan steer st hbpf hvlan hsteal
          hdrop hclone]⟩
      by_cases hc : (bitwise_foreach (steer skb (e.groups gindex).state).cls).foldl
          (fun m cindex => m ||| Core.u64 ((e.groups gindex).sock_mask cindex)) 0 =
            st.local_cache.eligible_mask
      · by_cases hn : st.local_cache.sock_cnt = 0
        · exact ⟨0, by simp [steer_packet, hbpf, hvlan, hsteal, hdrop, hpass, hclone, hc, hn]⟩
        · exact ⟨_, by simp [steer_packet, hbpf, hvlan, hsteal, hdrop, hpass, hclone, hc, hn]; rfl⟩
      · by_cases hn : (rebuild ((bitwise_foreach (steer skb (e.groups gindex).state).cls).foldl
            (fun m cindex => m ||| Core.u64 ((e.groups gindex).sock_mask cindex)) 0)
            st.local_cache).sock_cnt = 0
        · exact ⟨0, by simp [steer_packet, hbpf, hvlan, hsteal, hdrop, hpass, hclone, hc, hn]⟩
        · exact ⟨_, by simp [steer_packet, hbpf, hvlan, hsteal, hdrop, hpass, hclone, hc, hn]; rfl⟩

theorem steer_packet_mono (e : receive_env) (skb : sk_buff) (gindex : Nat)
    (bpf : Option (sk_buff → Bool)) (vlan : Bool)
    (steer_fun : Option (sk_buff → Nat → steering_t)) (st : step_state) (i : Nat)
    (h : st.sock_mask.testBit i = true) :
    (steer_packet e skb gindex bpf vlan steer_fun st).2.sock_mask.testBit i = true := by
  obtain ⟨m, hm⟩ := steer_packet_or e skb gindex bpf vlan steer_fun st
  rw [hm, Nat.testBit_or, h]
  rfl

theorem v1_groups_mono (e : receive_env) (skb : sk_buff) (i : Nat) :
    ∀ (gs : List Nat) (st : step_state), st.sock_mask.testBit i = true →
      (v1_groups e skb gs st).1.sock_mask.testBit i = true := by
  intro gs
  induction gs with
  | nil => intro st h; exact h
  | cons g rest ih =>
    intro st h
    have hm := steer_packet_mono e skb g (e.groups g).filter (e.groups g).vlan_filters_enabled
      (e.groups g).steering st i h
    unfold v1_groups
    rcases hr : steer_packet e skb g (e.groups g).filter (e.groups g).vlan_filters_enabled
      (e.groups g).steering st with ⟨x, st1⟩
    rw [hr] at hm
    cases x
    · exact ih st1 hm
    · exact hm
    · exact ih st1 hm
    · exact ih st1 hm

end PfQ
namespace PfQ

theorem enqueue_at (j mask : Nat) (q : Nat → Nat) (i : Nat) :
    pfq_enqueue_mask_to_batch j mask q i =
      if i < 64 ∧ mask.testBit i = true then q i ||| Core.u64 (1 <<< j) else q i :=
  Core.mask_to_sock_queue_at j mask q i

/-- In the engine v1 the mask of a cloning group stays in the `sock_mask` of the packet
until the end of the group loop, unless a group steals the packet. -/
theorem v1_groups_clone (e : receive_env) (skb : sk_buff) (gindex : Nat)
    (steer : sk_buff → Nat → steering_t)
    (hbpf : (e.groups gindex).filter.any (fun run => !run skb) = false)
    (hvlan : ((e.groups gindex).vlan_filters_enabled && !(e.groups gindex).vlan_filter
      (skb.vlan_tci ^^^ (skb.vlan_tci &&& e.VLAN_TAG_PRESENT))) = false)
    (hfun : (e.groups gindex).steering = some steer)
    (hsteal : (steer skb (e.groups gindex).state).type &&& e.action_steal = 0)
    (hdrop : (steer skb (e.groups gindex).state).type &&& e.action_drop = 0)
    (hclone : (steer skb (e.groups gindex).state).type &&& e.action_clone ≠ 0) (i : Nat)
    (hi : ((bitwise_foreach (steer skb (e.groups gindex).state).cls).foldl
      (fun m cindex => m ||| Core.u64 ((e.groups gindex).sock_mask cindex)) 0).testBit i
        = true) :
    ∀ (gs : List Nat) (st : step_state), gindex ∈ gs → (v1_groups e skb gs st).2 = false →
      (v1_groups e skb gs st).1.sock_mask.testBit i = true := by
  intro gs
  induction gs with
  | nil => intro st hmem; simp at hmem
  | cons g rest ih =>
    intro st hmem hns
    by_cases hg : g = gindex
    · subst hg
      have hstep := steer_packet_clone e skb g (e.groups g).filter
        (e.groups g).vlan_filters_enabled steer st hbpf hvlan hsteal hdrop hclone
      rw [← hfun] at hstep
      unfold v1_groups
      rw [hstep]
      apply v1_groups_mono
      simp only [Nat.testBit_or, hi, Bool.or_true]
    · have hmem' : gindex ∈ rest := by
        rcases List.mem_cons.mp hmem with h | h
        · exact absurd h.symm hg
        · exact h
      unfold v1_groups at hns ⊢
      rcases hr : steer_packet e skb g (e.groups g).filter (e.groups g).vlan_filters_enabled
        (e.groups g).steering st with ⟨x, st1⟩
      rw [hr] at hns
      cases x
      · exact ih st1 hmem' hns
      · simp at hns
      · exact ih st1 hmem' hns
      · exact ih st1 hmem' hns

/-- C22 (as stated, refuted): one packet, one group whose steering function returns
`action_clone` on class 0, socket 0 joined under class 0. The engine v1 sets bit 0 of
`batch_queue[0]` (and ORs socket 0 into `global_mask`); the engine v2 leaves `global_mask`
at 0. -/
theorem clone_counterexample :
    (engine_v1 (scenario_env (some (constant_steering 4))) [plain_skb 7]
      fresh_receive).batch_queue 0 = 1 ∧
    (engine_v1 (scenario_env (some (constant_steering 4))) [plain_skb 7]
      fresh_receive).global_mask = 1 ∧
    (engine_v2 (scenario_env (some (constant_steering 4))) [plain_skb 7]
      fresh_receive).global_mask = 0 ∧
    (engine_v2 (scenario_env (some (constant_steering 4))) [plain_skb 7]
      fresh_receive).batch_queue 0 = 0 := by
  decide

/-- C22 (amended): when a group's steering function returns `action_clone` without
`action_steal` and `action_drop` for a packet that passes the group's filters, the statements
for that packet and group end at the `continue` of the clone branch with the eligible sockets
ORed into `sock_mask`. In the engine v1, unless a group steals the packet, every such socket
is ORed into `global_mask` and gets the bit of the packet's slot in `batch_queue`. In the
engine v2 no bit is set in `batch_queue` for the packet under that group. -/
theorem clone_in_engines (e : receive_env) (skb : sk_buff) (gindex : Nat)
    (steer : sk_buff → Nat → steering_t)
    (hbpf : (e.groups gindex).filter.any (fun run => !run skb) = false)
    (hvlan : ((e.groups gindex).vlan_filters_enabled && !(e.groups gindex).vlan_filter
      (skb.vlan_tci ^^^ (skb.vlan_tci &&& e.VLAN_TAG_PRESENT))) = false)
    (hfun : (e.groups gindex).steering = some steer)
    (hsteal : (steer skb (e.groups gindex).state).type &&& e.action_steal = 0)
    (hdrop : (steer skb (e.groups gindex).state).type &&& e.action_drop = 0)
    (hclone : (steer skb (e.groups gindex).state).type &&& e.action_clone ≠ 0) :
    (∀ st, (steer_packet e skb gindex (e.groups gindex).filter
        (e.groups gindex).vlan_filters_enabled (e.groups gindex).steering st).1 =
          step_exit.cloned ∧
      (steer_packet e skb gindex (e.groups gindex).filter
        (e.groups gindex).vlan_filters_enabled (e.groups gindex).steering st).2.sock_mask =
          st.sock_mask ||| (bitwise_foreach (steer skb (e.groups gindex).state).cls).foldl
            (fun m cindex => m ||| Core.u64 ((e.groups gindex).sock_mask cindex)) 0) ∧
    (∀ (s : receive_state) (n i : Nat),
      gindex ∈ bitwise_foreach (Core.u64 (e.devmap skb.ifindex skb.rx_queue)) →
      (v1_groups e skb (bitwise_foreach (Core.u64 (e.devmap skb.ifindex skb.rx_queue)))
        { local_cache := s.local_cache, recv := s.recv, cb := s.cb n, sock_mask := 0 }).2
          = false →
      ((bitwise_foreach (steer skb (e.groups gindex).state).cls).foldl
        (fun m cindex => m ||| Core.u64 ((e.groups gindex).sock_mask cindex)) 0).testBit i
          = true →
      (v1_packet e s n skb).global_mask.testBit i = true ∧
      (i < 64 → n < 64 → ((v1_packet e s n skb).batch_queue i).testBit n = true)) ∧
    (∀ (s : receive_state) (n : Nat), (s.cb n).group_mask &&& (1 <<< gindex) ≠ 0 →
      (v2_packet e gindex (e.groups gindex).filter (e.groups gindex).vlan_filters_enabled
        (e.groups gindex).steering s n skb).batch_queue = s.batch_queue) := by
  refine ⟨fun st => ?_, fun s n i hmem hns hi => ?_, fun s n hbit => ?_⟩
  · rw [hfun, steer_packet_clone e skb gindex _ _ steer st hbpf hvlan hsteal hdrop hclone]
    exact ⟨rfl, rfl⟩
  · have hm := v1_groups_clone e skb gindex steer hbpf hvlan hfun hsteal hdrop hclone i hi _
      { local_cache := s.local_cache, recv := s.recv, cb := s.cb n, sock_mask := 0 } hmem hns
    unfold v1_packet
    simp only [hns, Bool.false_eq_true, if_false]
    refine ⟨?_, fun hi64 hn64 => ?_⟩
    · rw [Nat.testBit_or, hm, Bool.or_true]
    · rw [enqueue_at, if_pos ⟨hi64, hm⟩, Nat.testBit_or, Core.u64_bit_testBit]
      simp [hn64]
  · unfold v2_packet
    rw [if_neg hbit, hfun,
      steer_packet_clone e skb gindex _ _ steer _ hbpf hvlan hsteal hdrop hclone]

theorem clone_in_engines_witness :
    ((scenario_env (some (constant_steering 4))).groups 0).steering =
      some (constant_steering 4) ∧
    (constant_steering 4 (plain_skb 7)
      ((scenario_env (some (constant_steering 4))).groups 0).state).type &&&
        (scenario_env (some (constant_steering 4))).action_clone ≠ 0 ∧
    (∀ st, (steer_packet (scenario_env (some (constant_steering 4))) (plain_skb 7) 0
        ((scenario_env (some (constant_steering 4))).groups 0).filter
        ((scenario_env (some (constant_steering 4))).groups 0).vlan_filters_enabled
        ((scenario_env (some (constant_steering 4))).groups 0).steering st).1 =
          step_exit.cloned) ∧
    (v1_packet (scenario_env (some (constant_steering 4))) fresh_receive 0
      (plain_skb 7)).global_mask.testBit 0 = true ∧
    ((v1_packet (scenario_env (some (constant_steering 4))) fresh_receive 0
      (plain_skb 7)).batch_queue 0).testBit 0 = true ∧
    (v2_packet (scenario_env (some (constant_steering 4))) 0
      ((scenario_env (some (constant_steering 4))).groups 0).filter
      ((scenario_env (some (constant_steering 4))).groups 0).vlan_filters_enabled
      ((scenario_env (some (constant_steering 4))).groups 0).steering
      (v2_group_masks (scenario_env (some (constant_steering 4))) [plain_skb 7]
        fresh_receive).1 0 (plain_skb 7)).batch_queue =
      (v2_group_masks (scenario_env (some (constant_steering 4))) [plain_skb 7]
        fresh_receive).1.batch_queue :=
  ⟨rfl, by decide,
   fun st => ((clone_in_engines (scenario_env (some (constant_steering 4))) (plain_skb 7) 0
      (constant_steering 4) rfl rfl rfl (by decide) (by decide) (by decide)).1 st).1,
   ((clone_in_engines (scenario_env (some (constant_steering 4))) (plain_skb 7) 0
      (constant_steering 4) rfl rfl rfl (by decide) (by decide) (by decide)).2.1
        fresh_receive 0 0 (by decide) (by decide) (by decide)).1,
   ((clone_in_engines (scenario_env (some (constant_steering 4))) (plain_skb 7) 0
      (constant_steering 4) rfl rfl rfl (by decide) (by decide) (by decide)).2.1
        fresh_receive 0 0 (by decide) (by decide) (by decide)).2 (by decide) (by decide),
   (clone_in_engines (scenario_env (some (constant_steering 4))) (plain_skb 7) 0
      (constant_steering 4) rfl rfl rfl (by decide) (by decide) (by decide)).2.2
        (v2_group_masks (scenario_env (some (constant_steering 4))) [plain_skb 7]
          fresh_receive).1 0 (by decide)⟩

/-! ## Precedence of the action flags -/

/-- C23 (as stated, refuted): with `action_drop` and `action_pass` both set (no
`action_steal`) the packet is marked `send_to_kernel`, in both engines. -/
theorem drop_and_pass_marks_kernel :
    (3 &&& (scenario_env none).action_drop ≠ 0 ∧ 3 &&& (scenario_env none).action_pass ≠ 0 ∧
      3 &&& (scenario_env none).action_steal = 0) ∧
    ((engine_v1 (scenario_env (some (constant_steering 3))) [plain_skb 7]
      fresh_receive).cb 0).send_to_kernel = true ∧
    ((engine_v2 (scenario_env (some (constant_steering 3))) [plain_skb 7]
      fresh_receive).cb 0).send_to_kernel = true ∧
    (engine_v1 (scenario_env (some (constant_steering 3))) [plain_skb 7]
      fresh_receive).global_mask = 0 ∧
    (engine_v2 (scenario_env (some (constant_steering 3))) [plain_skb 7]
      fresh_receive).global_mask = 0 := by
  decide

/-- C23 (amended): for a packet that passes the filters of a group, the result of the
steering function is handled in this order. With `action_steal` set the packet is only marked
stolen for that group (no `send_to_kernel` mark, no socket). Otherwise `action_pass` marks the
packet `send_to_kernel` whether or not `action_drop` is set, and `action_drop` keeps every
socket of the group away from it. With `action_pass` and `action_clone` set (no steal, no
drop) the pass is applied (and the clone branch is taken). -/
theorem action_flags_order (e : receive_env) (skb : sk_buff) (gindex : Nat)
    (bpf : Option (sk_buff → Bool)) (vlan : Bool) (steer : sk_buff → Nat → steering_t)
    (st : step_state)
    (hbpf : bpf.any (fun run => !run skb) = false)
    (hvlan : (vlan && !(e.groups gindex).vlan_filter
      (skb.vlan_tci ^^^ (skb.vlan_tci &&& e.VLAN_TAG_PRESENT))) = false) :
    ((steer skb (e.groups gindex).state).type &&& e.action_steal ≠ 0 →
      steer_packet e skb gindex bpf vlan (some steer) st =
        (step_exit.stolen,
          { local_cache := st.local_cache
            recv := fun g => if g = gindex then st.recv g + 1 else st.recv g
            cb := { st.cb with stolen_skb := true }
            sock_mask := st.sock_mask })) ∧
    ((steer skb (e.groups gindex).state).type &&& e.action_steal = 0 →
      (steer skb (e.groups gindex).state).type &&& e.action_drop ≠ 0 →
      steer_packet e skb gindex bpf vlan (some steer) st =
        (step_exit.selected,
          { local_cache := st.local_cache
            recv := fun g => if g = gindex then st.recv g + 1 else st.recv g
            cb :=
              if (steer skb (e.groups gindex).state).type &&& e.action_pass ≠ 0 then
                { st.cb with send_to_kernel := true }
              else st.cb
            sock_mask := st.sock_mask })) ∧
    ((steer skb (e.groups gindex).state).type &&& e.action_steal = 0 →
      (steer skb (e.groups gindex).state).type &&& e.action_drop = 0 →
      (steer skb (e.groups gindex).state).type &&& e.action_pass ≠ 0 →
      (steer skb (e.groups gindex).state).type &&& e.action_clone ≠ 0 →
      (steer_packet e skb gindex bpf vlan (some steer) st).1 = step_exit.cloned ∧
      (steer_packet e skb gindex bpf vlan (some steer) st).2.cb =
        { st.cb with send_to_kernel := true }) := by
  refine ⟨fun hs => ?_, fun hs hd => ?_, fun hs hd hp hc => ?_⟩
  · simp [steer_packet, hbpf, hvlan, hs]
  · by_cases hp : (steer skb (e.groups gindex).state).type &&& e.action_pass = 0
    · simp [steer_packet, hbpf, hvlan, hs, hd, hp]
    · simp [steer_packet, hbpf, hvlan, hs, hd, hp]
  · rw [steer_packet_clone e skb gindex bpf vlan steer st hbpf hvlan hs hd hc]
    simp [hp]

theorem action_flags_order_witness :
    (none : Option (sk_buff → Bool)).any (fun run => !run (plain_skb 7)) = false ∧
    steer_packet (scenario_env none) (plain_skb 7) 0 none false (some (constant_steering 3))
      { local_cache := zero_cache, recv := fun _ => 0, cb := fresh_receive.cb 0, sock_mask := 0 }
      =
      (step_exit.selected,
        { local_cache := zero_cache
          recv := fun g => if g = 0 then (fun _ => 0) g + 1 else (fun _ => 0) g
          cb :=
            if (constant_steering 3 (plain_skb 7) ((scenario_env none).groups 0).state).type &&&
                (scenario_env none).action_pass ≠ 0 then
              { fresh_receive.cb 0 with send_to_kernel := true }
            else fresh_receive.cb 0
          sock_mask := 0 }) :=
  ⟨rfl,
   (action_flags_order (scenario_env none) (plain_skb 7) 0 none false (constant_steering 3)
      { local_cache := zero_cache, recv := fun _ => 0, cb := fresh_receive.cb 0, sock_mask := 0 }
      rfl rfl).2.1 (by decide) (by decide)⟩

end PfQ
namespace PfQ

/-! ## Equivalence of the steering engines -/

theorem fold_index_lt (a b : Nat) (h1 : 1 ≤ b) (hb : b < 2 ^ 32) : pfq_fold a b < b := by
  have hc := Core.u32_pred h1 hb
  have hm : ∀ k, k = b → a % k < b := fun k hk => hk ▸ Nat.mod_lt a (by omega)
  unfold pfq_fold
  dsimp only
  rw [hc]
  by_cases h : b &&& (b - 1) = 0
  · rw [if_neg (by simpa using h)]
    exact lt_of_le_of_lt Nat.and_le_right (by omega)
  rw [if_pos h]
  by_cases h3 : b = 3
  · rw [if_pos h3]
    exact hm 3 h3.symm
  rw [if_neg h3]
  by_cases h5 : b = 5
  · rw [if_pos h5]
    exact hm 5 h5.symm
  rw [if_neg h5]
  by_cases h6 : b = 6
  · rw [if_pos h6]
    exact hm 6 h6.symm
  rw [if_neg h6]
  by_cases h9 : b = 9
  · rw [if_pos h9]
    exact hm 9 h9.symm
  rw [if_neg h9]
  by_cases h10 : b = 10
  · rw [if_pos h10]
    exact hm 10 h10.symm
  rw [if_neg h10]
  by_cases h11 : b = 11
  · rw [if_pos h11]
    exact hm 11 h11.symm
  rw [if_neg h11]
  by_cases h12 : b = 12
  · rw [if_pos h12]
    exact hm 12 h12.symm
  rw [if_neg h12]
  by_cases h13 : b = 13
  · rw [if_pos h13]
    exact hm 13 h13.symm
  rw [if_neg h13]
  by_cases h17 : b = 17
  · rw [if_pos h17]
    exact hm 17 h17.symm
  rw [if_neg h17]
  by_cases h18 : b = 18
  · rw [if_pos h18]
    exact hm 18 h18.symm
  rw [if_neg h18]
  by_cases h19 : b = 19
  · rw [if_pos h19]
    exact hm 19 h19.symm
  rw [if_neg h19]
  by_cases h20 : b = 20
  · rw [if_pos h20]
    exact hm 20 h20.symm
  rw [if_neg h20]
  by_cases hr : a &&& Core.u32 (clp2 b + 2 ^ 32 - 1) < b
  · rw [if_pos hr]
    exact hr
  · rw [if_neg hr]
    exact hm b rfl

theorem rebuild_fold_canon (ids : List Nat) (c : local_data) :
    (ids.foldl (fun c id =>
        { c with
          sock_mask := fun i => if i = c.sock_cnt then 1 <<< id else c.sock_mask i
          sock_cnt := c.sock_cnt + 1 }) c).eligible_mask = c.eligible_mask ∧
    (List.range (ids.foldl (fun c id =>
        { c with
          sock_mask := fun i => if i = c.sock_cnt then 1 <<< id else c.sock_mask i
          sock_cnt := c.sock_cnt + 1 }) c).sock_cnt).map
      (ids.foldl (fun (c : local_data) id =>
        { c with
          sock_mask := fun i => if i = c.sock_cnt then 1 <<< id else c.sock_mask i
          sock_cnt := c.sock_cnt + 1 }) c).sock_mask =
      (List.range c.sock_cnt).map c.sock_mask ++ ids.map (fun id => 1 <<< id) := by
  induction ids generalizing c with
  | nil => simp
  | cons id rest ih =>
    rw [List.foldl_cons]
    refine ⟨(ih _).1, ?_⟩
    rw [(ih _).2]
    simp only [List.range_succ, List.map_append, List.map_cons, List.map_nil, if_true,
      List.append_assoc, List.singleton_append]
    congr 1
    apply List.map_congr_left
    intro i hi
    have := List.mem_range.mp hi
    rw [if_neg (by omega)]

theorem rebuild_canon (el : Nat) (c : local_data) :
    cache_canon (rebuild el c) ∧ (rebuild el c).eligible_mask = el := by
  have h := rebuild_fold_canon (bitwise_foreach el) { c with eligible_mask := el, sock_cnt := 0 }
  unfold cache_canon rebuild
  refine ⟨?_, h.1⟩
  rw [h.2, h.1]
  simp

theorem canon_cnt (c : local_data) (h : cache_canon c) :
    c.sock_cnt = (bitwise_foreach c.eligible_mask).length := by
  have := congrArg List.length h
  simpa using this

theorem bits_length_le (m : Nat) : (bitwise_foreach m).length ≤ 64 := by
  unfold bitwise_foreach Core.pfq_bitwise_foreach
  exact le_trans (List.length_filter_le _ _) (by simp)

theorem canon_get (c : local_data) (h : cache_canon c) (i : Nat) (hi : i < c.sock_cnt) :
    c.sock_mask i = 1 <<< (bitwise_foreach c.eligible_mask).getD i 0 := by
  have hlen := canon_cnt c h
  have := congrArg (fun l => l.getD i 0) h
  simp only at this
  rw [List.getD_eq_getElem _ _ (by simpa using hi),
    List.getD_eq_getElem _ _ (by simpa [← hlen] using hi)] at this
  rw [List.getD_eq_getElem _ _ (by rw [← hlen]; exact hi)]
  simpa using this

theorem canon_pick (c : local_data) (h : cache_canon c) (hash : Nat) :
    (if c.sock_cnt ≠ 0 then
      c.sock_mask (pfq_fold (Core.u32 (hash ^^^ (hash >>> 8) ^^^ (hash >>> 16)))
        (Core.u32 c.sock_cnt))
     else 0) = pick c.eligible_mask hash := by
  have hlen := canon_cnt c h
  have hle := bits_length_le c.eligible_mask
  unfold pick
  simp only [← hlen]
  by_cases h0 : c.sock_cnt = 0
  · simp [h0]
  · have hu : Core.u32 c.sock_cnt = c.sock_cnt := Nat.mod_eq_of_lt (by omega)
    rw [if_pos h0, if_pos h0, hu]
    exact canon_get c h _ (fold_index_lt _ _ (by omega) (by omega))

end PfQ
namespace PfQ

/-- The statements for one packet and one group, when the cache satisfies its invariant and
the steering function returns neither `action_steal` nor `action_clone`: they add
`pair_mask` and `pair_pass`, count the packet, keep the invariant of the cache, and leave by
a filter only with an empty mask. -/
theorem steer_packet_canon (e : receive_env) (skb : sk_buff) (gindex : Nat) (st : step_state)
    (hsteer : ∀ steer, (e.groups gindex).steering = some steer →
      (steer skb (e.groups gindex).state).type &&& e.action_steal = 0 ∧
      (steer skb (e.groups gindex).state).type &&& e.action_clone = 0)
    (hc : cache_canon st.local_cache) :
    (steer_packet e skb gindex (e.groups gindex).filter (e.groups gindex).vlan_filters_enabled
      (e.groups gindex).steering st).2.sock_mask = st.sock_mask ||| pair_mask e skb gindex ∧
    (steer_packet e skb gindex (e.groups gindex).filter (e.groups gindex).vlan_filters_enabled
      (e.groups gindex).steering st).2.cb.send_to_kernel =
        (st.cb.send_to_kernel || pair_pass e skb gindex) ∧
    (steer_packet e skb gindex (e.groups gindex).filter (e.groups gindex).vlan_filters_enabled
      (e.groups gindex).steering st).2.cb.group_mask = st.cb.group_mask ∧
    (steer_packet e skb gindex (e.groups gindex).filter (e.groups gindex).vlan_filters_enabled
      (e.groups gindex).steering st).2.recv =
        (fun g => if g = gindex then st.recv g + 1 else st.recv g) ∧
    cache_canon (steer_packet e skb gindex (e.groups gindex).filter
      (e.groups gindex).vlan_filters_enabled (e.groups gindex).steering st).2.local_cache ∧
    (steer_packet e skb gindex (e.groups gindex).filter (e.groups gindex).vlan_filters_enabled
      (e.groups gindex).steering st).1 ≠ step_exit.stolen ∧
    ((steer_packet e skb gindex (e.groups gindex).filter (e.groups gindex).vlan_filters_enabled
      (e.groups gindex).steering st).1 ≠ step_exit.selected → pair_mask e skb gindex = 0) := by
  by_cases hbpf : (e.groups gindex).filter.any (fun run => !run skb) = true
  · simp [steer_packet, pair_mask, pair_pass, pair_filtered, hbpf, hc]
  by_cases hvlan : ((e.groups gindex).vlan_filters_enabled && !(e.groups gindex).vlan_filter
      (skb.vlan_tci ^^^ (skb.vlan_tci &&& e.VLAN_TAG_PRESENT))) = true
  · simp [steer_packet, pair_mask, pair_pass, pair_filtered, hbpf, hvlan, hc]
  simp only [Bool.not_eq_true] at hbpf hvlan
  rcases hfun : (e.groups gindex).steering with _ | steer
  · simp [steer_packet, pair_mask, pair_pass, pair_filtered, hbpf, hvlan, hc, hfun]
  obtain ⟨hs, hcl⟩ := hsteer steer hfun
  by_cases hd : (steer skb (e.groups gindex).state).type &&& e.action_drop = 0
  swap
  · by_cases hp : (steer skb (e.groups gindex).state).type &&& e.action_pass = 0
    · simp [steer_packet, pair_mask, pair_pass, pair_filtered, hbpf, hvlan, hc, hfun, hs, hd, hp]
    · simp [steer_packet, pair_mask, pair_pass, pair_filtered, hbpf, hvlan, hc, hfun, hs, hd, hp]
  by_cases hel : (bitwise_foreach (steer skb (e.groups gindex).state).cls).foldl
      (fun m cindex => m ||| Core.u64 ((e.groups gindex).sock_mask cindex)) 0 =
        st.local_cache.eligible_mask
  · have hpick := canon_pick st.local_cache hc (steer skb (e.groups gindex).state).hash
    by_cases hn : st.local_cache.sock_cnt = 0
    · rw [if_neg (by simpa using hn)] at hpick
      by_cases hp : (steer skb (e.groups gindex).state).type &&& e.action_pass = 0
      · simp [steer_packet, pair_mask, pair_pass, pair_filtered, hbpf, hvlan, hc, hfun, hs, hd,
          hp, hcl, hel, hn, ← hpick]
      · simp [steer_packet, pair_mask, pair_pass, pair_filtered, hbpf, hvlan, hc, hfun, hs, hd,
          hp, hcl, hel, hn, ← hpick]
    · rw [if_pos hn] at hpick
      by_cases hp : (steer skb (e.groups gindex).state).type &&& e.action_pass = 0
      · simp [steer_packet, pair_mask, pair_pass, pair_filtered, hbpf, hvlan, hc, hfun, hs, hd,
          hp, hcl, hel, hn, ← hpick]
      · simp [steer_packet, pair_mask, pair_pass, pair_filtered, hbpf, hvlan, hc, hfun, hs, hd,
          hp, hcl, hel, hn, ← hpick]
  · have hr := rebuild_canon ((bitwise_foreach (steer skb (e.groups gindex).state).cls).foldl
      (fun m cindex => m ||| Core.u64 ((e.groups gindex).sock_mask cindex)) 0) st.local_cache
    have hpick := canon_pick _ hr.1 (steer skb (e.groups gindex).state).hash
    rw [hr.2] at hpick
    by_cases hn : (rebuild ((bitwise_foreach (steer skb (e.groups gindex).state).cls).foldl
      (fun m cindex => m ||| Core.u64 ((e.groups gindex).sock_mask cindex)) 0)
        st.local_cache).sock_cnt = 0
    · rw [if_neg (by simpa using hn)] at hpick
      by_cases hp : (steer skb (e.groups gindex).state).type &&& e.action_pass = 0
      · simp [steer_packet, pair_mask, pair_pass, pair_filtered, hbpf, hvlan, hfun, hs, hd,
          hp, hcl, hel, hn, ← hpick, hr.1]
      · simp [steer_packet, pair_mask, pair_pass, pair_filtered, hbpf, hvlan, hfun, hs, hd,
          hp, hcl, hel, hn, ← hpick, hr.1]
    · rw [if_pos hn] at hpick
      by_cases hp : (steer skb (e.groups gindex).state).type &&& e.action_pass = 0
      · simp [steer_packet, pair_mask, pair_pass, pair_filtered, hbpf, hvlan, hfun, hs, hd,
          hp, hcl, hel, hn, ← hpick, hr.1]
      · simp [steer_packet, pair_mask, pair_pass, pair_filtered, hbpf, hvlan, hfun, hs, hd,
          hp, hcl, hel, hn, ← hpick, hr.1]

end PfQ
namespace PfQ

theorem engine_out_eq (a b : engine_out) (h1 : a.batch_queue = b.batch_queue)
    (h2 : a.global_mask = b.global_mask) (h3 : a.send_to_kernel = b.send_to_kernel)
    (h4 : a.recv = b.recv) : a = b := by
  cases a
  cases b
  simp_all

theorem or_right_comm_nat (a b c : Nat) : (a ||| b) ||| c = (a ||| c) ||| b := by
  rw [Nat.or_assoc, Nat.or_comm b c, ← Nat.or_assoc]

theorem and_bit_eq_zero (m g : Nat) : m &&& (1 <<< g) = 0 ↔ m.testBit g = false := by
  constructor
  · intro h
    have := congrArg (fun x => x.testBit g) h
    simpa [Nat.testBit_and, Core.one_shiftLeft_testBit] using this
  · intro h
    apply Nat.eq_of_testBit_eq
    intro i
    rw [Nat.testBit_and, Core.one_shiftLeft_testBit, Nat.zero_testBit]
    by_cases hgi : g = i
    · subst hgi
      simp [h]
    · simp [hgi]

theorem enqueue_zero (n : Nat) (q : Nat → Nat) : pfq_enqueue_mask_to_batch n 0 q = q := by
  funext i
  rw [enqueue_at]
  simp

theorem enqueue_or (n a m : Nat) (q : Nat → Nat) :
    pfq_enqueue_mask_to_batch n (a ||| m) q =
      pfq_enqueue_mask_to_batch n m (pfq_enqueue_mask_to_batch n a q) := by
  funext i
  simp only [enqueue_at, Nat.testBit_or, Bool.or_eq_true]
  by_cases h64 : i < 64 <;> by_cases ha : a.testBit i = true <;>
    by_cases hm : m.testBit i = true <;> simp [h64, ha, hm, Nat.or_assoc]

theorem enqueue_comm (n m n' m' : Nat) (q : Nat → Nat) :
    pfq_enqueue_mask_to_batch n' m' (pfq_enqueue_mask_to_batch n m q) =
      pfq_enqueue_mask_to_batch n m (pfq_enqueue_mask_to_batch n' m' q) := by
  funext i
  simp only [enqueue_at]
  by_cases h : i < 64 ∧ m.testBit i = true
  · by_cases h' : i < 64 ∧ m'.testBit i = true
    · simp only [if_pos h, if_pos h']
      exact or_right_comm_nat _ _ _
    · simp only [if_pos h, if_neg h']
  · by_cases h' : i < 64 ∧ m'.testBit i = true
    · simp only [if_neg h, if_pos h']
    · simp only [if_neg h, if_neg h']

theorem bool_or_right_comm (a b c : Bool) : ((a || b) || c) = ((a || c) || b) := by
  cases a <;> cases b <;> cases c <;> rfl

/-- The contributions of two pairs commute. -/
theorem pair_step_comm (e : receive_env) (o : engine_out) (n : Nat) (skb : sk_buff) (g : Nat)
    (n' : Nat) (skb' : sk_buff) (g' : Nat) :
    pair_step e (pair_step e o n skb g) n' skb' g' =
      pair_step e (pair_step e o n' skb' g') n skb g := by
  apply engine_out_eq
  · exact enqueue_comm _ _ _ _ _
  · exact or_right_comm_nat _ _ _
  · funext i
    simp only [pair_step]
    by_cases h : i = n
    · by_cases h' : i = n'
      · simp only [if_pos h, if_pos h']
        exact bool_or_right_comm _ _ _
      · simp only [if_pos h, if_neg h']
    · by_cases h' : i = n'
      · simp only [if_neg h, if_pos h']
      · simp only [if_neg h, if_neg h']
  · funext x
    simp only [pair_step]
    by_cases h : x = g
    · by_cases h' : x = g'
      · simp only [if_pos h, if_pos h']
      · simp only [if_pos h, if_neg h']
    · by_cases h' : x = g'
      · simp only [if_neg h, if_pos h']
      · simp only [if_neg h, if_neg h']

theorem pending_out_begin (s : receive_state) (n : Nat) :
    pending_out s n
      { local_cache := s.local_cache, recv := s.recv, cb := s.cb n, sock_mask := 0 } =
      out_of s := by
  apply engine_out_eq
  · simp only [pending_out, out_of]
    exact enqueue_zero n s.batch_queue
  · simp only [pending_out, out_of]
    exact Nat.or_zero s.global_mask
  · funext i
    simp only [pending_out, out_of]
    by_cases h : i = n
    · rw [if_pos h, h]
    · rw [if_neg h]
  · rfl

theorem pending_out_step (e : receive_env) (s : receive_state) (n : Nat) (skb : sk_buff)
    (gindex : Nat) (st : step_state)
    (hsteer : ∀ steer, (e.groups gindex).steering = some steer →
      (steer skb (e.groups gindex).state).type &&& e.action_steal = 0 ∧
      (steer skb (e.groups gindex).state).type &&& e.action_clone = 0)
    (hc : cache_canon st.local_cache) :
    pending_out s n (steer_packet e skb gindex (e.groups gindex).filter
      (e.groups gindex).vlan_filters_enabled (e.groups gindex).steering st).2 =
      pair_step e (pending_out s n st) n skb gindex := by
  obtain ⟨h1, h2, -, h4, -, -, -⟩ := steer_packet_canon e skb gindex st hsteer hc
  apply engine_out_eq
  · simp only [pending_out, pair_step]
    rw [h1, enqueue_or]
  · simp only [pending_out, pair_step]
    rw [h1, Nat.or_assoc]
  · funext i
    simp only [pending_out, pair_step]
    by_cases h : i = n
    · rw [if_pos h, if_pos h, if_pos h, h2]
    · rw [if_neg h, if_neg h, if_neg h]
  · simp only [pending_out, pair_step]
    rw [h4]

/-- The group loop of the engine v1 for one packet adds the contributions of its groups, in
the order of the loop, and is not left by `goto next_skb`. -/
theorem v1_groups_out (e : receive_env) (s : receive_state) (n : Nat) (skb : sk_buff)
    (hsteer : ∀ g steer, (e.groups g).steering = some steer →
      (steer skb (e.groups g).state).type &&& e.action_steal = 0 ∧
      (steer skb (e.groups g).state).type &&& e.action_clone = 0)
    (gs : List Nat) (st : step_state) (hc : cache_canon st.local_cache) :
    (v1_groups e skb gs st).2 = false ∧
    cache_canon (v1_groups e skb gs st).1.local_cache ∧
    pending_out s n (v1_groups e skb gs st).1 =
      gs.foldl (fun o g => pair_step e o n skb g) (pending_out s n st) := by
  induction gs generalizing st with
  | nil => exact ⟨rfl, hc, rfl⟩
  | cons g rest ih =>
    have hstep := pending_out_step e s n skb g st (hsteer g) hc
    obtain ⟨-, -, -, -, h5, h6, -⟩ := steer_packet_canon e skb g st (hsteer g) hc
    rcases hr : steer_packet e skb g (e.groups g).filter (e.groups g).vlan_filters_enabled
      (e.groups g).steering st with ⟨x, st1⟩
    rw [hr] at hstep h5 h6
    have hv : v1_groups e skb (g :: rest) st = v1_groups e skb rest st1 := by
      cases x
      · simp [v1_groups, hr]
      · exact absurd rfl h6
      · simp [v1_groups, hr]
      · simp [v1_groups, hr]
    rw [hv, List.foldl_cons, ← hstep]
    exact ih st1 h5

theorem v1_packet_out (e : receive_env) (s : receive_state) (n : Nat) (skb : sk_buff)
    (hsteer : ∀ g steer, (e.groups g).steering = some steer →
      (steer skb (e.groups g).state).type &&& e.action_steal = 0 ∧
      (steer skb (e.groups g).state).type &&& e.action_clone = 0)
    (hc : cache_canon s.local_cache) :
    out_of (v1_packet e s n skb) =
      (bitwise_foreach (Core.u64 (e.devmap skb.ifindex skb.rx_queue))).foldl
        (fun o g => pair_step e o n skb g) (out_of s) ∧
    cache_canon (v1_packet e s n skb).local_cache := by
  obtain ⟨h1, h2, h3⟩ := v1_groups_out e s n skb hsteer
    (bitwise_foreach (Core.u64 (e.devmap skb.ifindex skb.rx_queue)))
    { local_cache := s.local_cache, recv := s.recv, cb := s.cb n, sock_mask := 0 } hc
  rw [pending_out_begin] at h3
  rw [← h3]
  unfold v1_packet
  simp only [h1, Bool.false_eq_true, if_false]
  refine ⟨?_, h2⟩
  apply engine_out_eq
  · rfl
  · rfl
  · funext i
    simp only [pending_out, out_of]
    by_cases h : i = n
    · rw [if_pos h, if_pos h]
    · rw [if_neg h, if_neg h]
  · rfl

theorem engine_v1_out (e : receive_env)
    (hsteer : ∀ g steer skb, (e.groups g).steering = some steer →
      (steer skb (e.groups g).state).type &&& e.action_steal = 0 ∧
      (steer skb (e.groups g).state).type &&& e.action_clone = 0)
    (L : List (Nat × sk_buff)) (s : receive_state) (hc : cache_canon s.local_cache) :
    out_of (L.foldl (fun s p => v1_packet e s p.1 p.2) s) =
      L.foldl (fun o p =>
        (bitwise_foreach (Core.u64 (e.devmap p.2.ifindex p.2.rx_queue))).foldl
          (fun o g => pair_step e o p.1 p.2 g) o) (out_of s) := by
  induction L generalizing s with
  | nil => rfl
  | cons p rest ih =>
    obtain ⟨h1, h2⟩ := v1_packet_out e s p.1 p.2 (fun g steer => hsteer g steer p.2) hc
    rw [List.foldl_cons, List.foldl_cons, ih _ h2, h1]

end PfQ
namespace PfQ

/-- The body of the inner loop of the engine v2 adds the contribution of the pair when the
group is in the group mask of the packet, and never changes a stored group mask. -/
theorem v2_packet_out (e : receive_env) (g : Nat) (s : receive_state) (n : Nat) (skb : sk_buff)
    (hsteer : ∀ steer, (e.groups g).steering = some steer →
      (steer skb (e.groups g).state).type &&& e.action_steal = 0 ∧
      (steer skb (e.groups g).state).type &&& e.action_clone = 0)
    (hc : cache_canon s.local_cache) :
    out_of (v2_packet e g (e.groups g).filter (e.groups g).vlan_filters_enabled
      (e.groups g).steering s n skb) =
      (if ((s.cb n).group_mask).testBit g = true then pair_step e (out_of s) n skb g
       else out_of s) ∧
    cache_canon (v2_packet e g (e.groups g).filter (e.groups g).vlan_filters_enabled
      (e.groups g).steering s n skb).local_cache ∧
    ∀ i, ((v2_packet e g (e.groups g).filter (e.groups g).vlan_filters_enabled
      (e.groups g).steering s n skb).cb i).group_mask = (s.cb i).group_mask := by
  by_cases hg : (s.cb n).group_mask &&& (1 <<< g) = 0
  · have hb := (and_bit_eq_zero _ _).mp hg
    simp [v2_packet, hg, hb, hc]
  have hb : ((s.cb n).group_mask).testBit g = true := by
    rcases hv : ((s.cb n).group_mask).testBit g with _ | _
    · exact absurd ((and_bit_eq_zero _ _).mpr hv) hg
    · rfl
  obtain ⟨h1, h2, h3, h4, h5, h6, h7⟩ := steer_packet_canon e skb g
    { local_cache := s.local_cache, recv := s.recv, cb := s.cb n, sock_mask := 0 } hsteer hc
  rcases hr : steer_packet e skb g (e.groups g).filter (e.groups g).vlan_filters_enabled
    (e.groups g).steering
    { local_cache := s.local_cache, recv := s.recv, cb := s.cb n, sock_mask := 0 }
    with ⟨x, st⟩
  rw [hr] at h1 h2 h3 h4 h5 h6 h7
  simp only [Nat.zero_or] at h1 h2 h3 h4 h5 h6 h7
  rw [if_pos hb]
  have hcb : ∀ i, ((fun i => if i = n then st.cb else s.cb i) i).group_mask =
      (s.cb i).group_mask := by
    intro i
    by_cases hi : i = n
    · simp only [if_pos hi]
      rw [h3, hi]
    · simp only [if_neg hi]
  have hstk : (fun i => ((fun i => if i = n then st.cb else s.cb i) i).send_to_kernel) =
      fun i => if i = n then (s.cb i).send_to_kernel || pair_pass e skb g
        else (s.cb i).send_to_kernel := by
    funext i
    by_cases hi : i = n
    · simp only [if_pos hi]
      rw [h2, hi]
    · simp only [if_neg hi]
  have hsel : v2_packet e g (e.groups g).filter (e.groups g).vlan_filters_enabled
      (e.groups g).steering s n skb =
      (if x = step_exit.selected then
        { local_cache := st.local_cache
          recv := st.recv
          cb := fun i => if i = n then st.cb else s.cb i
          batch_queue := pfq_enqueue_mask_to_batch n st.sock_mask s.batch_queue
          global_mask := s.global_mask ||| st.sock_mask }
      else
        { s with
          local_cache := st.local_cache
          recv := st.recv
          cb := fun i => if i = n then st.cb else s.cb i }) := by
    cases x <;> simp [v2_packet, hg, hr]
  rw [hsel]
  by_cases hx : x = step_exit.selected
  · rw [if_pos hx]
    refine ⟨?_, h5, hcb⟩
    apply engine_out_eq
    · simp only [out_of, pair_step, h1]
    · simp only [out_of, pair_step, h1]
    · simp only [out_of, pair_step]
      exact hstk
    · simp only [out_of, pair_step, h4]
  · rw [if_neg hx]
    have h0 := h7 hx
    refine ⟨?_, h5, hcb⟩
    apply engine_out_eq
    · simp only [out_of, pair_step, h0]
      exact (enqueue_zero _ _).symm
    · simp only [out_of, pair_step, h0]
      exact (Nat.or_zero _).symm
    · simp only [out_of, pair_step]
      exact hstk
    · simp only [out_of, pair_step, h4]

/-- The inner loop of the engine v2 over a list of queued packets whose group masks are
stored in the control blocks. -/
theorem v2_packets_out (e : receive_env) (g : Nat)
    (hsteer : ∀ g steer skb, (e.groups g).steering = some steer →
      (steer skb (e.groups g).state).type &&& e.action_steal = 0 ∧
      (steer skb (e.groups g).state).type &&& e.action_clone = 0)
    (L : List (Nat × sk_buff)) (s : receive_state) (hc : cache_canon s.local_cache)
    (hm : ∀ p, p ∈ L →
      (s.cb p.1).group_mask = Core.u64 (e.devmap p.2.ifindex p.2.rx_queue)) :
    out_of (L.foldl (fun s p => v2_packet e g (e.groups g).filter
      (e.groups g).vlan_filters_enabled (e.groups g).steering s p.1 p.2) s) =
      L.foldl (fun o p =>
        if (Core.u64 (e.devmap p.2.ifindex p.2.rx_queue)).testBit g = true then
          pair_step e o p.1 p.2 g
        else o) (out_of s) ∧
    cache_canon (L.foldl (fun s p => v2_packet e g (e.groups g).filter
      (e.groups g).vlan_filters_enabled (e.groups g).steering s p.1 p.2) s).local_cache ∧
    ∀ i, ((L.foldl (fun s p => v2_packet e g (e.groups g).filter
      (e.groups g).vlan_filters_enabled (e.groups g).steering s p.1 p.2) s).cb i).group_mask =
        (s.cb i).group_mask := by
  induction L generalizing s with
  | nil => exact ⟨rfl, hc, fun _ => rfl⟩
  | cons p rest ih =>
    obtain ⟨h1, h2, h3⟩ := v2_packet_out e g s p.1 p.2 (fun steer => hsteer g steer p.2) hc
    rw [hm p (List.mem_cons_self _ _)] at h1
    obtain ⟨i1, i2, i3⟩ := ih (v2_packet e g (e.groups g).filter
      (e.groups g).vlan_filters_enabled (e.groups g).steering s p.1 p.2) h2
      (fun q hq => by rw [h3]; exact hm q (List.mem_cons_of_mem _ hq))
    simp only [List.foldl_cons]
    rw [i1, h1]
    exact ⟨rfl, i2, fun i => by rw [i3, h3]⟩

/-- The loop over the groups of the engine v2. -/
theorem v2_groups_out (e : receive_env)
    (hsteer : ∀ g steer skb, (e.groups g).steering = some steer →
      (steer skb (e.groups g).state).type &&& e.action_steal = 0 ∧
      (steer skb (e.groups g).state).type &&& e.action_clone = 0)
    (queue : List sk_buff) (gs : List Nat) (s : receive_state)
    (hc : cache_canon s.local_cache)
    (hm : ∀ p, p ∈ queue.enum →
      (s.cb p.1).group_mask = Core.u64 (e.devmap p.2.ifindex p.2.rx_queue)) :
    out_of (gs.foldl (v2_group e queue) s) =
      gs.foldl (fun o g => queue.enum.foldl (fun o p =>
        if (Core.u64 (e.devmap p.2.ifindex p.2.rx_queue)).testBit g = true then
          pair_step e o p.1 p.2 g
        else o) o) (out_of s) := by
  induction gs generalizing s with
  | nil => rfl
  | cons g rest ih =>
    obtain ⟨h1, h2, h3⟩ := v2_packets_out e g hsteer queue.enum s hc hm
    simp only [List.foldl_cons]
    have hv : v2_group e queue s g = queue.enum.foldl (fun s p => v2_packet e g
        (e.groups g).filter (e.groups g).vlan_filters_enabled (e.groups g).steering s p.1 p.2)
        s := rfl
    rw [ih (v2_group e queue s g) (by rw [hv]; exact h2)
      (fun q hq => by rw [hv, h3]; exact hm q hq), hv, h1]

/-- The first loop of the engine v2 stores the group mask of every queued packet and
collects the masks; it leaves the rest of the state as it is. -/
theorem v2_group_masks_fold (e : receive_env) (L : List (Nat × sk_buff))
    (r : receive_state × Nat) (hnd : (L.map Prod.fst).Nodup) :
    out_of (L.foldl (fun (r : receive_state × Nat) p =>
      ({ r.1 with
          cb := fun i =>
            if i = p.1 then
              { r.1.cb p.1 with group_mask := Core.u64 (e.devmap p.2.ifindex p.2.rx_queue) }
            else r.1.cb i },
        r.2 ||| Core.u64 (e.devmap p.2.ifindex p.2.rx_queue))) r).1 = out_of r.1 ∧
    (L.foldl (fun (r : receive_state × Nat) p =>
      ({ r.1 with
          cb := fun i =>
            if i = p.1 then
              { r.1.cb p.1 with group_mask := Core.u64 (e.devmap p.2.ifindex p.2.rx_queue) }
            else r.1.cb i },
        r.2 ||| Core.u64 (e.devmap p.2.ifindex p.2.rx_queue))) r).1.local_cache =
      r.1.local_cache ∧
    (∀ i, i ∉ L.map Prod.fst →
      (L.foldl (fun (r : receive_state × Nat) p =>
      ({ r.1 with
          cb := fun i =>
            if i = p.1 then
              { r.1.cb p.1 with group_mask := Core.u64 (e.devmap p.2.ifindex p.2.rx_queue) }
            else r.1.cb i },
        r.2 ||| Core.u64 (e.devmap p.2.ifindex p.2.rx_queue))) r).1.cb i = r.1.cb i) ∧
    (∀ p, p ∈ L →
      ((L.foldl (fun (r : receive_state × Nat) p =>
      ({ r.1 with
          cb := fun i =>
            if i = p.1 then
              { r.1.cb p.1 with group_mask := Core.u64 (e.devmap p.2.ifindex p.2.rx_queue) }
            else r.1.cb i },
        r.2 ||| Core.u64 (e.devmap p.2.ifindex p.2.rx_queue))) r).1.cb p.1).group_mask =
        Core.u64 (e.devmap p.2.ifindex p.2.rx_queue)) ∧
    (∀ g, (r.2.testBit g = true ∨
        ∃ p, p ∈ L ∧ (Core.u64 (e.devmap p.2.ifindex p.2.rx_queue)).testBit g = true) →
      (L.foldl (fun (r : receive_state × Nat) p =>
      ({ r.1 with
          cb := fun i =>
            if i = p.1 then
              { r.1.cb p.1 with group_mask := Core.u64 (e.devmap p.2.ifindex p.2.rx_queue) }
            else r.1.cb i },
        r.2 ||| Core.u64 (e.devmap p.2.ifindex p.2.rx_queue))) r).2.testBit g = true) := by
  induction L generalizing r with
  | nil =>
    refine ⟨rfl, rfl, fun _ _ => rfl, fun p hp => absurd hp (List.not_mem_nil _), ?_⟩
    rintro g (h | ⟨p, hp, -⟩)
    · exact h
    · exact absurd hp (List.not_mem_nil _)
  | cons p rest ih =>
    rw [List.map_cons, List.nodup_cons] at hnd
    obtain ⟨i1, i2, i3, i4, i5⟩ := ih
      ({ r.1 with
          cb := fun i =>
            if i = p.1 then
              { r.1.cb p.1 with group_mask := Core.u64 (e.devmap p.2.ifindex p.2.rx_queue) }
            else r.1.cb i },
        r.2 ||| Core.u64 (e.devmap p.2.ifindex p.2.rx_queue)) hnd.2
    simp only [List.foldl_cons]
    refine ⟨?_, ?_, ?_, ?_, ?_⟩
    · rw [i1]
      apply engine_out_eq
      · rfl
      · rfl
      · funext i
        simp only [out_of]
        by_cases hi : i = p.1
        · simp only [if_pos hi]
          rw [hi]
        · simp only [if_neg hi]
      · rfl
    · rw [i2]
    · intro i hi
      rw [List.map_cons, List.mem_cons, not_or] at hi
      rw [i3 i hi.2]
      simp only [if_neg hi.1]
    · intro q hq
      rcases List.mem_cons.mp hq with h | h
      · subst h
        rw [i3 q.1 hnd.1]
        simp only [if_true]
      · exact i4 q h
    · rintro g (h | ⟨q, hq, h⟩)
      · exact i5 g (Or.inl (by rw [Nat.testBit_or, h]; rfl))
      · rcases List.mem_cons.mp hq with hqp | hqp
        · subst hqp
          exact i5 g (Or.inl (by rw [Nat.testBit_or, h, Bool.or_true]))
        · exact i5 g (Or.inr ⟨q, hqp, h⟩)

end PfQ
namespace PfQ

theorem foldl_step_swap {α β γ : Type} (f : β → α → β) (g : β → γ → β)
    (h : ∀ o a c, g (f o a) c = f (g o c) a) (lc : List γ) (o : β) (a : α) :
    lc.foldl g (f o a) = f (lc.foldl g o) a := by
  induction lc generalizing o with
  | nil => rfl
  | cons c rc ih =>
    simp only [List.foldl_cons]
    rw [h, ih]

theorem foldl_foldl_swap {α β γ : Type} (f : β → α → β) (g : β → γ → β)
    (h : ∀ o a c, g (f o a) c = f (g o c) a) (la : List α) (lc : List γ) (o : β) :
    lc.foldl g (la.foldl f o) = la.foldl f (lc.foldl g o) := by
  induction la generalizing o with
  | nil => rfl
  | cons a rest ih =>
    simp only [List.foldl_cons]
    rw [ih, foldl_step_swap f g h]

theorem foldl_keep {α β : Type} (l : List α) (o : β) : l.foldl (fun o _ => o) o = o := by
  induction l with
  | nil => rfl
  | cons a rest ih => exact ih

theorem foldl_exchange_aux {α β γ : Type} (F : β → α → γ → β)
    (hF : ∀ o a c a' c', F (F o a c) a' c' = F (F o a' c') a c)
    (A : List α) (a : α) (C : List γ) (o : β) :
    C.foldl (fun o c => A.foldl (fun o a' => F o a' c) (F o a c)) o =
      C.foldl (fun o c => A.foldl (fun o a' => F o a' c) o) (C.foldl (fun o c => F o a c) o) := by
  induction C generalizing o with
  | nil => rfl
  | cons c rest ih =>
    simp only [List.foldl_cons]
    rw [ih]
    congr 1
    exact foldl_foldl_swap (fun o a' => F o a' c) (fun o c' => F o a c')
      (fun o a' c' => hF o a' c a c') A rest (F o a c)

/-- Two nested loops whose bodies commute can be exchanged. -/
theorem foldl_exchange {α β γ : Type} (F : β → α → γ → β)
    (hF : ∀ o a c a' c', F (F o a c) a' c' = F (F o a' c') a c)
    (A : List α) (C : List γ) (o : β) :
    A.foldl (fun o a => C.foldl (fun o c => F o a c) o) o =
      C.foldl (fun o c => A.foldl (fun o a => F o a c) o) o := by
  induction A generalizing o with
  | nil =>
    simp only [List.foldl_nil]
    exact (foldl_keep C o).symm
  | cons a rest ih =>
    simp only [List.foldl_cons]
    rw [ih, foldl_exchange_aux F hF rest a C o]

theorem foldl_filter_ite {α β : Type} (p : α → Bool) (f : β → α → β) (l : List α) (o : β) :
    (l.filter p).foldl f o = l.foldl (fun o a => if p a = true then f o a else o) o := by
  induction l generalizing o with
  | nil => rfl
  | cons a rest ih =>
    by_cases h : p a = true
    · rw [List.filter_cons_of_pos h, List.foldl_cons, List.foldl_cons, if_pos h]
      exact ih _
    · rw [List.filter_cons_of_neg h, List.foldl_cons, if_neg h]
      exact ih _

theorem foldl_bits (m : Nat) {β : Type} (f : β → Nat → β) (o : β) :
    (bitwise_foreach m).foldl f o =
      (List.range 64).foldl (fun o g => if m.testBit g = true then f o g else o) o :=
  foldl_filter_ite (fun i => m.testBit i) f (List.range 64) o

theorem foldl_skip (e : receive_env) (g : Nat) (L : List (Nat × sk_buff)) (o : engine_out)
    (h : ∀ p, p ∈ L → (Core.u64 (e.devmap p.2.ifindex p.2.rx_queue)).testBit g = false) :
    L.foldl (fun o p =>
      if (Core.u64 (e.devmap p.2.ifindex p.2.rx_queue)).testBit g = true then
        pair_step e o p.1 p.2 g
      else o) o = o := by
  induction L generalizing o with
  | nil => rfl
  | cons p rest ih =>
    simp only [List.foldl_cons]
    rw [if_neg (by rw [h p (List.mem_cons_self _ _)]; exact Bool.false_ne_true)]
    exact ih o (fun q hq => h q (List.mem_cons_of_mem _ hq))

/-- The two engines give the same compared state when no steering function returns
`action_steal` or `action_clone` and the cache satisfies its invariant. -/
theorem engines_out_eq (e : receive_env) (queue : List sk_buff) (s : receive_state)
    (hsteer : ∀ g steer skb, (e.groups g).steering = some steer →
      (steer skb (e.groups g).state).type &&& e.action_steal = 0 ∧
      (steer skb (e.groups g).state).type &&& e.action_clone = 0)
    (hcache : cache_canon s.local_cache) :
    out_of (engine_v1 e queue s) = out_of (engine_v2 e queue s) := by
  have hnd : (queue.enum.map Prod.fst).Nodup := by
    rw [List.enum_map_fst]
    exact List.nodup_range _
  obtain ⟨m1, m2, -, m4, m5⟩ := v2_group_masks_fold e queue.enum (s, 0) hnd
  have hm : v2_group_masks e queue s = queue.enum.foldl
      (fun (r : receive_state × Nat) p =>
      ({ r.1 with
          cb := fun i =>
            if i = p.1 then
              { r.1.cb p.1 with group_mask := Core.u64 (e.devmap p.2.ifindex p.2.rx_queue) }
            else r.1.cb i },
        r.2 ||| Core.u64 (e.devmap p.2.ifindex p.2.rx_queue))) (s, 0) := rfl
  rw [← hm] at m1 m2 m4 m5
  have h2 := v2_groups_out e hsteer queue (bitwise_foreach (v2_group_masks e queue s).2)
    (v2_group_masks e queue s).1 (by rw [m2]; exact hcache) m4
  have h1 := engine_v1_out e hsteer queue.enum s hcache
  have e1 : engine_v1 e queue s = queue.enum.foldl (fun s p => v1_packet e s p.1 p.2) s := rfl
  have e2 : engine_v2 e queue s =
      (bitwise_foreach (v2_group_masks e queue s).2).foldl (v2_group e queue)
        (v2_group_masks e queue s).1 := rfl
  rw [e1, e2, h1, h2, m1]
  simp only [foldl_bits]
  have hskip : (fun (o : engine_out) (g : Nat) =>
      if (v2_group_masks e queue s).2.testBit g = true then
        queue.enum.foldl (fun o p =>
          if (Core.u64 (e.devmap p.2.ifindex p.2.rx_queue)).testBit g = true then
            pair_step e o p.1 p.2 g
          else o) o
      else o) =
      fun o g => queue.enum.foldl (fun o p =>
          if (Core.u64 (e.devmap p.2.ifindex p.2.rx_queue)).testBit g = true then
            pair_step e o p.1 p.2 g
          else o) o := by
    funext o g
    by_cases hg : (v2_group_masks e queue s).2.testBit g = true
    · rw [if_pos hg]
    · rw [if_neg hg]
      symm
      apply foldl_skip
      intro p hp
      rcases hv : (Core.u64 (e.devmap p.2.ifindex p.2.rx_queue)).testBit g with _ | _
      · rfl
      · exact absurd (m5 g (Or.inr ⟨p, hp, hv⟩)) hg
  rw [hskip]
  exact foldl_exchange
    (fun o (p : Nat × sk_buff) g =>
      if (Core.u64 (e.devmap p.2.ifindex p.2.rx_queue)).testBit g = true then
        pair_step e o p.1 p.2 g
      else o)
    (fun o a c a' c' => by
      by_cases h : (Core.u64 (e.devmap a.2.ifindex a.2.rx_queue)).testBit c = true
      · by_cases h' : (Core.u64 (e.devmap a'.2.ifindex a'.2.rx_queue)).testBit c' = true
        · simp only [if_pos h, if_pos h']
          exact pair_step_comm _ _ _ _ _ _ _ _
        · simp only [if_pos h, if_neg h']
      · by_cases h' : (Core.u64 (e.devmap a'.2.ifindex a'.2.rx_queue)).testBit c' = true
        · simp only [if_neg h, if_pos h']
        · simp only [if_neg h, if_neg h'])
    queue.enum (List.range 64) (out_of s)

/-- C29: for every prefetch queue, device map and group table whose steering functions
never return `action_steal` or `action_clone`, and every start state whose cache holds the
bits of `eligible_mask` in ascending order in `sock_mask[0 .. sock_cnt)`, the engine v1
(packet-major) and the engine v2 (group-major) compute the same `batch_queue[]`, the same
`global_mask`, the same `send_to_kernel` marks and the same `recv` counters of the groups. -/
theorem engines_agree (e : receive_env) (queue : List sk_buff) (s : receive_state)
    (hsteer : ∀ g steer skb, (e.groups g).steering = some steer →
      (steer skb (e.groups g).state).type &&& e.action_steal = 0 ∧
      (steer skb (e.groups g).state).type &&& e.action_clone = 0)
    (hcache : cache_canon s.local_cache) :
    (engine_v1 e queue s).batch_queue = (engine_v2 e queue s).batch_queue ∧
    (engine_v1 e queue s).global_mask = (engine_v2 e queue s).global_mask ∧
    (∀ n, ((engine_v1 e queue s).cb n).send_to_kernel =
      ((engine_v2 e queue s).cb n).send_to_kernel) ∧
    (engine_v1 e queue s).recv = (engine_v2 e queue s).recv := by
  have h := engines_out_eq e queue s hsteer hcache
  exact ⟨congrArg engine_out.batch_queue h, congrArg engine_out.global_mask h,
    fun n => congrFun (congrArg engine_out.send_to_kernel h) n, congrArg engine_out.recv h⟩

theorem engines_agree_witness :
    cache_canon fresh_receive.local_cache ∧
    (engine_v1 (scenario_env (some (constant_steering 2))) [plain_skb 7, plain_skb 8]
      fresh_receive).batch_queue =
    (engine_v2 (scenario_env (some (constant_steering 2))) [plain_skb 7, plain_skb 8]
      fresh_receive).batch_queue ∧
    (engine_v1 (scenario_env (some (constant_steering 2))) [plain_skb 7, plain_skb 8]
      fresh_receive).global_mask =
    (engine_v2 (scenario_env (some (constant_steering 2))) [plain_skb 7, plain_skb 8]
      fresh_receive).global_mask ∧
    (engine_v1 (scenario_env (some (constant_steering 2))) [plain_skb 7, plain_skb 8]
      fresh_receive).batch_queue 0 = 3 :=
  ⟨by unfold cache_canon; decide,
   (engines_agree (scenario_env (some (constant_steering 2))) [plain_skb 7, plain_skb 8]
      fresh_receive
      (fun g steer skb h => by
        have hs : steer = constant_steering 2 := (Option.some.inj h).symm
        subst hs
        exact ⟨(by decide : (2 : Nat) &&& 8 = 0), (by decide : (2 : Nat) &&& 4 = 0)⟩)
      (by unfold cache_canon; decide)).1,
   (engines_agree (scenario_env (some (constant_steering 2))) [plain_skb 7, plain_skb 8]
      fresh_receive
      (fun g steer skb h => by
        have hs : steer = constant_steering 2 := (Option.some.inj h).symm
        subst hs
        exact ⟨(by decide : (2 : Nat) &&& 8 = 0), (by decide : (2 : Nat) &&& 4 = 0)⟩)
      (by unfold cache_canon; decide)).2.1,
   by decide⟩

end PfQ

namespace RTP

/-! ## Direction independence of the VoIP heuristic -/

theorem swap_index_ip (ip udp j : Nat) (hu : ip + 20 ≤ udp) :
    (j < 12 → swap_index ip udp (ip + j) = ip + j) ∧
    (12 ≤ j → j < 16 → swap_index ip udp (ip + j) = ip + (j + 4)) ∧
    (16 ≤ j → j < 20 → swap_index ip udp (ip + j) = ip + (j - 4)) := by
  unfold swap_index
  refine ⟨fun h => ?_, fun h1 h2 => ?_, fun h1 h2 => ?_⟩
  · rw [if_neg (by omega), if_neg (by omega), if_neg (by omega), if_neg (by omega)]
  · rw [if_pos (by omega)]
    omega
  · rw [if_neg (by omega), if_pos (by omega)]
    omega

theorem swap_index_udp (ip udp j : Nat) (hu : ip + 20 ≤ udp) :
    (j < 2 → swap_index ip udp (udp + j) = udp + (j + 2)) ∧
    (2 ≤ j → j < 4 → swap_index ip udp (udp + j) = udp + (j - 2)) ∧
    (4 ≤ j → swap_index ip udp (udp + j) = udp + j) := by
  unfold swap_index
  refine ⟨fun h => ?_, fun h1 h2 => ?_, fun h => ?_⟩
  · rw [if_neg (by omega), if_neg (by omega), if_pos (by omega)]
    omega
  · rw [if_neg (by omega), if_neg (by omega), if_neg (by omega), if_pos (by omega)]
    omega
  · rw [if_neg (by omega), if_neg (by omega), if_neg (by omega), if_neg (by omega)]

/-- The function `heuristic_voip` in terms of the fields it reads. -/
theorem heuristic_voip_fields (big_endian : Bool) (buff : qbuff) (steer : Bool) :
    heuristic_voip big_endian buff steer =
      if buff.h_proto = htons_ETH_P_IP big_endian ∧ buff.mac_len + 20 ≤ buff.len ∧
          buff.mac_len + ((buff.data (buff.mac_len + 0) % 256 % 16) <<< 2) + 20 ≤ buff.len then
        voip_fields big_endian steer
          (buff.data (buff.mac_len + 9) % 256)
          (buff.data (buff.mac_len + ((buff.data (buff.mac_len + 0) % 256 % 16) <<< 2) + 8) % 256)
          (buff.data (buff.mac_len + ((buff.data (buff.mac_len + 0) % 256 % 16) <<< 2) + 9) % 256)
          (load32 big_endian (fun i => buff.data (buff.mac_len + i) % 256) 12)
          (load32 big_endian (fun i => buff.data (buff.mac_len + i) % 256) 16)
          (load16 big_endian (fun i => buff.data
            (buff.mac_len + ((buff.data (buff.mac_len + 0) % 256 % 16) <<< 2) + i) % 256) 0)
          (load16 big_endian (fun i => buff.data
            (buff.mac_len + ((buff.data (buff.mac_len + 0) % 256 % 16) <<< 2) + i) % 256) 2)
      else { hash := 0, type := htype.type_unknown } := by
  by_cases hc : buff.h_proto = htons_ETH_P_IP big_endian ∧ buff.mac_len + 20 ≤ buff.len ∧
      buff.mac_len + ((buff.data (buff.mac_len + 0) % 256 % 16) <<< 2) + 20 ≤ buff.len
  · rw [if_pos hc]
    obtain ⟨h1, h2, h3⟩ := hc
    unfold heuristic_voip qbuff_header_pointer
    simp only [if_pos h1, if_pos h2, if_pos h3]
    rfl
  · rw [if_neg hc]
    unfold heuristic_voip qbuff_header_pointer
    by_cases h1 : buff.h_proto = htons_ETH_P_IP big_endian
    swap
    · rw [if_neg h1]
    by_cases h2 : buff.mac_len + 20 ≤ buff.len
    swap
    · simp only [if_pos h1, if_neg h2]
    have h3 : ¬ buff.mac_len + ((buff.data (buff.mac_len + 0) % 256 % 16) <<< 2) + 20 ≤
        buff.len := fun h => hc ⟨h1, h2, h⟩
    simp only [if_pos h1, if_pos h2, if_neg h3]

theorem voip_fields_symm (big_endian steer : Bool) (p f pt sa da s d : Nat) :
    voip_fields big_endian steer p f pt da sa d s =
      voip_fields big_endian steer p f pt sa da s d := by
  have hx : da ^^^ (da >>> 8) ^^^ (da >>> 16) ^^^ (da >>> 24) ^^^
      sa ^^^ (sa >>> 8) ^^^ (sa >>> 16) ^^^ (sa >>> 24) ^^^ (d >>> 1) ^^^ (s >>> 1) =
      sa ^^^ (sa >>> 8) ^^^ (sa >>> 16) ^^^ (sa >>> 24) ^^^
      da ^^^ (da >>> 8) ^^^ (da >>> 16) ^^^ (da >>> 24) ^^^ (s >>> 1) ^^^ (d >>> 1) := by
    ac_rfl
  have c0 : ∀ A B C D : Prop, (A ∨ B ∨ C ∨ D) ↔ (B ∨ A ∨ D ∨ C) := by
    intro A B C D
    tauto
  have c1 : (be16_to_cpu big_endian s = 5060 ∨ be16_to_cpu big_endian d = 5060 ∨
      be16_to_cpu big_endian s = 5061 ∨ be16_to_cpu big_endian d = 5061) ↔
      (be16_to_cpu big_endian d = 5060 ∨ be16_to_cpu big_endian s = 5060 ∨
      be16_to_cpu big_endian d = 5061 ∨ be16_to_cpu big_endian s = 5061) := c0 _ _ _ _
  have c2 : (be16_to_cpu big_endian s < 1024 ∨ be16_to_cpu big_endian d < 1024) ↔
      (be16_to_cpu big_endian d < 1024 ∨ be16_to_cpu big_endian s < 1024) := or_comm
  have c3 : (be16_to_cpu big_endian s &&& 1 ≠ 0 ∧ be16_to_cpu big_endian d &&& 1 ≠ 0) ↔
      (be16_to_cpu big_endian d &&& 1 ≠ 0 ∧ be16_to_cpu big_endian s &&& 1 ≠ 0) := and_comm
  have c4 : (be16_to_cpu big_endian s &&& 1 ≠ 0 ∨ be16_to_cpu big_endian d &&& 1 ≠ 0) ↔
      (be16_to_cpu big_endian d &&& 1 ≠ 0 ∨ be16_to_cpu big_endian s &&& 1 ≠ 0) := or_comm
  unfold voip_fields
  simp only [hx, c1, c2, c3, c4]

/-- C30: for every packet whose IPv4 header has `ihl ≥ 5`, `heuristic_voip` returns the same
`struct hret` (type and hash, for both values of `steer`) for the packet and for the packet
with source address and port exchanged with destination address and port, on a host of
either byte order; so `steering_rtp` and `steering_voip` take the same decision, with the
same hash, for both directions of a flow. -/
theorem heuristic_voip_direction (big_endian : Bool) (buff : qbuff) (steer : Bool)
    (hihl : 5 ≤ buff.data buff.mac_len % 256 % 16) :
    heuristic_voip big_endian (swap_direction buff) steer =
      heuristic_voip big_endian buff steer ∧
    steering_rtp big_endian (swap_direction buff) = steering_rtp big_endian buff ∧
    steering_voip big_endian (swap_direction buff) = steering_voip big_endian buff := by
  have hu : buff.mac_len + 20 ≤ buff.mac_len + ((buff.data buff.mac_len % 256 % 16) <<< 2) := by
    rw [Nat.shiftLeft_eq]
    omega
  have key : ∀ steer, heuristic_voip big_endian (swap_direction buff) steer =
      heuristic_voip big_endian buff steer := by
    intro steer
    rw [heuristic_voip_fields big_endian (swap_direction buff),
      heuristic_voip_fields big_endian buff]
    have hi := swap_index_ip buff.mac_len
      (buff.mac_len + ((buff.data buff.mac_len % 256 % 16) <<< 2))
    have hd := swap_index_udp buff.mac_len
      (buff.mac_len + ((buff.data buff.mac_len % 256 % 16) <<< 2))
    have i0 := (hi 0 hu).1 (by norm_num)
    have i9 := (hi 9 hu).1 (by norm_num)
    have i12 := (hi 12 hu).2.1 (by norm_num) (by norm_num)
    have i13 := (hi 13 hu).2.1 (by norm_num) (by norm_num)
    have i14 := (hi 14 hu).2.1 (by norm_num) (by norm_num)
    have i15 := (hi 15 hu).2.1 (by norm_num) (by norm_num)
    have i16 := (hi 16 hu).2.2 (by norm_num) (by norm_num)
    have i17 := (hi 17 hu).2.2 (by norm_num) (by norm_num)
    have i18 := (hi 18 hu).2.2 (by norm_num) (by norm_num)
    have i19 := (hi 19 hu).2.2 (by norm_num) (by norm_num)
    have d0 := (hd 0 hu).1 (by norm_num)
    have d1 := (hd 1 hu).1 (by norm_num)
    have d2 := (hd 2 hu).2.1 (by norm_num) (by norm_num)
    have d3 := (hd 3 hu).2.1 (by norm_num) (by norm_num)
    have d8 := (hd 8 hu).2.2 (by norm_num)
    have d9 := (hd 9 hu).2.2 (by norm_num)
    simp only [Nat.add_zero, Nat.reduceAdd, Nat.reduceSub] at i0 i9 i12 i13 i14 i15 i16 i17
    simp only [Nat.add_zero, Nat.reduceAdd, Nat.reduceSub] at i18 i19 d0 d1 d2 d3 d8 d9
    simp only [swap_direction, load32, load16, Nat.add_zero, Nat.reduceAdd, i0, i9, i12, i13,
      i14, i15, i16, i17, i18, i19, d0, d1, d2, d3, d8, d9]
    by_cases hc : buff.h_proto = htons_ETH_P_IP big_endian ∧ buff.mac_len + 20 ≤ buff.len ∧
      buff.mac_len + ((buff.data buff.mac_len % 256 % 16) <<< 2) + 20 ≤ buff.len
    · rw [if_pos hc, if_pos hc]
      exact voip_fields_symm big_endian steer _ _ _ _ _ _ _
    · rw [if_neg hc, if_neg hc]
  refine ⟨key steer, ?_, ?_⟩
  · unfold steering_rtp
    rw [key true]
  · unfold steering_voip
    rw [key true]

theorem heuristic_voip_direction_witness :
    5 ≤ rtp_example.data rtp_example.mac_len % 256 % 16 ∧
    heuristic_voip false (swap_direction rtp_example) true =
      heuristic_voip false rtp_example true ∧
    (heuristic_voip false rtp_example true).type = htype.type_rtp ∧
    steering_rtp false (swap_direction rtp_example) = steering_rtp false rtp_example :=
  ⟨by decide, (heuristic_voip_direction false rtp_example true (by decide)).1, by decide,
   (heuristic_voip_direction false rtp_example true (by decide)).2.1⟩

end RTP
